import Mathlib

/-!
Verification of the Jack compiler front end (tokenizer + recursive-descent
parser) against its specification.

The definitions below are a shallow embedding of `src/tokenizer.rs` and
`src/parser.rs`.  The Rust cursor (`i` over a `Vec<char>`, `position` over a
token slice) is modelled by recursion over the remaining list: advancing the
cursor is taking the tail of the list.  Rust `Result<T, String>` is modelled
by an explicit result type; the recursive-descent parser additionally carries
a fuel parameter (the Rust functions recurse on the heap, Lean functions must
be total), and we prove that fuel linear in the input size is always enough,
which is exactly the "bounded by input size" termination property of the
source.  Machine integers: the only machine-integer arithmetic in the source
is `str::parse::<u16>()`, which on a nonempty all-digit string succeeds
exactly when the denoted number is at most 65535; it is modelled by exact
`Nat` arithmetic with that bound checked explicitly.  Character classification
(`is_whitespace`, `is_alphabetic`, `is_alphanumeric`, `is_ascii_digit`) is
modelled with Lean's ASCII classifiers.
-/

namespace Jack

/-- Keyword enum from `src/tokenizer.rs`. -/
inductive Keyword where
  | Class | Constructor | Function | Method | Field | Static
  | Var | Int | Char | Boolean | Void | True | False | Null
  | This | Let | Do | If | Else | While | Return
deriving DecidableEq, Repr

/-- TokenType enum from `src/tokenizer.rs`.  `IntConst` holds a `u16` in the
source; it is modelled as a `Nat` (the tokenizer only ever stores values that
passed the `u16` range check, see `tokenizer_intConst_le`). -/
inductive TokenType where
  | Keyword (k : Keyword)
  | Symbol (c : Char)
  | IntConst (v : Nat)
  | StrConst (s : String)
  | Identifier (s : String)
deriving DecidableEq, Repr

/-- Token struct from `src/tokenizer.rs`. -/
structure Token where
  token_type : TokenType
  value : String
  line_number : Nat
deriving DecidableEq, Repr

/-- The fixed symbol set of tokenizer step 3: `"{}()[].,;+-*/&|<>=~"`. -/
def symbols : List Char :=
  ['\x7b', '\x7d', '(', ')', '[', ']', '.', ',', ';',
   '+', '-', '*', '/', '&', '|', '<', '>', '=', '~']

/-- The reserved-word table of tokenizer step 6 (the `match` on the
identifier text in `src/tokenizer.rs`). -/
def keywordOf : String → Option Keyword
  | "class" => some .Class
  | "constructor" => some .Constructor
  | "function" => some .Function
  | "method" => some .Method
  | "field" => some .Field
  | "static" => some .Static
  | "var" => some .Var
  | "int" => some .Int
  | "char" => some .Char
  | "boolean" => some .Boolean
  | "void" => some .Void
  | "true" => some .True
  | "false" => some .False
  | "null" => some .Null
  | "this" => some .This
  | "let" => some .Let
  | "do" => some .Do
  | "if" => some .If
  | "else" => some .Else
  | "while" => some .While
  | "return" => some .Return
  | _ => none

/-- The multi-line comment scanner: the inner `while` loop of tokenizer
step 2 for `/* ... */`, already positioned after the opening `/*`.  Returns
the characters after the closing `*/` together with the updated line counter,
or `none` when the loop runs out of input (`i + 1 >= chars.len()`) before a
`*/` is found; the source then reports the line the comment started on. -/
def skipBlockComment : List Char → Nat → Option (List Char × Nat)
  | [], _ => none
  | [_], _ => none
  | c1 :: c2 :: rest, line =>
    if c1 = '*' ∧ c2 = '/' then some (rest, line)
    else skipBlockComment (c2 :: rest) (if c1 = '\n' then line + 1 else line)

/-- The string-literal scanner: the inner `while` loop of tokenizer step 4,
already positioned after the opening quote.  Returns the literal's characters
(quotes excluded) and the characters after the closing quote; `none` when a
raw newline or the end of input is reached first (both produce the same
`Unterminated string` error in the source). -/
def takeStringLit : List Char → Option (List Char × List Char)
  | [] => none
  | c :: rest =>
    if c = '"' then some ([], rest)
    else if c = '\n' then none
    else
      match takeStringLit rest with
      | none => none
      | some (s, r) => some (c :: s, r)

/-- Value denoted by a run of decimal digits.  `num_str.parse::<u16>()` in
the source succeeds on a nonempty digit run exactly when this value is at
most 65535 (the checked arithmetic of `parse` only ever fails with overflow
on all-digit input, and the accumulated value is monotone). -/
def digitsToNat (cs : List Char) : Nat :=
  cs.foldl (fun a c => a * 10 + (c.toNat - 48)) 0

/-- Prepend a token to a successful tokenization of the remaining input;
models `tokens.push(...)` followed by `continue` in the source loop. -/
def withTok (t : Token) : Option (Except String (List Token)) →
    Option (Except String (List Token))
  | some (.ok ts) => some (.ok (t :: ts))
  | r => r

/-- The main tokenizer loop of `src/tokenizer.rs` (`pub fn tokenizer`).
`fuel` bounds the number of loop iterations; `tokenizeAux_total` proves that
`chars.length + 1` is always enough, because every iteration consumes at
least one character.  The branches appear in source order: whitespace,
`//` comment, `/* */` comment, symbol, string constant, integer constant,
keyword/identifier, invalid character. -/
def tokenizeAux : Nat → List Char → Nat → Option (Except String (List Token))
  | 0, _, _ => none
  | _ + 1, [], _ => some (.ok [])
  | fuel + 1, c :: rest, line =>
    if c.isWhitespace then
      tokenizeAux fuel rest (if c = '\n' then line + 1 else line)
    else if c = '/' ∧ rest.head? = some '/' then
      tokenizeAux fuel (rest.tail.dropWhile (fun x => x != '\n')) line
    else if c = '/' ∧ rest.head? = some '*' then
      match skipBlockComment rest.tail line with
      | none =>
        some (.error ("Unterminated multi-line comment starting on line "
          ++ toString line))
      | some (rest', line') => tokenizeAux fuel rest' line'
    else if c ∈ symbols then
      withTok ⟨.Symbol c, c.toString, line⟩ (tokenizeAux fuel rest line)
    else if c = '"' then
      match takeStringLit rest with
      | none => some (.error ("Unterminated string on line " ++ toString line))
      | some (s, rest') =>
        withTok ⟨.StrConst (String.mk s), String.mk s, line⟩
          (tokenizeAux fuel rest' line)
    else if c.isDigit then
      if digitsToNat ((c :: rest).takeWhile (fun x => x.isDigit)) ≤ 65535 then
        withTok ⟨.IntConst (digitsToNat ((c :: rest).takeWhile (fun x => x.isDigit))),
            String.mk ((c :: rest).takeWhile (fun x => x.isDigit)), line⟩
          (tokenizeAux fuel ((c :: rest).dropWhile (fun x => x.isDigit)) line)
      else
        some (.error ("Invalid integer '"
          ++ String.mk ((c :: rest).takeWhile (fun x => x.isDigit)) ++ "' on line "
          ++ toString line ++ ": number too large to fit in target type"))
    else if c.isAlpha ∨ c = '_' then
      withTok ⟨match keywordOf (String.mk ((c :: rest).takeWhile (fun x => x.isAlphanum || x == '_'))) with
               | some k => TokenType.Keyword k
               | none => TokenType.Identifier (String.mk ((c :: rest).takeWhile (fun x => x.isAlphanum || x == '_'))),
            String.mk ((c :: rest).takeWhile (fun x => x.isAlphanum || x == '_')), line⟩
        (tokenizeAux fuel ((c :: rest).dropWhile (fun x => x.isAlphanum || x == '_')) line)
    else
      some (.error ("Invalid character '" ++ c.toString ++ "' on line "
        ++ toString line))

/-- Entry point `tokenizer(content)`: run the loop on the characters of the
source text, starting at line 1.  The fuel `length + 1` is proven sufficient
(`tokenizeAux_total`), so the default is never used. -/
def tokenize (s : String) : Except String (List Token) :=
  (tokenizeAux (s.data.length + 1) s.data 1).getD (.error "out of fuel")

/-! ## AST node types from `src/parser.rs`

`Box` is dropped (Lean inductives are already heap values), and the
recursive `struct`s of the statement/expression family become
single-constructor inductives in one mutual block.  `Type` from the source
is renamed `JType` because `Type` is a Lean keyword. -/

/-- ClassVarKind enum: `Static` or `Field`. -/
inductive ClassVarKind where
  | Static
  | Field
deriving DecidableEq, Repr

/-- Type enum from `src/parser.rs` (renamed: `Type` is a Lean keyword). -/
inductive JType where
  | Int
  | Char
  | Boolean
  | ClassName (name : String)
deriving DecidableEq, Repr

/-- SubroutineKind enum: `Constructor`, `Function` or `Method`. -/
inductive SubroutineKind where
  | Constructor
  | Function
  | Method
deriving DecidableEq, Repr

mutual

/-- ExpressionNode: `initial_term` plus the ordered `operations` list of
(binary operator, term) pairs. -/
inductive ExpressionNode where
  | mk (initial_term : TermNode) (operations : List (Char × TermNode))

/-- TermNode variants, exactly the source's `TermNode` enum. -/
inductive TermNode where
  | IntConst (v : Nat)
  | StrConst (s : String)
  | KeywordConst (k : Keyword)
  | VarName (n : String)
  | ArrayAccess (n : String) (idx : ExpressionNode)
  | SubroutineCall (c : SubroutineCallNode)
  | Parenthesized (e : ExpressionNode)
  | UnaryOp (op : Char) (t : TermNode)

/-- SubroutineCallNode: optional receiver, name, argument expressions. -/
inductive SubroutineCallNode where
  | mk (receiver : Option String) (name : String) (args : List ExpressionNode)

/-- StatementNode tagged union. -/
inductive StatementNode where
  | Let (s : LetStatementNode)
  | If (s : IfStatementNode)
  | While (s : WhileStatementNode)
  | Do (s : DoStatementNode)
  | Return (s : ReturnStatementNode)

/-- LetStatementNode: `var_name`, optional `index_expr`, `value_expr`. -/
inductive LetStatementNode where
  | mk (var_name : String) (index_expr : Option ExpressionNode)
      (value_expr : ExpressionNode)

/-- IfStatementNode: `condition`, `if_block`, optional `else_block`. -/
inductive IfStatementNode where
  | mk (condition : ExpressionNode) (if_block : List StatementNode)
      (else_block : Option (List StatementNode))

/-- WhileStatementNode: `condition` and `body`. -/
inductive WhileStatementNode where
  | mk (condition : ExpressionNode) (body : List StatementNode)

/-- DoStatementNode: the subroutine `call`. -/
inductive DoStatementNode where
  | mk (call : SubroutineCallNode)

/-- ReturnStatementNode: optional `value` expression. -/
inductive ReturnStatementNode where
  | mk (value : Option ExpressionNode)

end

/-- Projection for the `initial_term` field of `ExpressionNode`. -/
def ExpressionNode.initial_term : ExpressionNode → TermNode
  | .mk t _ => t

/-- Projection for the `operations` field of `ExpressionNode`. -/
def ExpressionNode.operations : ExpressionNode → List (Char × TermNode)
  | .mk _ ops => ops

/-- Projection for the `else_block` field of `IfStatementNode`. -/
def IfStatementNode.else_block : IfStatementNode → Option (List StatementNode)
  | .mk _ _ e => e

/-- VarDecNode: one `var` declaration (type and names). -/
structure VarDecNode where
  var_type : JType
  names : List String

/-- SubroutineBodyNode: local variable declarations and statements. -/
structure SubroutineBodyNode where
  var_decs : List VarDecNode
  statements : List StatementNode

/-- ClassVarDecNode: kind, type, and declared names. -/
structure ClassVarDecNode where
  kind : ClassVarKind
  var_type : JType
  names : List String

/-- SubroutineDecNode: kind, optional return type (`none` = void), name,
parameters, body. -/
structure SubroutineDecNode where
  kind : SubroutineKind
  return_type : Option JType
  name : String
  parameters : List (JType × String)
  body : SubroutineBodyNode

/-- ClassNode: the root of the AST. -/
structure ClassNode where
  name : String
  var_decs : List ClassVarDecNode
  subroutine_decs : List SubroutineDecNode

/-! ## Debug formatting used in parser error messages

The source builds error messages with `format!` and `{:?}` on tokens and
keywords; these functions reproduce Rust's derived `Debug` output for the
token types (string escaping inside `Debug` of `String` is not modelled:
token values in the inputs at issue contain no characters that Rust would
escape). -/

/-- Rust `Debug` output for `Keyword` (just the variant name). -/
def reprKeyword : Keyword → String
  | .Class => "Class"
  | .Constructor => "Constructor"
  | .Function => "Function"
  | .Method => "Method"
  | .Field => "Field"
  | .Static => "Static"
  | .Var => "Var"
  | .Int => "Int"
  | .Char => "Char"
  | .Boolean => "Boolean"
  | .Void => "Void"
  | .True => "True"
  | .False => "False"
  | .Null => "Null"
  | .This => "This"
  | .Let => "Let"
  | .Do => "Do"
  | .If => "If"
  | .Else => "Else"
  | .While => "While"
  | .Return => "Return"

/-- Rust `Debug` output for `TokenType`. -/
def reprTokenType : TokenType → String
  | .Keyword k => "Keyword(" ++ reprKeyword k ++ ")"
  | .Symbol c => "Symbol('" ++ c.toString ++ "')"
  | .IntConst v => "IntConst(" ++ toString v ++ ")"
  | .StrConst s => "StrConst(\"" ++ s ++ "\")"
  | .Identifier s => "Identifier(\"" ++ s ++ "\")"

/-- Rust `Debug` output for `Token` (the `{:?}` format of the derived
`Debug` instance on the struct). -/
def reprToken (t : Token) : String :=
  "Token \x7b token_type: " ++ reprTokenType t.token_type
    ++ ", value: \"" ++ t.value ++ "\", line_number: "
    ++ toString t.line_number ++ " \x7d"

/-- Rust `Debug` output for a `&[Keyword]` slice, used by
`expect_one_of_keywords`. -/
def reprKeywordList (ks : List Keyword) : String :=
  "[" ++ String.intercalate ", " (ks.map reprKeyword) ++ "]"

/-! ## Parser

The Rust `Parser` holds `tokens: &[Token]` and `position: usize`; all access
is through `peek` (`tokens.get(position)`), `peek_next`
(`tokens.get(position + 1)`) and `advance` (increment `position` when in
bounds).  We model the state by the list of tokens from `position` onwards:
`peek` is `head?`, `peek_next` is `tail.head?`, `advance` is `tail` (the
source clamps `advance` at the end of the sequence, and `List.tail [] = []`
matches that clamp).  A parse step returns `ok value rest`, an error
message, or `fuelOut` — the artificial out-of-fuel marker for the fuel
parameter of the recursive functions, proven unreachable for fuel at least
`4 * length + 4` (`parser fuel` theorems below). -/

/-- Result of one parser operation: Rust `Result<T, String>` together with
the updated cursor (`rest` = tokens not yet consumed), plus the artificial
`fuelOut` case. -/
inductive PResult (α : Type) where
  | ok (a : α) (rest : List Token)
  | err (msg : String)
  | fuelOut
deriving Repr

/-- Sequencing of parser operations: the `?` operator of the source. -/
def PResult.bind {α β : Type} : PResult α → (α → List Token → PResult β) → PResult β
  | .ok a rest, f => f a rest
  | .err m, _ => .err m
  | .fuelOut, _ => .fuelOut

/-- Utility `peek`: `self.tokens.get(self.position)`. -/
def peek (ts : List Token) : Option Token := ts.head?

/-- Utility `peek_next`: `self.tokens.get(self.position + 1)`. -/
def peek_next (ts : List Token) : Option Token := ts.tail.head?

/-- Utility `advance`: increments the position.  The source clamps at the
end of the token sequence; taking the tail of the remaining list (with
`tail [] = []`) is the same clamp. -/
def advance (ts : List Token) : List Token := ts.tail

/-- Utility `expect_identifier` from `src/parser.rs`. -/
def expect_identifier : List Token → PResult String
  | [] => .err "Expected identifier, but found EOF"
  | t :: ts =>
    match t.token_type with
    | .Identifier name => .ok name ts
    | _ => .err ("Expected identifier, but found " ++ reprToken t)

/-- Utility `expect_keyword` from `src/parser.rs`. -/
def expect_keyword (expected : Keyword) : List Token → PResult Unit
  | [] => .err ("Expected keyword " ++ reprKeyword expected ++ ", but found EOF")
  | t :: ts =>
    if t.token_type = .Keyword expected then .ok () ts
    else .err ("Expected keyword " ++ reprKeyword expected ++ ", but found "
      ++ reprToken t)

/-- Utility `expect_one_of_keywords` from `src/parser.rs`. -/
def expect_one_of_keywords (expected : List Keyword) : List Token → PResult Keyword
  | [] => .err ("Expected one of " ++ reprKeywordList expected ++ ", but found EOF")
  | t :: ts =>
    match t.token_type with
    | .Keyword k =>
      if k ∈ expected then .ok k ts
      else .err ("Expected one of " ++ reprKeywordList expected ++ ", but found "
        ++ reprToken t)
    | _ => .err ("Expected one of " ++ reprKeywordList expected ++ ", but found "
      ++ reprToken t)

/-- Utility `match_keyword`: consume the keyword if present, report whether
it was. -/
def match_keyword (expected : Keyword) (ts : List Token) : Bool × List Token :=
  match ts with
  | [] => (false, ts)
  | t :: rest =>
    if t.token_type = .Keyword expected then (true, rest) else (false, ts)

/-- Utility `peek_keyword`: does the next token hold one of the given
keywords? -/
def peek_keyword (keywords : List Keyword) (ts : List Token) : Bool :=
  match ts with
  | [] => false
  | t :: _ =>
    match t.token_type with
    | .Keyword k => k ∈ keywords
    | _ => false

/-- Utility `expect_symbol` from `src/parser.rs`. -/
def expect_symbol (expected : Char) : List Token → PResult Unit
  | [] => .err ("Expected symbol '" ++ expected.toString ++ "', but found EOF")
  | t :: ts =>
    if t.token_type = .Symbol expected then .ok () ts
    else .err ("Expected symbol '" ++ expected.toString ++ "', but found "
      ++ reprToken t)

/-- Utility `match_symbol`: consume the symbol if present, report whether it
was. -/
def match_symbol (expected : Char) (ts : List Token) : Bool × List Token :=
  match ts with
  | [] => (false, ts)
  | t :: rest =>
    if t.token_type = .Symbol expected then (true, rest) else (false, ts)

/-- Utility `peek_symbol`: is the next token the given symbol? -/
def peek_symbol (symbol : Char) (ts : List Token) : Bool :=
  match ts with
  | [] => false
  | t :: _ =>
    match t.token_type with
    | .Symbol s => s = symbol
    | _ => false

/-- Utility `peek_next_symbol`: is the token after the next one the given
symbol? -/
def peek_next_symbol (symbol : Char) (ts : List Token) : Bool :=
  match peek_next ts with
  | none => false
  | some t =>
    match t.token_type with
    | .Symbol s => s = symbol
    | _ => false

/-- Utility `peek_op`: the next token's symbol when it is one of the fixed
binary-operator characters `"+-*/&|<>="`. -/
def peek_op (ts : List Token) : Option Char :=
  match ts with
  | [] => none
  | t :: _ =>
    match t.token_type with
    | .Symbol s =>
      if s ∈ ['+', '-', '*', '/', '&', '|', '<', '>', '='] then some s else none
    | _ => none

/-- `parse_type` from `src/parser.rs` (not recursive, so no fuel).  In the
identifier case the source calls `expect_identifier` after peeking, which we
reproduce. -/
def parse_type : List Token → PResult JType
  | [] => .err "Expected type, found EOF"
  | t :: ts =>
    match t.token_type with
    | .Keyword k =>
      match k with
      | .Int => .ok JType.Int ts
      | .Char => .ok JType.Char ts
      | .Boolean => .ok JType.Boolean ts
      | _ => .err ("Expected type keyword, found " ++ reprKeyword k)
    | .Identifier _ =>
      (expect_identifier (t :: ts)).bind fun name ts => .ok (JType.ClassName name) ts
    | _ => .err ("Expected type, found " ++ reprToken t)

mutual

/-- `parse_class` from `src/parser.rs`. -/
def parse_class : Nat → List Token → PResult ClassNode
  | 0, _ => .fuelOut
  | fuel + 1, ts =>
    (expect_keyword .Class ts).bind fun _ ts =>
    (expect_identifier ts).bind fun name ts =>
    (expect_symbol '\x7b' ts).bind fun _ ts =>
    (parse_class_var_decs fuel ts).bind fun var_decs ts =>
    (parse_subroutine_decs fuel ts).bind fun subroutine_decs ts =>
    (expect_symbol '\x7d' ts).bind fun _ ts =>
    .ok ⟨name, var_decs, subroutine_decs⟩ ts

/-- The `while self.peek_keyword(&[Static, Field])` loop of `parse_class`. -/
def parse_class_var_decs : Nat → List Token → PResult (List ClassVarDecNode)
  | 0, _ => .fuelOut
  | fuel + 1, ts =>
    if peek_keyword [.Static, .Field] ts then
      (parse_class_var_dec fuel ts).bind fun d ts =>
      (parse_class_var_decs fuel ts).bind fun ds ts =>
      .ok (d :: ds) ts
    else .ok [] ts

/-- `parse_class_var_dec` from `src/parser.rs`.  The `unreachable!()` arm of
the source's `match` cannot fire (`expect_one_of_keywords` only returns a
member of the list it was given), so the Lean `match` folds it into the
`Static` arm. -/
def parse_class_var_dec : Nat → List Token → PResult ClassVarDecNode
  | 0, _ => .fuelOut
  | fuel + 1, ts =>
    (expect_one_of_keywords [.Static, .Field] ts).bind fun k ts =>
    (parse_type ts).bind fun var_type ts =>
    (expect_identifier ts).bind fun n0 ts =>
    (parse_comma_names fuel ts).bind fun more ts =>
    (expect_symbol ';' ts).bind fun _ ts =>
    .ok ⟨match k with | .Field => .Field | _ => .Static, var_type, n0 :: more⟩ ts

/-- The `while self.match_symbol(',') { names.push(self.expect_identifier()?) }`
loop shared by `parse_class_var_dec` and `parse_var_dec`. -/
def parse_comma_names : Nat → List Token → PResult (List String)
  | 0, _ => .fuelOut
  | fuel + 1, ts =>
    match match_symbol ',' ts with
    | (true, ts) =>
      (expect_identifier ts).bind fun n ts =>
      (parse_comma_names fuel ts).bind fun ns ts =>
      .ok (n :: ns) ts
    | (false, ts) => .ok [] ts

/-- The `while self.peek_keyword(&[Constructor, Function, Method])` loop of
`parse_class`. -/
def parse_subroutine_decs : Nat → List Token → PResult (List SubroutineDecNode)
  | 0, _ => .fuelOut
  | fuel + 1, ts =>
    if peek_keyword [.Constructor, .Function, .Method] ts then
      (parse_subroutine_dec fuel ts).bind fun d ts =>
      (parse_subroutine_decs fuel ts).bind fun ds ts =>
      .ok (d :: ds) ts
    else .ok [] ts

/-- `parse_subroutine_dec` from `src/parser.rs`; as in
`parse_class_var_dec`, the `unreachable!()` arm is folded into one of the
possible kinds. -/
def parse_subroutine_dec : Nat → List Token → PResult SubroutineDecNode
  | 0, _ => .fuelOut
  | fuel + 1, ts =>
    (expect_one_of_keywords [.Constructor, .Function, .Method] ts).bind fun k ts =>
    (match match_keyword .Void ts with
     | (true, ts) => PResult.ok (none : Option JType) ts
     | (false, ts) => (parse_type ts).bind fun t ts => .ok (some t) ts).bind
      fun return_type ts =>
    (expect_identifier ts).bind fun name ts =>
    (expect_symbol '(' ts).bind fun _ ts =>
    (parse_parameter_list fuel ts).bind fun parameters ts =>
    (expect_symbol ')' ts).bind fun _ ts =>
    (parse_subroutine_body fuel ts).bind fun body ts =>
    .ok ⟨match k with
         | .Constructor => .Constructor
         | .Method => .Method
         | _ => .Function, return_type, name, parameters, body⟩ ts

/-- `parse_parameter_list` from `src/parser.rs`. -/
def parse_parameter_list : Nat → List Token → PResult (List (JType × String))
  | 0, _ => .fuelOut
  | fuel + 1, ts =>
    if peek_symbol ')' ts then .ok [] ts
    else
      (parse_type ts).bind fun p_type ts =>
      (expect_identifier ts).bind fun p_name ts =>
      (parse_params_rest fuel ts).bind fun rest ts =>
      .ok ((p_type, p_name) :: rest) ts

/-- The `while self.match_symbol(',')` loop of `parse_parameter_list`. -/
def parse_params_rest : Nat → List Token → PResult (List (JType × String))
  | 0, _ => .fuelOut
  | fuel + 1, ts =>
    match match_symbol ',' ts with
    | (true, ts) =>
      (parse_type ts).bind fun p_type ts =>
      (expect_identifier ts).bind fun p_name ts =>
      (parse_params_rest fuel ts).bind fun rest ts =>
      .ok ((p_type, p_name) :: rest) ts
    | (false, ts) => .ok [] ts

/-- `parse_subroutine_body` from `src/parser.rs`. -/
def parse_subroutine_body : Nat → List Token → PResult SubroutineBodyNode
  | 0, _ => .fuelOut
  | fuel + 1, ts =>
    (expect_symbol '\x7b' ts).bind fun _ ts =>
    (parse_var_decs fuel ts).bind fun var_decs ts =>
    (parse_statements fuel ts).bind fun statements ts =>
    (expect_symbol '\x7d' ts).bind fun _ ts =>
    .ok ⟨var_decs, statements⟩ ts

/-- The `while self.peek_keyword(&[Var])` loop of `parse_subroutine_body`. -/
def parse_var_decs : Nat → List Token → PResult (List VarDecNode)
  | 0, _ => .fuelOut
  | fuel + 1, ts =>
    if peek_keyword [.Var] ts then
      (parse_var_dec fuel ts).bind fun d ts =>
      (parse_var_decs fuel ts).bind fun ds ts =>
      .ok (d :: ds) ts
    else .ok [] ts

/-- `parse_var_dec` from `src/parser.rs`. -/
def parse_var_dec : Nat → List Token → PResult VarDecNode
  | 0, _ => .fuelOut
  | fuel + 1, ts =>
    (expect_keyword .Var ts).bind fun _ ts =>
    (parse_type ts).bind fun var_type ts =>
    (expect_identifier ts).bind fun n0 ts =>
    (parse_comma_names fuel ts).bind fun more ts =>
    (expect_symbol ';' ts).bind fun _ ts =>
    .ok ⟨var_type, n0 :: more⟩ ts

/-- `parse_statements` from `src/parser.rs`: the `while self.is_statement()`
loop. -/
def parse_statements : Nat → List Token → PResult (List StatementNode)
  | 0, _ => .fuelOut
  | fuel + 1, ts =>
    if peek_keyword [.Let, .If, .While, .Do, .Return] ts then
      (parse_statement fuel ts).bind fun s ts =>
      (parse_statements fuel ts).bind fun ss ts =>
      .ok (s :: ss) ts
    else .ok [] ts

/-- `parse_statement` from `src/parser.rs`. -/
def parse_statement : Nat → List Token → PResult StatementNode
  | 0, _ => .fuelOut
  | fuel + 1, ts =>
    match ts.head? with
    | some t =>
      match t.token_type with
      | .Keyword k =>
        match k with
        | .Let => (parse_let_statement fuel ts).bind fun s ts => .ok (.Let s) ts
        | .If => (parse_if_statement fuel ts).bind fun s ts => .ok (.If s) ts
        | .While => (parse_while_statement fuel ts).bind fun s ts => .ok (.While s) ts
        | .Do => (parse_do_statement fuel ts).bind fun s ts => .ok (.Do s) ts
        | .Return => (parse_return_statement fuel ts).bind fun s ts => .ok (.Return s) ts
        | _ => .err ("Expected statement keyword, found " ++ reprKeyword k)
      | _ => .err "Expected statement, but found nothing or not a keyword"
    | none => .err "Expected statement, but found nothing or not a keyword"

/-- `parse_let_statement` from `src/parser.rs`. -/
def parse_let_statement : Nat → List Token → PResult LetStatementNode
  | 0, _ => .fuelOut
  | fuel + 1, ts =>
    (expect_keyword .Let ts).bind fun _ ts =>
    (expect_identifier ts).bind fun var_name ts =>
    (match match_symbol '[' ts with
     | (true, ts) =>
       (parse_expression fuel ts).bind fun e ts =>
       (expect_symbol ']' ts).bind fun _ ts =>
       PResult.ok (some e) ts
     | (false, ts) => PResult.ok (none : Option ExpressionNode) ts).bind
      fun index_expr ts =>
    (expect_symbol '=' ts).bind fun _ ts =>
    (parse_expression fuel ts).bind fun value_expr ts =>
    (expect_symbol ';' ts).bind fun _ ts =>
    .ok (.mk var_name index_expr value_expr) ts

/-- `parse_if_statement` from `src/parser.rs`: the optional `else` block is
consumed exactly when `match_keyword(Else)` succeeds right after the closing
brace of the if block. -/
def parse_if_statement : Nat → List Token → PResult IfStatementNode
  | 0, _ => .fuelOut
  | fuel + 1, ts =>
    (expect_keyword .If ts).bind fun _ ts =>
    (expect_symbol '(' ts).bind fun _ ts =>
    (parse_expression fuel ts).bind fun condition ts =>
    (expect_symbol ')' ts).bind fun _ ts =>
    (expect_symbol '\x7b' ts).bind fun _ ts =>
    (parse_statements fuel ts).bind fun if_block ts =>
    (expect_symbol '\x7d' ts).bind fun _ ts =>
    (match match_keyword .Else ts with
     | (true, ts) =>
       (expect_symbol '\x7b' ts).bind fun _ ts =>
       (parse_statements fuel ts).bind fun else_block ts =>
       (expect_symbol '\x7d' ts).bind fun _ ts =>
       PResult.ok (some else_block) ts
     | (false, ts) => PResult.ok (none : Option (List StatementNode)) ts).bind
      fun else_block ts =>
    .ok (.mk condition if_block else_block) ts

/-- `parse_while_statement` from `src/parser.rs`. -/
def parse_while_statement : Nat → List Token → PResult WhileStatementNode
  | 0, _ => .fuelOut
  | fuel + 1, ts =>
    (expect_keyword .While ts).bind fun _ ts =>
    (expect_symbol '(' ts).bind fun _ ts =>
    (parse_expression fuel ts).bind fun condition ts =>
    (expect_symbol ')' ts).bind fun _ ts =>
    (expect_symbol '\x7b' ts).bind fun _ ts =>
    (parse_statements fuel ts).bind fun body ts =>
    (expect_symbol '\x7d' ts).bind fun _ ts =>
    .ok (.mk condition body) ts

/-- `parse_do_statement` from `src/parser.rs`. -/
def parse_do_statement : Nat → List Token → PResult DoStatementNode
  | 0, _ => .fuelOut
  | fuel + 1, ts =>
    (expect_keyword .Do ts).bind fun _ ts =>
    (parse_subroutine_call fuel ts).bind fun call ts =>
    (expect_symbol ';' ts).bind fun _ ts =>
    .ok (.mk call) ts

/-- `parse_return_statement` from `src/parser.rs`. -/
def parse_return_statement : Nat → List Token → PResult ReturnStatementNode
  | 0, _ => .fuelOut
  | fuel + 1, ts =>
    (expect_keyword .Return ts).bind fun _ ts =>
    (if peek_symbol ';' ts then PResult.ok (none : Option ExpressionNode) ts
     else (parse_expression fuel ts).bind fun e ts => PResult.ok (some e) ts).bind
      fun value ts =>
    (expect_symbol ';' ts).bind fun _ ts =>
    .ok (.mk value) ts

/-- `parse_expression` from `src/parser.rs`: one initial term, then the
operator/term loop. -/
def parse_expression : Nat → List Token → PResult ExpressionNode
  | 0, _ => .fuelOut
  | fuel + 1, ts =>
    (parse_term fuel ts).bind fun initial_term ts =>
    (parse_ops fuel ts).bind fun operations ts =>
    .ok (.mk initial_term operations) ts

/-- The `while let Some(op) = self.peek_op()` loop of `parse_expression`:
consume the operator (`advance`), parse one term, append the pair. -/
def parse_ops : Nat → List Token → PResult (List (Char × TermNode))
  | 0, _ => .fuelOut
  | fuel + 1, ts =>
    match peek_op ts with
    | some op =>
      (parse_term fuel (advance ts)).bind fun t ts =>
      (parse_ops fuel ts).bind fun rest ts =>
      .ok ((op, t) :: rest) ts
    | none => .ok [] ts

/-- `parse_term` from `src/parser.rs`. -/
def parse_term : Nat → List Token → PResult TermNode
  | 0, _ => .fuelOut
  | fuel + 1, ts =>
    match ts.head? with
    | none => .err "Unexpected EOF in term"
    | some t =>
      match t.token_type with
      | .IntConst v => .ok (.IntConst v) (advance ts)
      | .StrConst s => .ok (.StrConst s) (advance ts)
      | .Keyword k =>
        match k with
        | .True | .False | .Null | .This => .ok (.KeywordConst k) (advance ts)
        | _ => .err ("Unexpected token in term: " ++ reprToken t)
      | .Identifier _ =>
        if peek_next_symbol '.' ts ∨ peek_next_symbol '(' ts then
          (parse_subroutine_call fuel ts).bind fun c ts =>
            .ok (.SubroutineCall c) ts
        else if peek_next_symbol '[' ts then
          (expect_identifier ts).bind fun name ts =>
          (expect_symbol '[' ts).bind fun _ ts =>
          (parse_expression fuel ts).bind fun e ts =>
          (expect_symbol ']' ts).bind fun _ ts =>
          .ok (.ArrayAccess name e) ts
        else
          (expect_identifier ts).bind fun n ts => .ok (.VarName n) ts
      | .Symbol s =>
        if s = '(' then
          (parse_expression fuel (advance ts)).bind fun e ts =>
          (expect_symbol ')' ts).bind fun _ ts =>
          .ok (.Parenthesized e) ts
        else if s = '-' ∨ s = '~' then
          (parse_term fuel (advance ts)).bind fun inner ts =>
          .ok (.UnaryOp s inner) ts
        else .err ("Unexpected token in term: " ++ reprToken t)

/-- `parse_subroutine_call` from `src/parser.rs`. -/
def parse_subroutine_call : Nat → List Token → PResult SubroutineCallNode
  | 0, _ => .fuelOut
  | fuel + 1, ts =>
    (expect_identifier ts).bind fun first_identifier ts =>
    (match match_symbol '.' ts with
     | (true, ts) =>
       (expect_identifier ts).bind fun n ts =>
       PResult.ok (some first_identifier, n) ts
     | (false, ts) => PResult.ok ((none : Option String), first_identifier) ts).bind
      fun rn ts =>
    (expect_symbol '(' ts).bind fun _ ts =>
    (parse_expression_list fuel ts).bind fun args ts =>
    (expect_symbol ')' ts).bind fun _ ts =>
    .ok (.mk rn.1 rn.2 args) ts

/-- `parse_expression_list` from `src/parser.rs`. -/
def parse_expression_list : Nat → List Token → PResult (List ExpressionNode)
  | 0, _ => .fuelOut
  | fuel + 1, ts =>
    if peek_symbol ')' ts then .ok [] ts
    else
      (parse_expression fuel ts).bind fun e ts =>
      (parse_args_rest fuel ts).bind fun rest ts =>
      .ok (e :: rest) ts

/-- The `while self.match_symbol(',')` loop of `parse_expression_list`. -/
def parse_args_rest : Nat → List Token → PResult (List ExpressionNode)
  | 0, _ => .fuelOut
  | fuel + 1, ts =>
    match match_symbol ',' ts with
    | (true, ts) =>
      (parse_expression fuel ts).bind fun e ts =>
      (parse_args_rest fuel ts).bind fun rest ts =>
      .ok (e :: rest) ts
    | (false, ts) => .ok [] ts

end

/-! ## Auxiliary predicates and concrete inputs used in the theorems -/

/-- Does the character list contain an occurrence of the two-character
closing delimiter `*/`?  (Scanning pairwise, as the comment loop of the
tokenizer does.) -/
def hasStarSlash : List Char → Bool
  | [] => false
  | [_] => false
  | c1 :: c2 :: rest => (c1 = '*' ∧ c2 = '/' : Bool) || hasStarSlash (c2 :: rest)

/-- The scenario input `class Main { function void main() { return; } }`. -/
def mainSource : String :=
  "class Main \x7b function void main() \x7b return; \x7d \x7d"

/-- The token sequence produced for `mainSource`. -/
def mainTokens : List Token :=
  [⟨.Keyword .Class, "class", 1⟩, ⟨.Identifier "Main", "Main", 1⟩,
   ⟨.Symbol '\x7b', "\x7b", 1⟩, ⟨.Keyword .Function, "function", 1⟩,
   ⟨.Keyword .Void, "void", 1⟩, ⟨.Identifier "main", "main", 1⟩,
   ⟨.Symbol '(', "(", 1⟩, ⟨.Symbol ')', ")", 1⟩,
   ⟨.Symbol '\x7b', "\x7b", 1⟩, ⟨.Keyword .Return, "return", 1⟩,
   ⟨.Symbol ';', ";", 1⟩, ⟨.Symbol '\x7d', "\x7d", 1⟩,
   ⟨.Symbol '\x7d', "\x7d", 1⟩]

/-- The class AST for `mainSource`: name `Main`, no class variables, one
`Function` subroutine `main` with void return type, no parameters, no local
variables, and a single value-less Return statement. -/
def mainClass : ClassNode :=
  ⟨"Main", [], [⟨.Function, none, "main", [], ⟨[], [.Return (.mk none)]⟩⟩]⟩

/-- Token sequence of the scenario statement `let x[1+2] = 3;`. -/
def letIdxTokens : List Token :=
  [⟨.Keyword .Let, "let", 1⟩, ⟨.Identifier "x", "x", 1⟩,
   ⟨.Symbol '[', "[", 1⟩, ⟨.IntConst 1, "1", 1⟩, ⟨.Symbol '+', "+", 1⟩,
   ⟨.IntConst 2, "2", 1⟩, ⟨.Symbol ']', "]", 1⟩, ⟨.Symbol '=', "=", 1⟩,
   ⟨.IntConst 3, "3", 1⟩, ⟨.Symbol ';', ";", 1⟩]

/-- Token sequence of the if statement `if (x) { }` (no else). -/
def ifTokens : List Token :=
  [⟨.Keyword .If, "if", 1⟩, ⟨.Symbol '(', "(", 1⟩, ⟨.Identifier "x", "x", 1⟩,
   ⟨.Symbol ')', ")", 1⟩, ⟨.Symbol '\x7b', "\x7b", 1⟩,
   ⟨.Symbol '\x7d', "\x7d", 1⟩]

/-- Token sequence of `else { }`, the optional trailing block of the C5
scenario. -/
def elseTokens : List Token :=
  [⟨.Keyword .Else, "else", 1⟩, ⟨.Symbol '\x7b', "\x7b", 1⟩,
   ⟨.Symbol '\x7d', "\x7d", 1⟩]

/-- Token sequence of the negative scenario `let = 5;`. -/
def letMissingTokens : List Token :=
  [⟨.Keyword .Let, "let", 1⟩, ⟨.Symbol '=', "=", 1⟩,
   ⟨.IntConst 5, "5", 1⟩, ⟨.Symbol ';', ";", 1⟩]

/-- Token sequence of the expression `1+2*3` (mixed precedence levels, kept
flat by the grammar). -/
def opsTokens : List Token :=
  [⟨.IntConst 1, "1", 1⟩, ⟨.Symbol '+', "+", 1⟩, ⟨.IntConst 2, "2", 1⟩,
   ⟨.Symbol '*', "*", 1⟩, ⟨.IntConst 3, "3", 1⟩]

/-- The fixed binary-operator character set of `peek_op`. -/
def opChars : List Char := ['+', '-', '*', '/', '&', '|', '<', '>', '=']

/-- Token sequence of `class A { } class B { }`: a complete class followed
by trailing tokens. -/
def twoClassTokens : List Token :=
  [⟨.Keyword .Class, "class", 1⟩, ⟨.Identifier "A", "A", 1⟩,
   ⟨.Symbol '\x7b', "\x7b", 1⟩, ⟨.Symbol '\x7d', "\x7d", 1⟩,
   ⟨.Keyword .Class, "class", 1⟩, ⟨.Identifier "B", "B", 1⟩,
   ⟨.Symbol '\x7b', "\x7b", 1⟩, ⟨.Symbol '\x7d', "\x7d", 1⟩]

/-- Statement form for the cursor-monotonicity lemmas: on success, the
remaining tokens are a suffix of the input tokens (the parser only ever
moves forward). -/
def ShrinksAt {α : Type} (f : Nat → List Token → PResult α) (fuel : Nat) : Prop :=
  ∀ ts a ts', f fuel ts = .ok a ts' → ts' <:+ ts

/-- Statement form for the functions that always consume at least one
token on success. -/
def ShrinksStrictAt {α : Type} (f : Nat → List Token → PResult α) (fuel : Nat) : Prop :=
  ∀ ts a ts', f fuel ts = .ok a ts' → ts' <:+ ts ∧ ts'.length < ts.length

/-- Statement form for the fuel-sufficiency lemmas: with fuel at least
`4 * (remaining tokens) + d` the function never runs out of fuel. -/
def TotalAt {α : Type} (f : Nat → List Token → PResult α) (d fuel : Nat) : Prop :=
  ∀ ts, 4 * ts.length + d ≤ fuel → f fuel ts ≠ .fuelOut

/-- Statement form for the frame lemmas: a run that succeeds with a
nonempty remainder `r :: rest` never inspected anything beyond `r`, so the
tokens after `r` can be replaced arbitrarily without changing the result. -/
def FrameAt {α : Type} (f : Nat → List Token → PResult α) (fuel : Nat) : Prop :=
  ∀ pre r rest rest' a, f fuel (pre ++ r :: rest) = .ok a (r :: rest) →
    f fuel (pre ++ r :: rest') = .ok a (r :: rest')

/-! ## Tokenizer lemmas -/

theorem withTok_ne_none {t : Token} {r : Option (Except String (List Token))}
    (h : r ≠ none) : withTok t r ≠ none := by
  match r with
  | none => exact absurd rfl h
  | some (.ok ts) => simp [withTok]
  | some (.error m) => simp [withTok]

theorem withTok_eq_some_ok {t : Token} {r : Option (Except String (List Token))}
    {toks : List Token} (h : withTok t r = some (.ok toks)) :
    ∃ toks', r = some (.ok toks') ∧ toks = t :: toks' := by
  match r with
  | none => simp [withTok] at h
  | some (.ok ts) =>
    refine ⟨ts, rfl, ?_⟩
    simpa [withTok] using h.symm
  | some (.error m) => simp [withTok] at h

theorem skipBlockComment_length :
    ∀ (l : List Char) (line : Nat) (r : List Char) (line' : Nat),
      skipBlockComment l line = some (r, line') → r.length < l.length := by
  intro l
  induction l with
  | nil => intro line r line' h; simp [skipBlockComment] at h
  | cons c1 tl ih =>
    intro line r line' h
    match tl with
    | [] => simp [skipBlockComment] at h
    | c2 :: rest =>
      rw [skipBlockComment] at h
      split at h
      · simp only [Option.some.injEq, Prod.mk.injEq] at h
        obtain ⟨h1, h2⟩ := h
        subst h1
        simp only [List.length_cons]
        omega
      · have := ih _ _ _ h
        simp only [List.length_cons] at this ⊢
        omega

theorem takeStringLit_length :
    ∀ (l : List Char) (s r : List Char),
      takeStringLit l = some (s, r) → r.length < l.length := by
  intro l
  induction l with
  | nil => intro s r h; simp [takeStringLit] at h
  | cons c tl ih =>
    intro s r h
    rw [takeStringLit] at h
    split at h
    · simp only [Option.some.injEq, Prod.mk.injEq] at h
      obtain ⟨h1, h2⟩ := h
      subst h2
      simp
    · split at h
      · simp at h
      · match hr : takeStringLit tl with
        | none => rw [hr] at h; simp at h
        | some (s', r') =>
          rw [hr] at h
          simp only [Option.some.injEq, Prod.mk.injEq] at h
          obtain ⟨h1, h2⟩ := h
          subst h2
          have := ih _ _ hr
          simp only [List.length_cons]
          omega

/-- Every tokenizer loop iteration consumes at least one character, so fuel
exceeding the input length never runs out. -/
theorem tokenizeAux_total :
    ∀ (fuel : Nat) (chars : List Char) (line : Nat),
      chars.length < fuel → tokenizeAux fuel chars line ≠ none := by
  intro fuel
  induction fuel with
  | zero => intro chars line h; omega
  | succ n ih =>
    intro chars line hlen
    match chars with
    | [] => simp [tokenizeAux]
    | c :: rest =>
      have hrest : rest.length < n := by simpa using Nat.lt_of_succ_lt_succ hlen
      rw [tokenizeAux]
      split
      · exact ih _ _ hrest
      split
      · refine ih _ _ (Nat.lt_of_le_of_lt ?_ hrest)
        refine Nat.le_trans (List.dropWhile_suffix _).length_le ?_
        simp [List.length_tail]
      split
      · split
        · simp
        · next heq =>
          refine ih _ _ (Nat.lt_of_le_of_lt ?_ hrest)
          have := skipBlockComment_length _ _ _ _ heq
          have ht : rest.tail.length ≤ rest.length := by simp [List.length_tail]
          omega
      split
      · exact withTok_ne_none (ih _ _ hrest)
      split
      · split
        · simp
        · next heq =>
          refine withTok_ne_none (ih _ _ ?_)
          exact Nat.lt_trans (takeStringLit_length _ _ _ heq) hrest
      split
      · next hdig =>
        split
        · refine withTok_ne_none (ih _ _ ?_)
          have hdw : (c :: rest).dropWhile (fun x => x.isDigit)
              = rest.dropWhile (fun x => x.isDigit) := by
            simp [List.dropWhile_cons, hdig]
          rw [hdw]
          exact Nat.lt_of_le_of_lt (List.dropWhile_suffix _).length_le hrest
        · simp
      split
      · next halpha =>
        refine withTok_ne_none (ih _ _ ?_)
        have hpos : (c.isAlphanum || c == '_') = true := by
          rcases halpha with h | h
          · simp [Char.isAlphanum, h]
          · simp [h]
        have hdw : (c :: rest).dropWhile (fun x => x.isAlphanum || x == '_')
            = rest.dropWhile (fun x => x.isAlphanum || x == '_') := by
          simp [List.dropWhile_cons, hpos]
        rw [hdw]
        exact Nat.lt_of_le_of_lt (List.dropWhile_suffix _).length_le hrest
      · simp

/-- Every integer-constant token the tokenizer emits carries exactly the
value denoted by its digit lexeme, and that value is within the `u16` range:
nothing is truncated or wrapped. -/
theorem tokenizeAux_intConst_exact :
    ∀ (fuel : Nat) (chars : List Char) (line : Nat) (toks : List Token),
      tokenizeAux fuel chars line = some (.ok toks) →
      ∀ t ∈ toks, ∀ v, t.token_type = .IntConst v →
        v ≤ 65535 ∧ v = digitsToNat t.value.data := by
  intro fuel
  induction fuel with
  | zero => intro chars line toks h; simp [tokenizeAux] at h
  | succ n ih =>
    intro chars line toks h
    match chars with
    | [] =>
      simp [tokenizeAux] at h
      subst h
      intro t ht
      simp at ht
    | c :: rest =>
      rw [tokenizeAux] at h
      split at h
      · exact ih _ _ _ h
      split at h
      · exact ih _ _ _ h
      split at h
      · split at h
        · simp at h
        · exact ih _ _ _ h
      split at h
      · obtain ⟨toks', hr, htoks⟩ := withTok_eq_some_ok h
        subst htoks
        intro t ht v hv
        rcases List.mem_cons.mp ht with rfl | hmem
        · simp at hv
        · exact ih _ _ _ hr t hmem v hv
      split at h
      · split at h
        · simp at h
        · obtain ⟨toks', hr, htoks⟩ := withTok_eq_some_ok h
          subst htoks
          intro t ht v hv
          rcases List.mem_cons.mp ht with rfl | hmem
          · simp at hv
          · exact ih _ _ _ hr t hmem v hv
      split at h
      · split at h
        · next hle =>
          obtain ⟨toks', hr, htoks⟩ := withTok_eq_some_ok h
          subst htoks
          intro t ht v hv
          rcases List.mem_cons.mp ht with rfl | hmem
          · simp at hv
            subst hv
            exact ⟨hle, rfl⟩
          · exact ih _ _ _ hr t hmem v hv
        · simp at h
      split at h
      · obtain ⟨toks', hr, htoks⟩ := withTok_eq_some_ok h
        subst htoks
        intro t ht v hv
        rcases List.mem_cons.mp ht with rfl | hmem
        · split at hv <;> simp at hv
        · exact ih _ _ _ hr t hmem v hv
      · simp at h

/-- When the character list contains no `*/` occurrence, the block comment
scanner runs off the end of the input. -/
theorem skipBlockComment_eq_none_of_no_close :
    ∀ (a : List Char) (line : Nat), hasStarSlash a = false →
      skipBlockComment a line = none := by
  intro a
  induction a with
  | nil => intro line h; rfl
  | cons c1 tl ih =>
    intro line h
    match tl with
    | [] => rfl
    | c2 :: rest =>
      rw [hasStarSlash] at h
      simp only [Bool.or_eq_false_iff] at h
      obtain ⟨h1, h2⟩ := h
      have h1' : ¬(c1 = '*' ∧ c2 = '/') := by simpa using h1
      rw [skipBlockComment, if_neg h1']
      exact ih _ h2

/-- When the comment body `a` contains no `*/` of its own, the scanner stops
at the appended `*/`, returns the input after it, and has advanced the line
counter once per newline inside the comment body. -/
theorem skipBlockComment_append_close :
    ∀ (a b : List Char) (line : Nat), hasStarSlash a = false →
      skipBlockComment (a ++ '*' :: '/' :: b) line
        = some (b, line + a.count '\n') := by
  intro a
  induction a with
  | nil =>
    intro b line h
    rw [List.nil_append, skipBlockComment, if_pos ⟨rfl, rfl⟩]
    simp
  | cons c1 tl ih =>
    intro b line h
    match tl with
    | [] =>
      have hne : ¬(c1 = '*' ∧ '*' = '/') := by simp
      rw [List.cons_append, List.nil_append, skipBlockComment, if_neg hne,
        skipBlockComment, if_pos ⟨rfl, rfl⟩]
      by_cases hc : c1 = '\n' <;> simp [hc, List.count_cons]
    | c2 :: rest =>
      rw [hasStarSlash] at h
      simp only [Bool.or_eq_false_iff] at h
      obtain ⟨h1, h2⟩ := h
      have h1' : ¬(c1 = '*' ∧ c2 = '/') := by simpa using h1
      rw [List.cons_append, List.cons_append, skipBlockComment, if_neg h1']
      rw [show skipBlockComment (c2 :: (rest ++ '*' :: '/' :: b))
            (if c1 = '\n' then line + 1 else line)
          = skipBlockComment ((c2 :: rest) ++ '*' :: '/' :: b)
            (if c1 = '\n' then line + 1 else line) from rfl]
      rw [ih b _ h2]
      by_cases hc : c1 = '\n'
      · simp only [hc, if_pos rfl, List.count_cons]
        simp
        omega
      · simp only [if_neg hc, List.count_cons]
        simp [hc]

/-! ## Claim theorems -/

/-- Claim C1 counterexample: the claim asserts that tokenizing an input
containing the literal `32768` fails with an overflow error, but the source
parses integer literals with `str::parse::<u16>()`, whose range is
0..=65535, so `32768` tokenizes successfully as `IntConst(32768)`. -/
theorem C1_counterexample :
    tokenize "32768" = .ok [⟨.IntConst 32768, "32768", 1⟩] := by
  rfl

/-- Claim C1, amended: an integer literal of exactly 65535 (the `u16`
maximum) tokenizes successfully — in particular `32767` tokenizes as
`IntegerLiteral(32767)` and `32768` as `IntegerLiteral(32768)` — while
tokenizing an input containing the literal `65536` fails with an overflow
error citing the line on which the literal appears; no literal is silently
truncated or wrapped: every emitted integer token carries exactly the value
of its digit lexeme, at most 65535. -/
theorem C1_theorem :
    tokenize "32767" = .ok [⟨.IntConst 32767, "32767", 1⟩] ∧
    tokenize "32768" = .ok [⟨.IntConst 32768, "32768", 1⟩] ∧
    tokenize "65535" = .ok [⟨.IntConst 65535, "65535", 1⟩] ∧
    tokenize "\n\n65536" =
      .error "Invalid integer '65536' on line 3: number too large to fit in target type" ∧
    (∀ (s : String) (toks : List Token), tokenize s = .ok toks →
      ∀ t ∈ toks, ∀ v, t.token_type = .IntConst v →
        v ≤ 65535 ∧ v = digitsToNat t.value.data) := by
  refine ⟨rfl, rfl, rfl, rfl, ?_⟩
  intro s toks h
  have : tokenizeAux (s.data.length + 1) s.data 1 = some (.ok toks) := by
    have hne := tokenizeAux_total (s.data.length + 1) s.data 1 (by omega)
    unfold tokenize at h
    match hx : tokenizeAux (s.data.length + 1) s.data 1 with
    | none => exact absurd hx hne
    | some r =>
      rw [hx] at h
      simp only [Option.getD_some] at h
      rw [h]
  exact tokenizeAux_intConst_exact _ _ _ _ this

/-- Claim C1 witness: the universal part of `C1_theorem` applied to the
concrete input `"7"`. -/
theorem C1_witness :
    (7 : Nat) ≤ 65535 ∧ (7 : Nat) = digitsToNat (String.mk ['7']).data :=
  C1_theorem.2.2.2.2 "7" [⟨.IntConst 7, "7", 1⟩] (by rfl)
    ⟨.IntConst 7, "7", 1⟩ (by simp) 7 rfl

/-- Claim C3: whenever a block comment `/*` is opened and the closing `*/`
never occurs before the end of the input, tokenization fails with an error
citing the line on which the comment started (the line counter in effect
when `/*` was seen), not the end-of-input line; and newlines inside a
terminated block comment advance the line counter for everything after the
comment.  The two universal parts quantify over an arbitrary comment body
and starting line; the two concrete parts exercise them on multi-line
inputs (`"x\n/* a\n b\n c"` fails citing line 2, the comment's start,
rather than line 4 where the input ends, and in `"/* a\n b */ y"` the
identifier `y` is reported on line 2). -/
theorem C3_theorem :
    (∀ (a : List Char) (line fuel : Nat), hasStarSlash a = false →
      tokenizeAux (fuel + 1) ('/' :: '*' :: a) line
        = some (.error ("Unterminated multi-line comment starting on line "
            ++ toString line))) ∧
    (∀ (a b : List Char) (line fuel : Nat), hasStarSlash a = false →
      tokenizeAux (fuel + 1) ('/' :: '*' :: (a ++ '*' :: '/' :: b)) line
        = tokenizeAux fuel b (line + a.count '\n')) ∧
    tokenize "x\n/* a\n b\n c"
      = .error "Unterminated multi-line comment starting on line 2" ∧
    tokenize "/* a\n b */ y" = .ok [⟨.Identifier "y", "y", 2⟩] := by
  refine ⟨?_, ?_, rfl, rfl⟩
  · intro a line fuel h
    rw [tokenizeAux, if_neg (by decide), if_neg (by simp), if_pos (by simp)]
    simp only [List.tail_cons]
    rw [skipBlockComment_eq_none_of_no_close a line h]
  · intro a b line fuel h
    rw [tokenizeAux, if_neg (by decide), if_neg (by simp), if_pos (by simp)]
    simp only [List.tail_cons]
    rw [skipBlockComment_append_close a b line h]

/-- Claim C3 witness: the universal parts of `C3_theorem` applied to
concrete comment bodies. -/
theorem C3_witness :
    tokenizeAux 4 ('/' :: '*' :: ['a', '\n']) 7
      = some (.error "Unterminated multi-line comment starting on line 7") ∧
    tokenizeAux 3 ('/' :: '*' :: (['\n'] ++ '*' :: '/' :: ['y'])) 1
      = tokenizeAux 2 ['y'] (1 + (['\n'] : List Char).count '\n') :=
  ⟨C3_theorem.1 ['a', '\n'] 7 3 (by decide),
   C3_theorem.2.1 ['\n'] ['y'] 1 2 (by decide)⟩

/-- Claim C2 counterexample: the scenario input produces 13 tokens, not 12
(the spec's own parenthetical list already enumerates 13 lexemes). -/
theorem C2_counterexample :
    tokenize mainSource = .ok mainTokens ∧ mainTokens.length ≠ 12 := by
  exact ⟨rfl, by decide⟩

/-- Claim C2, amended: the input
`class Main { function void main() { return; } }` tokenizes into exactly 13
tokens and parses into a Class named `Main` with no class variable
declarations, exactly one Function subroutine declaration named `main` with
absent (void) return type, no parameters, no local variable declarations,
and a body consisting of exactly one value-less Return statement; the parse
consumes the whole token sequence. -/
theorem C2_theorem :
    tokenize mainSource = .ok mainTokens ∧
    mainTokens.length = 13 ∧
    parse_class 60 mainTokens =
      .ok ⟨"Main", [], [⟨.Function, none, "main", [], ⟨[], [.Return (.mk none)]⟩⟩]⟩ [] := by
  exact ⟨rfl, by decide, rfl⟩

/-- Claim C4: `let x[1+2] = 3;` parses into a Let statement with
`var_name = "x"`, an index expression present whose initial term is
`IntegerLiteral(1)` with operation list exactly `[('+', IntegerLiteral(2))]`,
and a value expression `IntegerLiteral(3)` with an empty operation list. -/
theorem C4_theorem :
    tokenize "let x[1+2] = 3;" = .ok letIdxTokens ∧
    parse_statement 30 letIdxTokens =
      .ok (.Let (.mk "x" (some (.mk (.IntConst 1) [('+', .IntConst 2)]))
        (.mk (.IntConst 3) []))) [] := by
  exact ⟨rfl, rfl⟩

/-- Claim C6: parsing the token sequence of `let = 5;` fails with a
ParseError naming "identifier" as the expected construct and reporting the
`=` symbol token actually found (the source formats the whole found token
with its `Debug` instance). -/
theorem C6_theorem :
    tokenize "let = 5;" = .ok letMissingTokens ∧
    parse_statement 30 letMissingTokens =
      .err ("Expected identifier, but found Token \x7b token_type: Symbol('='), value: \"=\", line_number: 1 \x7d") ∧
    parse_let_statement 30 letMissingTokens =
      .err ("Expected identifier, but found Token \x7b token_type: Symbol('='), value: \"=\", line_number: 1 \x7d") := by
  exact ⟨rfl, rfl, rfl⟩

/-- Claim C5: an if statement not followed by the `else` keyword yields
`else_block = none`, and the same if statement followed by `else { }` yields
`else_block = some []`; the else branch is consumed exactly when the `else`
keyword directly follows the if block's closing brace.  The first part
quantifies over every continuation whose first token is not the `else`
keyword; the second over every continuation after `else { }`. -/
theorem C5_theorem :
    (∀ rest : List Token, peek_keyword [.Else] rest = false →
      parse_statement 20 (ifTokens ++ rest)
        = .ok (.If (.mk (.mk (.VarName "x") []) [] none)) rest) ∧
    (∀ rest : List Token,
      parse_statement 20 (ifTokens ++ elseTokens ++ rest)
        = .ok (.If (.mk (.mk (.VarName "x") []) [] (some []))) rest) ∧
    parse_statement 20 ifTokens
      = .ok (.If (.mk (.mk (.VarName "x") []) [] none)) [] ∧
    parse_statement 20 (ifTokens ++ elseTokens)
      = .ok (.If (.mk (.mk (.VarName "x") []) [] (some []))) [] := by
  refine ⟨?_, fun rest => rfl, rfl, rfl⟩
  intro rest h
  rcases rest with _ | ⟨⟨tt, v, ln⟩, ts⟩
  · rfl
  · rcases tt with k | c | n | s | s
    · cases k <;> first | rfl | simp [peek_keyword] at h
    · rfl
    · rfl
    · rfl
    · rfl

/-- Claim C5 witness: the universal parts of `C5_theorem` applied to a
concrete continuation (a `;` token, which is not the `else` keyword). -/
theorem C5_witness :
    parse_statement 20 (ifTokens ++ [⟨.Symbol ';', ";", 1⟩])
      = .ok (.If (.mk (.mk (.VarName "x") []) [] none)) [⟨.Symbol ';', ";", 1⟩] :=
  C5_theorem.1 [⟨.Symbol ';', ";", 1⟩] (by decide)

theorem PResult.bind_eq_ok {α β : Type} {r : PResult α}
    {f : α → List Token → PResult β} {b : β} {ts' : List Token} :
    r.bind f = .ok b ts' ↔ ∃ a ts₁, r = .ok a ts₁ ∧ f a ts₁ = .ok b ts' := by
  constructor
  · intro h
    cases r with
    | ok a ts₁ => exact ⟨a, ts₁, rfl, h⟩
    | err m => simp [PResult.bind] at h
    | fuelOut => simp [PResult.bind] at h
  · rintro ⟨a, ts₁, rfl, h⟩
    exact h

theorem peek_op_mem {ts : List Token} {c : Char} (h : peek_op ts = some c) :
    c ∈ opChars := by
  match ts with
  | [] => simp [peek_op] at h
  | t :: rest =>
    rw [peek_op] at h
    split at h
    · split at h
      · next hmem => simp only [Option.some.injEq] at h; subst h; exact hmem
      · simp at h
    · simp at h

/-- The operator/term loop only ever records operators from the fixed set,
and it stops exactly when the next token is not such an operator. -/
theorem parse_ops_sound :
    ∀ (fuel : Nat) (ts : List Token) (ops : List (Char × TermNode))
      (ts' : List Token), parse_ops fuel ts = .ok ops ts' →
      (∀ p ∈ ops, p.1 ∈ opChars) ∧ peek_op ts' = none := by
  intro fuel
  induction fuel with
  | zero => intro ts ops ts' h; simp [parse_ops] at h
  | succ n ih =>
    intro ts ops ts' h
    rw [parse_ops] at h
    match hop : peek_op ts with
    | some op =>
      rw [hop] at h
      rw [PResult.bind_eq_ok] at h
      obtain ⟨t, ts1, ht, h⟩ := h
      rw [PResult.bind_eq_ok] at h
      obtain ⟨rest, ts2, hrest, h⟩ := h
      simp only [PResult.ok.injEq] at h
      obtain ⟨hops, hts⟩ := h
      subst hops hts
      obtain ⟨hmem, hnone⟩ := ih _ _ _ hrest
      refine ⟨?_, hnone⟩
      intro p hp
      rcases List.mem_cons.mp hp with rfl | hp
      · exact peek_op_mem hop
      · exact hmem p hp
    | none =>
      rw [hop] at h
      simp only [PResult.ok.injEq] at h
      obtain ⟨hops, hts⟩ := h
      subst hops hts
      exact ⟨by simp, hop⟩

/-- Claim C7: expression parsing is flat and left-to-right.  The parser
parses one initial term and then, while the next token is a symbol in the
fixed binary-operator set `+ - * / & | < > =`, consumes it and parses
exactly one further term, appending the pairs in source order — the
resulting `ExpressionNode` is by construction an initial term plus a flat
ordered operation list (no precedence regrouping exists anywhere), every
recorded operator is in the fixed set, the loop stops exactly when the next
token is not an operator of the set, and on `1+2*3` the operations appear
in source order `[('+', 2), ('*', 3)]` rather than regrouped by
precedence. -/
theorem C7_theorem :
    (∀ (fuel : Nat) (ts : List Token) (e : ExpressionNode) (ts' : List Token),
      parse_expression fuel ts = .ok e ts' →
      (∀ p ∈ e.operations, p.1 ∈ opChars) ∧ peek_op ts' = none) ∧
    tokenize "1+2*3" = .ok opsTokens ∧
    parse_expression 9 opsTokens
      = .ok (.mk (.IntConst 1) [('+', .IntConst 2), ('*', .IntConst 3)]) [] := by
  refine ⟨?_, rfl, rfl⟩
  intro fuel ts e ts' h
  match fuel with
  | 0 => simp [parse_expression] at h
  | n + 1 =>
    rw [parse_expression] at h
    rw [PResult.bind_eq_ok] at h
    obtain ⟨t, ts1, ht, h⟩ := h
    rw [PResult.bind_eq_ok] at h
    obtain ⟨ops, ts2, hops, h⟩ := h
    simp only [PResult.ok.injEq] at h
    obtain ⟨he, hts⟩ := h
    subst he hts
    exact parse_ops_sound _ _ _ _ hops

/-- Claim C7 witness: the universal part of `C7_theorem` applied to the
parse of `1+2*3`. -/
theorem C7_witness :
    (∀ p ∈ ([('+', TermNode.IntConst 2), ('*', TermNode.IntConst 3)] :
        List (Char × TermNode)), p.1 ∈ opChars) ∧
    peek_op ([] : List Token) = none :=
  C7_theorem.1 9 opsTokens
    (.mk (.IntConst 1) [('+', .IntConst 2), ('*', .IntConst 3)]) [] (by rfl)

/-- Claim C10: the parser is total at end of input.  Every token access goes
through `Option`-returning lookups, so every expectation point hit at end of
input returns a descriptive error mentioning EOF (rather than reading out of
bounds); in particular `parse_class` on the empty token sequence reports
that the keyword `Class` was expected but EOF was found. -/
theorem C10_theorem :
    (∀ fuel : Nat, parse_class (fuel + 1) [] =
      .err "Expected keyword Class, but found EOF") ∧
    (∀ k : Keyword, expect_keyword k [] =
      .err ("Expected keyword " ++ reprKeyword k ++ ", but found EOF")) ∧
    expect_identifier [] = .err "Expected identifier, but found EOF" ∧
    (∀ c : Char, expect_symbol c [] =
      .err ("Expected symbol '" ++ c.toString ++ "', but found EOF")) ∧
    (∀ ks : List Keyword, expect_one_of_keywords ks [] =
      .err ("Expected one of " ++ reprKeywordList ks ++ ", but found EOF")) ∧
    parse_type [] = .err "Expected type, found EOF" ∧
    (∀ fuel : Nat, parse_term (fuel + 1) [] = .err "Unexpected EOF in term") ∧
    (∀ fuel : Nat, parse_statement (fuel + 1) [] =
      .err "Expected statement, but found nothing or not a keyword") := by
  exact ⟨fun _ => rfl, fun _ => rfl, rfl, fun _ => rfl, fun _ => rfl, rfl,
    fun _ => rfl, fun _ => rfl⟩

/-! ## Inversion and replay lemmas for the parser utilities -/

theorem expect_keyword_ok {k : Keyword} {ts ts' : List Token} {u : Unit}
    (h : expect_keyword k ts = .ok u ts') :
    ∃ t, ts = t :: ts' ∧ t.token_type = .Keyword k := by
  match ts with
  | [] => simp [expect_keyword] at h
  | t :: rest =>
    rw [expect_keyword] at h
    split at h
    · next heq =>
      simp only [PResult.ok.injEq] at h
      exact ⟨t, by rw [h.2], heq⟩
    · simp at h

theorem expect_keyword_cons {k : Keyword} {t : Token} (X : List Token)
    (hk : t.token_type = .Keyword k) : expect_keyword k (t :: X) = .ok () X := by
  rw [expect_keyword, if_pos hk]

theorem expect_identifier_ok {ts ts' : List Token} {name : String}
    (h : expect_identifier ts = .ok name ts') :
    ∃ t, ts = t :: ts' ∧ t.token_type = .Identifier name := by
  match ts with
  | [] => simp [expect_identifier] at h
  | t :: rest =>
    rw [expect_identifier] at h
    split at h
    · next s heq =>
      simp only [PResult.ok.injEq] at h
      exact ⟨t, by rw [h.2], by rw [heq, h.1]⟩
    · simp at h

theorem expect_identifier_cons {t : Token} {name : String} (X : List Token)
    (ht : t.token_type = .Identifier name) :
    expect_identifier (t :: X) = .ok name X := by
  rw [expect_identifier, ht]

theorem expect_symbol_ok {c : Char} {ts ts' : List Token} {u : Unit}
    (h : expect_symbol c ts = .ok u ts') :
    ∃ t, ts = t :: ts' ∧ t.token_type = .Symbol c := by
  match ts with
  | [] => simp [expect_symbol] at h
  | t :: rest =>
    rw [expect_symbol] at h
    split at h
    · next heq =>
      simp only [PResult.ok.injEq] at h
      exact ⟨t, by rw [h.2], heq⟩
    · simp at h

theorem expect_symbol_cons {c : Char} {t : Token} (X : List Token)
    (ht : t.token_type = .Symbol c) : expect_symbol c (t :: X) = .ok () X := by
  rw [expect_symbol, if_pos ht]

theorem expect_one_of_ok {ks : List Keyword} {ts ts' : List Token} {k : Keyword}
    (h : expect_one_of_keywords ks ts = .ok k ts') :
    ∃ t, ts = t :: ts' ∧ t.token_type = .Keyword k ∧ k ∈ ks := by
  match ts with
  | [] => simp [expect_one_of_keywords] at h
  | t :: rest =>
    rw [expect_one_of_keywords] at h
    split at h
    · next k' heq =>
      split at h
      · next hmem =>
        simp only [PResult.ok.injEq] at h
        exact ⟨t, by rw [h.2], by rw [heq, h.1], h.1 ▸ hmem⟩
      · simp at h
    · simp at h

theorem expect_one_of_cons {ks : List Keyword} {t : Token} {k : Keyword}
    (X : List Token) (ht : t.token_type = .Keyword k) (hmem : k ∈ ks) :
    expect_one_of_keywords ks (t :: X) = .ok k X := by
  simp [expect_one_of_keywords, ht, hmem]

theorem match_symbol_true {c : Char} {ts ts' : List Token}
    (h : match_symbol c ts = (true, ts')) :
    ∃ t, ts = t :: ts' ∧ t.token_type = .Symbol c := by
  match ts with
  | [] => simp [match_symbol] at h
  | t :: rest =>
    rw [match_symbol] at h
    split at h
    · next heq =>
      simp only [Prod.mk.injEq] at h
      exact ⟨t, by rw [h.2], heq⟩
    · simp at h

theorem match_symbol_false {c : Char} {ts ts' : List Token}
    (h : match_symbol c ts = (false, ts')) : ts' = ts := by
  match ts with
  | [] => simp [match_symbol] at h; rw [h]
  | t :: rest =>
    rw [match_symbol] at h
    split at h
    · simp at h
    · simp only [Prod.mk.injEq] at h
      rw [h.2]

theorem match_symbol_cons_true {c : Char} {t : Token} (X : List Token)
    (ht : t.token_type = .Symbol c) : match_symbol c (t :: X) = (true, X) := by
  rw [match_symbol, if_pos ht]

theorem match_symbol_cons_false {c : Char} {t : Token} (X : List Token)
    (ht : ¬t.token_type = .Symbol c) :
    match_symbol c (t :: X) = (false, t :: X) := by
  rw [match_symbol, if_neg ht]

theorem match_keyword_true {k : Keyword} {ts ts' : List Token}
    (h : match_keyword k ts = (true, ts')) :
    ∃ t, ts = t :: ts' ∧ t.token_type = .Keyword k := by
  match ts with
  | [] => simp [match_keyword] at h
  | t :: rest =>
    rw [match_keyword] at h
    split at h
    · next heq =>
      simp only [Prod.mk.injEq] at h
      exact ⟨t, by rw [h.2], heq⟩
    · simp at h

theorem match_keyword_false {k : Keyword} {ts ts' : List Token}
    (h : match_keyword k ts = (false, ts')) : ts' = ts := by
  match ts with
  | [] => simp [match_keyword] at h; rw [h]
  | t :: rest =>
    rw [match_keyword] at h
    split at h
    · simp at h
    · simp only [Prod.mk.injEq] at h
      rw [h.2]

theorem match_keyword_cons_true {k : Keyword} {t : Token} (X : List Token)
    (ht : t.token_type = .Keyword k) : match_keyword k (t :: X) = (true, X) := by
  rw [match_keyword, if_pos ht]

theorem match_keyword_cons_false {k : Keyword} {t : Token} (X : List Token)
    (ht : ¬t.token_type = .Keyword k) :
    match_keyword k (t :: X) = (false, t :: X) := by
  rw [match_keyword, if_neg ht]

theorem parse_type_ok {ts ts' : List Token} {ty : JType}
    (h : parse_type ts = .ok ty ts') : ∃ t, ts = t :: ts' := by
  match ts with
  | [] => simp [parse_type] at h
  | t :: rest =>
    rw [parse_type] at h
    split at h
    · next k heq =>
      split at h
      · simp only [PResult.ok.injEq] at h; exact ⟨t, by rw [h.2]⟩
      · simp only [PResult.ok.injEq] at h; exact ⟨t, by rw [h.2]⟩
      · simp only [PResult.ok.injEq] at h; exact ⟨t, by rw [h.2]⟩
      · simp at h
    · next heq =>
      rw [PResult.bind_eq_ok] at h
      obtain ⟨name, ts₁, h1, h2⟩ := h
      obtain ⟨t', ht', _⟩ := expect_identifier_ok h1
      simp only [List.cons.injEq] at ht'
      obtain ⟨rfl, rfl⟩ := ht'
      simp only [PResult.ok.injEq] at h2
      exact ⟨t, by rw [h2.2]⟩
    · simp at h

theorem parse_type_cons {t : Token} {X X' : List Token} {ty : JType}
    (h : parse_type (t :: X) = .ok ty X') :
    X' = X ∧ ∀ Y, parse_type (t :: Y) = .ok ty Y := by
  rw [parse_type] at h
  split at h
  · next k heq =>
    split at h
    · simp only [PResult.ok.injEq] at h
      exact ⟨h.2.symm, fun Y => by simp [parse_type, heq, ← h.1]⟩
    · simp only [PResult.ok.injEq] at h
      exact ⟨h.2.symm, fun Y => by simp [parse_type, heq, ← h.1]⟩
    · simp only [PResult.ok.injEq] at h
      exact ⟨h.2.symm, fun Y => by simp [parse_type, heq, ← h.1]⟩
    · simp at h
  · next heq =>
    rw [PResult.bind_eq_ok] at h
    obtain ⟨name, ts₁, h1, h2⟩ := h
    obtain ⟨t', ht', htt⟩ := expect_identifier_ok h1
    simp only [List.cons.injEq] at ht'
    obtain ⟨rfl, rfl⟩ := ht'
    simp only [PResult.ok.injEq] at h2
    refine ⟨h2.2.symm, fun Y => ?_⟩
    rw [parse_type]
    simp only [heq]
    rw [PResult.bind_eq_ok]
    exact ⟨name, Y, expect_identifier_cons Y htt, by rw [← h2.1]⟩
  · simp at h

theorem cons_suffix {t : Token} {ts ts' : List Token} (h : ts = t :: ts') :
    ts' <:+ ts :=
  ⟨[t], h.symm⟩

theorem suffix_cons_lt {t : Token} {ts ts1 ts' : List Token}
    (e : ts = t :: ts1) (s : ts' <:+ ts1) :
    ts' <:+ ts ∧ ts'.length < ts.length := by
  refine ⟨s.trans (cons_suffix e), ?_⟩
  rw [e]
  simp only [List.length_cons]
  exact Nat.lt_succ_of_le s.length_le

theorem head?_some {t : Token} {ts : List Token} (h : ts.head? = some t) :
    ∃ tl, ts = t :: tl := by
  match ts with
  | [] => simp at h
  | x :: tl =>
    simp only [List.head?_cons, Option.some.injEq] at h
    exact ⟨tl, by rw [h]⟩

theorem advance_suffix (ts : List Token) : advance ts <:+ ts := by
  match ts with
  | [] => exact List.suffix_rfl
  | t :: tl => exact List.suffix_cons t tl

/-! ## Cursor monotonicity: every parser function returns a suffix of its
input, and the item parsers always consume at least one token -/

theorem parser_shrink : ∀ fuel : Nat,
    ShrinksStrictAt parse_class fuel ∧
    ShrinksAt parse_class_var_decs fuel ∧
    ShrinksStrictAt parse_class_var_dec fuel ∧
    ShrinksAt parse_comma_names fuel ∧
    ShrinksAt parse_subroutine_decs fuel ∧
    ShrinksStrictAt parse_subroutine_dec fuel ∧
    ShrinksAt parse_parameter_list fuel ∧
    ShrinksAt parse_params_rest fuel ∧
    ShrinksStrictAt parse_subroutine_body fuel ∧
    ShrinksAt parse_var_decs fuel ∧
    ShrinksStrictAt parse_var_dec fuel ∧
    ShrinksAt parse_statements fuel ∧
    ShrinksStrictAt parse_statement fuel ∧
    ShrinksStrictAt parse_let_statement fuel ∧
    ShrinksStrictAt parse_if_statement fuel ∧
    ShrinksStrictAt parse_while_statement fuel ∧
    ShrinksStrictAt parse_do_statement fuel ∧
    ShrinksStrictAt parse_return_statement fuel ∧
    ShrinksStrictAt parse_expression fuel ∧
    ShrinksAt parse_ops fuel ∧
    ShrinksStrictAt parse_term fuel ∧
    ShrinksStrictAt parse_subroutine_call fuel ∧
    ShrinksAt parse_expression_list fuel ∧
    ShrinksAt parse_args_rest fuel := by
  intro fuel
  induction fuel with
  | zero =>
    refine ⟨?_, ?_, ?_, ?_, ?_, ?_, ?_, ?_, ?_, ?_, ?_, ?_, ?_, ?_, ?_, ?_,
      ?_, ?_, ?_, ?_, ?_, ?_, ?_, ?_⟩ <;>
    · intro ts a ts' h
      simp [parse_class, parse_class_var_decs, parse_class_var_dec,
        parse_comma_names, parse_subroutine_decs, parse_subroutine_dec,
        parse_parameter_list, parse_params_rest, parse_subroutine_body,
        parse_var_decs, parse_var_dec, parse_statements, parse_statement,
        parse_let_statement, parse_if_statement, parse_while_statement,
        parse_do_statement, parse_return_statement, parse_expression,
        parse_ops, parse_term, parse_subroutine_call, parse_expression_list,
        parse_args_rest] at h
  | succ n ih =>
    obtain ⟨ih1, ih2, ih3, ih4, ih5, ih6, ih7, ih8, ih9, ih10, ih11, ih12,
      ih13, ih14, ih15, ih16, ih17, ih18, ih19, ih20, ih21, ih22, ih23, ih24⟩ := ih
    refine ⟨?_, ?_, ?_, ?_, ?_, ?_, ?_, ?_, ?_, ?_, ?_, ?_, ?_, ?_, ?_, ?_,
      ?_, ?_, ?_, ?_, ?_, ?_, ?_, ?_⟩
    -- parse_class
    · intro ts a ts' h
      rw [parse_class] at h
      simp only [PResult.bind_eq_ok, PResult.ok.injEq] at h
      obtain ⟨u1, ts1, h1, name, ts2, h2, u3, ts3, h3, vds, ts4, h4, sds,
        ts5, h5, u6, ts6, h6, ha, hts⟩ := h
      subst hts
      obtain ⟨t1, e1, -⟩ := expect_keyword_ok h1
      obtain ⟨t2, e2, -⟩ := expect_identifier_ok h2
      obtain ⟨t3, e3, -⟩ := expect_symbol_ok h3
      have s4 := ih2 _ _ _ h4
      have s5 := ih5 _ _ _ h5
      obtain ⟨t6, e6, -⟩ := expect_symbol_ok h6
      exact suffix_cons_lt e1
        (((((cons_suffix e6).trans s5).trans s4).trans (cons_suffix e3)).trans
          (cons_suffix e2))
    -- parse_class_var_decs
    · intro ts a ts' h
      rw [parse_class_var_decs] at h
      split at h
      · simp only [PResult.bind_eq_ok, PResult.ok.injEq] at h
        obtain ⟨d, ts1, h1, ds, ts2, h2, ha, hts⟩ := h
        subst hts
        exact (ih2 _ _ _ h2).trans (ih3 _ _ _ h1).1
      · simp only [PResult.ok.injEq] at h
        obtain ⟨ha, hts⟩ := h
        subst hts
        exact List.suffix_rfl
    -- parse_class_var_dec
    · intro ts a ts' h
      rw [parse_class_var_dec] at h
      simp only [PResult.bind_eq_ok, PResult.ok.injEq] at h
      obtain ⟨k, ts1, h1, ty, ts2, h2, n0, ts3, h3, more, ts4, h4, u5, ts5,
        h5, ha, hts⟩ := h
      subst hts
      obtain ⟨t1, e1, -, -⟩ := expect_one_of_ok h1
      obtain ⟨t2, e2⟩ := parse_type_ok h2
      obtain ⟨t3, e3, -⟩ := expect_identifier_ok h3
      have s4 := ih4 _ _ _ h4
      obtain ⟨t5, e5, -⟩ := expect_symbol_ok h5
      exact suffix_cons_lt e1
        ((((cons_suffix e5).trans s4).trans (cons_suffix e3)).trans
          (cons_suffix e2))
    -- parse_comma_names
    · intro ts a ts' h
      rw [parse_comma_names] at h
      split at h
      · next ts0 heq =>
        simp only [PResult.bind_eq_ok, PResult.ok.injEq] at h
        obtain ⟨nm, ts1, h1, ns, ts2, h2, ha, hts⟩ := h
        subst hts
        obtain ⟨t0, e0, -⟩ := match_symbol_true heq
        obtain ⟨t1, e1, -⟩ := expect_identifier_ok h1
        exact (((ih4 _ _ _ h2).trans (cons_suffix e1)).trans (cons_suffix e0))
      · next ts0 heq =>
        simp only [PResult.ok.injEq] at h
        obtain ⟨ha, hts⟩ := h
        subst hts
        rw [match_symbol_false heq]
    -- parse_subroutine_decs
    · intro ts a ts' h
      rw [parse_subroutine_decs] at h
      split at h
      · simp only [PResult.bind_eq_ok, PResult.ok.injEq] at h
        obtain ⟨d, ts1, h1, ds, ts2, h2, ha, hts⟩ := h
        subst hts
        exact (ih5 _ _ _ h2).trans (ih6 _ _ _ h1).1
      · simp only [PResult.ok.injEq] at h
        obtain ⟨ha, hts⟩ := h
        subst hts
        exact List.suffix_rfl
    -- parse_subroutine_dec
    · intro ts a ts' h
      rw [parse_subroutine_dec] at h
      simp only [PResult.bind_eq_ok, PResult.ok.injEq] at h
      obtain ⟨k, ts1, h1, rt, ts2, h2, nm, ts3, h3, u4, ts4, h4, ps, ts5, h5,
        u6, ts6, h6, body, ts7, h7, ha, hts⟩ := h
      subst hts
      obtain ⟨t1, e1, -, -⟩ := expect_one_of_ok h1
      have s2 : ts2 <:+ ts1 := by
        split at h2
        · next tsv heq =>
          simp only [PResult.ok.injEq] at h2
          obtain ⟨-, hts2⟩ := h2
          subst hts2
          obtain ⟨tv, ev, -⟩ := match_keyword_true heq
          exact cons_suffix ev
        · next tsv heq =>
          have hveq := match_keyword_false heq
          subst hveq
          simp only [PResult.bind_eq_ok, PResult.ok.injEq] at h2
          obtain ⟨ty, tsx, hty, hok, hts2⟩ := h2
          subst hts2
          obtain ⟨tx, ex⟩ := parse_type_ok hty
          exact cons_suffix ex
      obtain ⟨t3, e3, -⟩ := expect_identifier_ok h3
      obtain ⟨t4, e4, -⟩ := expect_symbol_ok h4
      have s5 := ih7 _ _ _ h5
      obtain ⟨t6, e6, -⟩ := expect_symbol_ok h6
      have s7 := (ih9 _ _ _ h7).1
      exact suffix_cons_lt e1
        ((((((s7.trans (cons_suffix e6)).trans s5).trans (cons_suffix e4)).trans
          (cons_suffix e3)).trans s2))
    -- parse_parameter_list
    · intro ts a ts' h
      rw [parse_parameter_list] at h
      split at h
      · simp only [PResult.ok.injEq] at h
        obtain ⟨ha, hts⟩ := h
        subst hts
        exact List.suffix_rfl
      · simp only [PResult.bind_eq_ok, PResult.ok.injEq] at h
        obtain ⟨ty, ts1, h1, nm, ts2, h2, rest, ts3, h3, ha, hts⟩ := h
        subst hts
        obtain ⟨t1, e1⟩ := parse_type_ok h1
        obtain ⟨t2, e2, -⟩ := expect_identifier_ok h2
        exact (((ih8 _ _ _ h3).trans (cons_suffix e2)).trans (cons_suffix e1))
    -- parse_params_rest
    · intro ts a ts' h
      rw [parse_params_rest] at h
      split at h
      · next ts0 heq =>
        simp only [PResult.bind_eq_ok, PResult.ok.injEq] at h
        obtain ⟨ty, ts1, h1, nm, ts2, h2, rest, ts3, h3, ha, hts⟩ := h
        subst hts
        obtain ⟨t0, e0, -⟩ := match_symbol_true heq
        obtain ⟨t1, e1⟩ := parse_type_ok h1
        obtain ⟨t2, e2, -⟩ := expect_identifier_ok h2
        exact ((((ih8 _ _ _ h3).trans (cons_suffix e2)).trans
          (cons_suffix e1)).trans (cons_suffix e0))
      · next ts0 heq =>
        simp only [PResult.ok.injEq] at h
        obtain ⟨ha, hts⟩ := h
        subst hts
        rw [match_symbol_false heq]
    -- parse_subroutine_body
    · intro ts a ts' h
      rw [parse_subroutine_body] at h
      simp only [PResult.bind_eq_ok, PResult.ok.injEq] at h
      obtain ⟨u1, ts1, h1, vds, ts2, h2, ss, ts3, h3, u4, ts4, h4, ha, hts⟩ := h
      subst hts
      obtain ⟨t1, e1, -⟩ := expect_symbol_ok h1
      have s2 := ih10 _ _ _ h2
      have s3 := ih12 _ _ _ h3
      obtain ⟨t4, e4, -⟩ := expect_symbol_ok h4
      exact suffix_cons_lt e1 (((cons_suffix e4).trans s3).trans s2)
    -- parse_var_decs
    · intro ts a ts' h
      rw [parse_var_decs] at h
      split at h
      · simp only [PResult.bind_eq_ok, PResult.ok.injEq] at h
        obtain ⟨d, ts1, h1, ds, ts2, h2, ha, hts⟩ := h
        subst hts
        exact (ih10 _ _ _ h2).trans (ih11 _ _ _ h1).1
      · simp only [PResult.ok.injEq] at h
        obtain ⟨ha, hts⟩ := h
        subst hts
        exact List.suffix_rfl
    -- parse_var_dec
    · intro ts a ts' h
      rw [parse_var_dec] at h
      simp only [PResult.bind_eq_ok, PResult.ok.injEq] at h
      obtain ⟨u1, ts1, h1, ty, ts2, h2, n0, ts3, h3, more, ts4, h4, u5, ts5,
        h5, ha, hts⟩ := h
      subst hts
      obtain ⟨t1, e1, -⟩ := expect_keyword_ok h1
      obtain ⟨t2, e2⟩ := parse_type_ok h2
      obtain ⟨t3, e3, -⟩ := expect_identifier_ok h3
      have s4 := ih4 _ _ _ h4
      obtain ⟨t5, e5, -⟩ := expect_symbol_ok h5
      exact suffix_cons_lt e1
        ((((cons_suffix e5).trans s4).trans (cons_suffix e3)).trans
          (cons_suffix e2))
    -- parse_statements
    · intro ts a ts' h
      rw [parse_statements] at h
      split at h
      · simp only [PResult.bind_eq_ok, PResult.ok.injEq] at h
        obtain ⟨s, ts1, h1, ss, ts2, h2, ha, hts⟩ := h
        subst hts
        exact (ih12 _ _ _ h2).trans (ih13 _ _ _ h1).1
      · simp only [PResult.ok.injEq] at h
        obtain ⟨ha, hts⟩ := h
        subst hts
        exact List.suffix_rfl
    -- parse_statement
    · intro ts a ts' h
      rw [parse_statement] at h
      split at h
      · next t heq =>
        split at h
        · next k hk =>
          split at h
          · simp only [PResult.bind_eq_ok, PResult.ok.injEq] at h
            obtain ⟨s, ts1, h1, ha, hts⟩ := h
            subst hts
            exact ih14 _ _ _ h1
          · simp only [PResult.bind_eq_ok, PResult.ok.injEq] at h
            obtain ⟨s, ts1, h1, ha, hts⟩ := h
            subst hts
            exact ih15 _ _ _ h1
          · simp only [PResult.bind_eq_ok, PResult.ok.injEq] at h
            obtain ⟨s, ts1, h1, ha, hts⟩ := h
            subst hts
            exact ih16 _ _ _ h1
          · simp only [PResult.bind_eq_ok, PResult.ok.injEq] at h
            obtain ⟨s, ts1, h1, ha, hts⟩ := h
            subst hts
            exact ih17 _ _ _ h1
          · simp only [PResult.bind_eq_ok, PResult.ok.injEq] at h
            obtain ⟨s, ts1, h1, ha, hts⟩ := h
            subst hts
            exact ih18 _ _ _ h1
          · simp at h
        · simp at h
      · simp at h
    -- parse_let_statement
    · intro ts a ts' h
      rw [parse_let_statement] at h
      simp only [PResult.bind_eq_ok, PResult.ok.injEq] at h
      obtain ⟨u1, ts1, h1, vn, ts2, h2, ie, ts3, h3, u4, ts4, h4, ve, ts5,
        h5, u6, ts6, h6, ha, hts⟩ := h
      subst hts
      obtain ⟨t1, e1, -⟩ := expect_keyword_ok h1
      obtain ⟨t2, e2, -⟩ := expect_identifier_ok h2
      have s3 : ts3 <:+ ts2 := by
        split at h3
        · next tsv heq =>
          simp only [PResult.bind_eq_ok, PResult.ok.injEq] at h3
          obtain ⟨e, tsx, hex, uy, tsy, hy, hok, hts3⟩ := h3
          subst hts3
          obtain ⟨tb, eb, -⟩ := match_symbol_true heq
          obtain ⟨ty', ey, -⟩ := expect_symbol_ok hy
          exact (((cons_suffix ey).trans (ih19 _ _ _ hex).1).trans
            (cons_suffix eb))
        · next tsv heq =>
          simp only [PResult.ok.injEq] at h3
          obtain ⟨-, hts3⟩ := h3
          subst hts3
          rw [match_symbol_false heq]
      obtain ⟨t4, e4, -⟩ := expect_symbol_ok h4
      have s5 := (ih19 _ _ _ h5).1
      obtain ⟨t6, e6, -⟩ := expect_symbol_ok h6
      exact suffix_cons_lt e1
        (((((cons_suffix e6).trans s5).trans (cons_suffix e4)).trans s3).trans
          (cons_suffix e2))
    -- parse_if_statement
    · intro ts a ts' h
      rw [parse_if_statement] at h
      simp only [PResult.bind_eq_ok, PResult.ok.injEq] at h
      obtain ⟨u1, ts1, h1, u2, ts2, h2, cond, ts3, h3, u4, ts4, h4, u5, ts5,
        h5, ifb, ts6, h6, u7, ts7, h7, eb, ts8, h8, ha, hts⟩ := h
      subst hts
      obtain ⟨t1, e1, -⟩ := expect_keyword_ok h1
      obtain ⟨t2, e2, -⟩ := expect_symbol_ok h2
      have s3 := (ih19 _ _ _ h3).1
      obtain ⟨t4, e4, -⟩ := expect_symbol_ok h4
      obtain ⟨t5, e5, -⟩ := expect_symbol_ok h5
      have s6 := ih12 _ _ _ h6
      obtain ⟨t7, e7, -⟩ := expect_symbol_ok h7
      have s8 : ts8 <:+ ts7 := by
        split at h8
        · next tsv heq =>
          simp only [PResult.bind_eq_ok, PResult.ok.injEq] at h8
          obtain ⟨ux, tsx, hx, els, tsy, hy, uz, tsz, hz, hok, hts8⟩ := h8
          subst hts8
          obtain ⟨tv, ev, -⟩ := match_keyword_true heq
          obtain ⟨tx, ex, -⟩ := expect_symbol_ok hx
          obtain ⟨tz, ez, -⟩ := expect_symbol_ok hz
          exact ((((cons_suffix ez).trans (ih12 _ _ _ hy)).trans
            (cons_suffix ex)).trans (cons_suffix ev))
        · next tsv heq =>
          simp only [PResult.ok.injEq] at h8
          obtain ⟨-, hts8⟩ := h8
          subst hts8
          rw [match_keyword_false heq]
      exact suffix_cons_lt e1
        (((((((s8.trans (cons_suffix e7)).trans s6).trans (cons_suffix e5)).trans
          (cons_suffix e4)).trans s3).trans (cons_suffix e2)))
    -- parse_while_statement
    · intro ts a ts' h
      rw [parse_while_statement] at h
      simp only [PResult.bind_eq_ok, PResult.ok.injEq] at h
      obtain ⟨u1, ts1, h1, u2, ts2, h2, cond, ts3, h3, u4, ts4, h4, u5, ts5,
        h5, body, ts6, h6, u7, ts7, h7, ha, hts⟩ := h
      subst hts
      obtain ⟨t1, e1, -⟩ := expect_keyword_ok h1
      obtain ⟨t2, e2, -⟩ := expect_symbol_ok h2
      have s3 := (ih19 _ _ _ h3).1
      obtain ⟨t4, e4, -⟩ := expect_symbol_ok h4
      obtain ⟨t5, e5, -⟩ := expect_symbol_ok h5
      have s6 := ih12 _ _ _ h6
      obtain ⟨t7, e7, -⟩ := expect_symbol_ok h7
      exact suffix_cons_lt e1
        ((((((cons_suffix e7).trans s6).trans (cons_suffix e5)).trans
          (cons_suffix e4)).trans s3).trans (cons_suffix e2))
    -- parse_do_statement
    · intro ts a ts' h
      rw [parse_do_statement] at h
      simp only [PResult.bind_eq_ok, PResult.ok.injEq] at h
      obtain ⟨u1, ts1, h1, call, ts2, h2, u3, ts3, h3, ha, hts⟩ := h
      subst hts
      obtain ⟨t1, e1, -⟩ := expect_keyword_ok h1
      have s2 := (ih22 _ _ _ h2).1
      obtain ⟨t3, e3, -⟩ := expect_symbol_ok h3
      exact suffix_cons_lt e1 ((cons_suffix e3).trans s2)
    -- parse_return_statement
    · intro ts a ts' h
      rw [parse_return_statement] at h
      simp only [PResult.bind_eq_ok, PResult.ok.injEq] at h
      obtain ⟨u1, ts1, h1, v, ts2, h2, u3, ts3, h3, ha, hts⟩ := h
      subst hts
      obtain ⟨t1, e1, -⟩ := expect_keyword_ok h1
      have s2 : ts2 <:+ ts1 := by
        split at h2
        · simp only [PResult.ok.injEq] at h2
          obtain ⟨-, hts2⟩ := h2
          subst hts2
          exact List.suffix_rfl
        · simp only [PResult.bind_eq_ok, PResult.ok.injEq] at h2
          obtain ⟨e, tsx, hex, hok, hts2⟩ := h2
          subst hts2
          exact (ih19 _ _ _ hex).1
      obtain ⟨t3, e3, -⟩ := expect_symbol_ok h3
      exact suffix_cons_lt e1 ((cons_suffix e3).trans s2)
    -- parse_expression
    · intro ts a ts' h
      rw [parse_expression] at h
      simp only [PResult.bind_eq_ok, PResult.ok.injEq] at h
      obtain ⟨t, ts1, h1, ops, ts2, h2, ha, hts⟩ := h
      subst hts
      have s1 := ih21 _ _ _ h1
      have s2 := ih20 _ _ _ h2
      exact ⟨s2.trans s1.1, Nat.lt_of_le_of_lt s2.length_le s1.2⟩
    -- parse_ops
    · intro ts a ts' h
      rw [parse_ops] at h
      split at h
      · next op heq =>
        simp only [PResult.bind_eq_ok, PResult.ok.injEq] at h
        obtain ⟨t, ts1, h1, rest, ts2, h2, ha, hts⟩ := h
        subst hts
        exact (ih20 _ _ _ h2).trans ((ih21 _ _ _ h1).1.trans (advance_suffix ts))
      · simp only [PResult.ok.injEq] at h
        obtain ⟨ha, hts⟩ := h
        subst hts
        exact List.suffix_rfl
    -- parse_term
    · intro ts a ts' h
      rw [parse_term] at h
      split at h
      · simp at h
      · next t heq =>
        obtain ⟨tl, etl⟩ := head?_some heq
        split at h
        · simp only [PResult.ok.injEq] at h
          obtain ⟨-, hts⟩ := h
          rw [etl] at hts
          simp only [advance, List.tail_cons] at hts
          subst hts
          exact suffix_cons_lt etl List.suffix_rfl
        · simp only [PResult.ok.injEq] at h
          obtain ⟨-, hts⟩ := h
          rw [etl] at hts
          simp only [advance, List.tail_cons] at hts
          subst hts
          exact suffix_cons_lt etl List.suffix_rfl
        · next k hk =>
          split at h
          all_goals first
            | (simp only [PResult.ok.injEq] at h
               obtain ⟨-, hts⟩ := h
               rw [etl] at hts
               simp only [advance, List.tail_cons] at hts
               subst hts
               exact suffix_cons_lt etl List.suffix_rfl)
            | simp at h
        · split at h
          · simp only [PResult.bind_eq_ok, PResult.ok.injEq] at h
            obtain ⟨c, ts1, h1, ha, hts⟩ := h
            subst hts
            exact ih22 _ _ _ h1
          · split at h
            · simp only [PResult.bind_eq_ok, PResult.ok.injEq] at h
              obtain ⟨nm, ts1, h1, u2, ts2, h2, e, ts3, h3, u4, ts4, h4, ha,
                hts⟩ := h
              subst hts
              obtain ⟨t1, e1, -⟩ := expect_identifier_ok h1
              obtain ⟨t2, e2, -⟩ := expect_symbol_ok h2
              have s3 := (ih19 _ _ _ h3).1
              obtain ⟨t4, e4, -⟩ := expect_symbol_ok h4
              exact suffix_cons_lt e1
                (((cons_suffix e4).trans s3).trans (cons_suffix e2))
            · simp only [PResult.bind_eq_ok, PResult.ok.injEq] at h
              obtain ⟨nm, ts1, h1, ha, hts⟩ := h
              subst hts
              obtain ⟨t1, e1, -⟩ := expect_identifier_ok h1
              exact suffix_cons_lt e1 List.suffix_rfl
        · next s hs =>
          split at h
          · simp only [PResult.bind_eq_ok, PResult.ok.injEq] at h
            obtain ⟨e, ts1, h1, u2, ts2, h2, ha, hts⟩ := h
            subst hts
            have s1 := (ih19 _ _ _ h1).1
            rw [etl] at s1
            simp only [advance, List.tail_cons] at s1
            obtain ⟨t2, e2, -⟩ := expect_symbol_ok h2
            exact suffix_cons_lt etl ((cons_suffix e2).trans s1)
          · split at h
            · simp only [PResult.bind_eq_ok, PResult.ok.injEq] at h
              obtain ⟨inner, ts1, h1, ha, hts⟩ := h
              subst hts
              have s1 := (ih21 _ _ _ h1).1
              rw [etl] at s1
              simp only [advance, List.tail_cons] at s1
              exact suffix_cons_lt etl s1
            · simp at h
    -- parse_subroutine_call
    · intro ts a ts' h
      rw [parse_subroutine_call] at h
      simp only [PResult.bind_eq_ok, PResult.ok.injEq] at h
      obtain ⟨fi, ts1, h1, rn, ts2, h2, u3, ts3, h3, args, ts4, h4, u5, ts5,
        h5, ha, hts⟩ := h
      subst hts
      obtain ⟨t1, e1, -⟩ := expect_identifier_ok h1
      have s2 : ts2 <:+ ts1 := by
        split at h2
        · next tsv heq =>
          simp only [PResult.bind_eq_ok, PResult.ok.injEq] at h2
          obtain ⟨nm, tsx, hx, hok, hts2⟩ := h2
          subst hts2
          obtain ⟨tv, ev, -⟩ := match_symbol_true heq
          obtain ⟨tx, ex, -⟩ := expect_identifier_ok hx
          exact (cons_suffix ex).trans (cons_suffix ev)
        · next tsv heq =>
          simp only [PResult.ok.injEq] at h2
          obtain ⟨-, hts2⟩ := h2
          subst hts2
          rw [match_symbol_false heq]
      obtain ⟨t3, e3, -⟩ := expect_symbol_ok h3
      have s4 := ih23 _ _ _ h4
      obtain ⟨t5, e5, -⟩ := expect_symbol_ok h5
      exact suffix_cons_lt e1
        ((((cons_suffix e5).trans s4).trans (cons_suffix e3)).trans s2)
    -- parse_expression_list
    · intro ts a ts' h
      rw [parse_expression_list] at h
      split at h
      · simp only [PResult.ok.injEq] at h
        obtain ⟨ha, hts⟩ := h
        subst hts
        exact List.suffix_rfl
      · simp only [PResult.bind_eq_ok, PResult.ok.injEq] at h
        obtain ⟨e, ts1, h1, rest, ts2, h2, ha, hts⟩ := h
        subst hts
        exact (ih24 _ _ _ h2).trans (ih19 _ _ _ h1).1
    -- parse_args_rest
    · intro ts a ts' h
      rw [parse_args_rest] at h
      split at h
      · next ts0 heq =>
        simp only [PResult.bind_eq_ok, PResult.ok.injEq] at h
        obtain ⟨e, ts1, h1, rest, ts2, h2, ha, hts⟩ := h
        subst hts
        obtain ⟨t0, e0, -⟩ := match_symbol_true heq
        exact (((ih24 _ _ _ h2).trans (ih19 _ _ _ h1).1).trans (cons_suffix e0))
      · next ts0 heq =>
        simp only [PResult.ok.injEq] at h
        obtain ⟨ha, hts⟩ := h
        subst hts
        rw [match_symbol_false heq]

/-! ## Fuel sufficiency: fuel linear in the number of remaining tokens is
always enough, because every loop iteration and every recursion step
consumes tokens -/

theorem PResult.bind_ne_fuelOut {α β : Type} {r : PResult α}
    {f : α → List Token → PResult β} (hr : r ≠ .fuelOut)
    (hf : ∀ a ts, r = .ok a ts → f a ts ≠ .fuelOut) : r.bind f ≠ .fuelOut := by
  cases r with
  | ok a ts => exact hf a ts rfl
  | err m => simp [PResult.bind]
  | fuelOut => exact absurd rfl hr

theorem expect_keyword_ne_fuelOut {k : Keyword} {ts : List Token} :
    expect_keyword k ts ≠ .fuelOut := by
  match ts with
  | [] => simp [expect_keyword]
  | t :: rest =>
    rw [expect_keyword]
    split <;> simp

theorem expect_identifier_ne_fuelOut {ts : List Token} :
    expect_identifier ts ≠ .fuelOut := by
  match ts with
  | [] => simp [expect_identifier]
  | t :: rest =>
    rw [expect_identifier]
    split <;> simp

theorem expect_symbol_ne_fuelOut {c : Char} {ts : List Token} :
    expect_symbol c ts ≠ .fuelOut := by
  match ts with
  | [] => simp [expect_symbol]
  | t :: rest =>
    rw [expect_symbol]
    split <;> simp

theorem expect_one_of_ne_fuelOut {ks : List Keyword} {ts : List Token} :
    expect_one_of_keywords ks ts ≠ .fuelOut := by
  match ts with
  | [] => simp [expect_one_of_keywords]
  | t :: rest =>
    rw [expect_one_of_keywords]
    split
    · split <;> simp
    · simp

theorem parse_type_ne_fuelOut {ts : List Token} : parse_type ts ≠ .fuelOut := by
  match ts with
  | [] => simp [parse_type]
  | t :: rest =>
    rw [parse_type]
    split
    · split <;> simp
    · exact PResult.bind_ne_fuelOut expect_identifier_ne_fuelOut
        fun a ts h => by simp
    · simp

theorem peek_op_some {ts : List Token} {c : Char} (h : peek_op ts = some c) :
    ∃ t tl, ts = t :: tl := by
  match ts with
  | [] => simp [peek_op] at h
  | t :: tl => exact ⟨t, tl, rfl⟩

theorem parser_total : ∀ fuel : Nat,
    TotalAt parse_class 1 fuel ∧
    TotalAt parse_class_var_decs 2 fuel ∧
    TotalAt parse_class_var_dec 1 fuel ∧
    TotalAt parse_comma_names 1 fuel ∧
    TotalAt parse_subroutine_decs 2 fuel ∧
    TotalAt parse_subroutine_dec 1 fuel ∧
    TotalAt parse_parameter_list 1 fuel ∧
    TotalAt parse_params_rest 1 fuel ∧
    TotalAt parse_subroutine_body 1 fuel ∧
    TotalAt parse_var_decs 2 fuel ∧
    TotalAt parse_var_dec 1 fuel ∧
    TotalAt parse_statements 3 fuel ∧
    TotalAt parse_statement 2 fuel ∧
    TotalAt parse_let_statement 1 fuel ∧
    TotalAt parse_if_statement 1 fuel ∧
    TotalAt parse_while_statement 1 fuel ∧
    TotalAt parse_do_statement 1 fuel ∧
    TotalAt parse_return_statement 1 fuel ∧
    TotalAt parse_expression 3 fuel ∧
    TotalAt parse_ops 1 fuel ∧
    TotalAt parse_term 2 fuel ∧
    TotalAt parse_subroutine_call 1 fuel ∧
    TotalAt parse_expression_list 4 fuel ∧
    TotalAt parse_args_rest 1 fuel := by
  intro fuel
  induction fuel with
  | zero =>
    refine ⟨?_, ?_, ?_, ?_, ?_, ?_, ?_, ?_, ?_, ?_, ?_, ?_, ?_, ?_, ?_, ?_,
      ?_, ?_, ?_, ?_, ?_, ?_, ?_, ?_⟩ <;>
    · intro ts hle
      omega
  | succ n ih =>
    obtain ⟨ih1, ih2, ih3, ih4, ih5, ih6, ih7, ih8, ih9, ih10, ih11, ih12,
      ih13, ih14, ih15, ih16, ih17, ih18, ih19, ih20, ih21, ih22, ih23, ih24⟩ := ih
    obtain ⟨sh1, sh2, sh3, sh4, sh5, sh6, sh7, sh8, sh9, sh10, sh11, sh12,
      sh13, sh14, sh15, sh16, sh17, sh18, sh19, sh20, sh21, sh22, sh23, sh24⟩ :=
      parser_shrink n
    refine ⟨?_, ?_, ?_, ?_, ?_, ?_, ?_, ?_, ?_, ?_, ?_, ?_, ?_, ?_, ?_, ?_,
      ?_, ?_, ?_, ?_, ?_, ?_, ?_, ?_⟩
    -- parse_class
    · intro ts hle
      rw [parse_class]
      refine PResult.bind_ne_fuelOut expect_keyword_ne_fuelOut fun u1 ts1 h1 => ?_
      obtain ⟨t1, e1, -⟩ := expect_keyword_ok h1
      have l1 : ts.length = ts1.length + 1 := by rw [e1]; rfl
      refine PResult.bind_ne_fuelOut expect_identifier_ne_fuelOut fun nm ts2 h2 => ?_
      obtain ⟨t2, e2, -⟩ := expect_identifier_ok h2
      have l2 : ts1.length = ts2.length + 1 := by rw [e2]; rfl
      refine PResult.bind_ne_fuelOut expect_symbol_ne_fuelOut fun u3 ts3 h3 => ?_
      obtain ⟨t3, e3, -⟩ := expect_symbol_ok h3
      have l3 : ts2.length = ts3.length + 1 := by rw [e3]; rfl
      refine PResult.bind_ne_fuelOut (ih2 ts3 (by omega)) fun vds ts4 h4 => ?_
      have l4 : ts4.length ≤ ts3.length := (sh2 _ _ _ h4).length_le
      refine PResult.bind_ne_fuelOut (ih5 ts4 (by omega)) fun sds ts5 h5 => ?_
      refine PResult.bind_ne_fuelOut expect_symbol_ne_fuelOut fun u6 ts6 h6 => ?_
      simp
    -- parse_class_var_decs
    · intro ts hle
      rw [parse_class_var_decs]
      split
      · refine PResult.bind_ne_fuelOut (ih3 ts (by omega)) fun d ts1 h1 => ?_
        have l1 : ts1.length < ts.length := (sh3 _ _ _ h1).2
        refine PResult.bind_ne_fuelOut (ih2 ts1 (by omega)) fun ds ts2 h2 => ?_
        simp
      · simp
    -- parse_class_var_dec
    · intro ts hle
      rw [parse_class_var_dec]
      refine PResult.bind_ne_fuelOut expect_one_of_ne_fuelOut fun k ts1 h1 => ?_
      obtain ⟨t1, e1, -, -⟩ := expect_one_of_ok h1
      have l1 : ts.length = ts1.length + 1 := by rw [e1]; rfl
      refine PResult.bind_ne_fuelOut parse_type_ne_fuelOut fun ty ts2 h2 => ?_
      obtain ⟨t2, e2⟩ := parse_type_ok h2
      have l2 : ts1.length = ts2.length + 1 := by rw [e2]; rfl
      refine PResult.bind_ne_fuelOut expect_identifier_ne_fuelOut fun n0 ts3 h3 => ?_
      obtain ⟨t3, e3, -⟩ := expect_identifier_ok h3
      have l3 : ts2.length = ts3.length + 1 := by rw [e3]; rfl
      refine PResult.bind_ne_fuelOut (ih4 ts3 (by omega)) fun more ts4 h4 => ?_
      refine PResult.bind_ne_fuelOut expect_symbol_ne_fuelOut fun u5 ts5 h5 => ?_
      simp
    -- parse_comma_names
    · intro ts hle
      rw [parse_comma_names]
      split
      · next ts0 heq =>
        obtain ⟨t0, e0, -⟩ := match_symbol_true heq
        have l0 : ts.length = ts0.length + 1 := by rw [e0]; rfl
        refine PResult.bind_ne_fuelOut expect_identifier_ne_fuelOut fun n1 ts1 h1 => ?_
        obtain ⟨t1, e1, -⟩ := expect_identifier_ok h1
        have l1 : ts0.length = ts1.length + 1 := by rw [e1]; rfl
        refine PResult.bind_ne_fuelOut (ih4 ts1 (by omega)) fun ns ts2 h2 => ?_
        simp
      · simp
    -- parse_subroutine_decs
    · intro ts hle
      rw [parse_subroutine_decs]
      split
      · refine PResult.bind_ne_fuelOut (ih6 ts (by omega)) fun d ts1 h1 => ?_
        have l1 : ts1.length < ts.length := (sh6 _ _ _ h1).2
        refine PResult.bind_ne_fuelOut (ih5 ts1 (by omega)) fun ds ts2 h2 => ?_
        simp
      · simp
    -- parse_subroutine_dec
    · intro ts hle
      rw [parse_subroutine_dec]
      refine PResult.bind_ne_fuelOut expect_one_of_ne_fuelOut fun k ts1 h1 => ?_
      obtain ⟨t1, e1, -, -⟩ := expect_one_of_ok h1
      have l1 : ts.length = ts1.length + 1 := by rw [e1]; rfl
      refine PResult.bind_ne_fuelOut ?_ fun rt ts2 h2 => ?_
      · split
        · simp
        · exact PResult.bind_ne_fuelOut parse_type_ne_fuelOut
            fun ty tsx hx => by simp
      · have l2 : ts2.length ≤ ts1.length := by
          split at h2
          · next tsv heq =>
            simp only [PResult.ok.injEq] at h2
            obtain ⟨-, hts2⟩ := h2
            subst hts2
            obtain ⟨tv, ev, -⟩ := match_keyword_true heq
            rw [ev]
            simp
          · next tsv heq =>
            have hveq := match_keyword_false heq
            subst hveq
            simp only [PResult.bind_eq_ok, PResult.ok.injEq] at h2
            obtain ⟨ty, tsx, hty, -, hts2⟩ := h2
            subst hts2
            obtain ⟨tx, ex⟩ := parse_type_ok hty
            rw [ex]
            simp
        refine PResult.bind_ne_fuelOut expect_identifier_ne_fuelOut fun nm ts3 h3 => ?_
        obtain ⟨t3, e3, -⟩ := expect_identifier_ok h3
        have l3 : ts2.length = ts3.length + 1 := by rw [e3]; rfl
        refine PResult.bind_ne_fuelOut expect_symbol_ne_fuelOut fun u4 ts4 h4 => ?_
        obtain ⟨t4, e4, -⟩ := expect_symbol_ok h4
        have l4 : ts3.length = ts4.length + 1 := by rw [e4]; rfl
        refine PResult.bind_ne_fuelOut (ih7 ts4 (by omega)) fun ps ts5 h5 => ?_
        have l5 : ts5.length ≤ ts4.length := (sh7 _ _ _ h5).length_le
        refine PResult.bind_ne_fuelOut expect_symbol_ne_fuelOut fun u6 ts6 h6 => ?_
        obtain ⟨t6, e6, -⟩ := expect_symbol_ok h6
        have l6 : ts5.length = ts6.length + 1 := by rw [e6]; rfl
        refine PResult.bind_ne_fuelOut (ih9 ts6 (by omega)) fun body ts7 h7 => ?_
        simp
    -- parse_parameter_list
    · intro ts hle
      rw [parse_parameter_list]
      split
      · simp
      · refine PResult.bind_ne_fuelOut parse_type_ne_fuelOut fun ty ts1 h1 => ?_
        obtain ⟨t1, e1⟩ := parse_type_ok h1
        have l1 : ts.length = ts1.length + 1 := by rw [e1]; rfl
        refine PResult.bind_ne_fuelOut expect_identifier_ne_fuelOut fun nm ts2 h2 => ?_
        obtain ⟨t2, e2, -⟩ := expect_identifier_ok h2
        have l2 : ts1.length = ts2.length + 1 := by rw [e2]; rfl
        refine PResult.bind_ne_fuelOut (ih8 ts2 (by omega)) fun rest ts3 h3 => ?_
        simp
    -- parse_params_rest
    · intro ts hle
      rw [parse_params_rest]
      split
      · next ts0 heq =>
        obtain ⟨t0, e0, -⟩ := match_symbol_true heq
        have l0 : ts.length = ts0.length + 1 := by rw [e0]; rfl
        refine PResult.bind_ne_fuelOut parse_type_ne_fuelOut fun ty ts1 h1 => ?_
        obtain ⟨t1, e1⟩ := parse_type_ok h1
        have l1 : ts0.length = ts1.length + 1 := by rw [e1]; rfl
        refine PResult.bind_ne_fuelOut expect_identifier_ne_fuelOut fun nm ts2 h2 => ?_
        obtain ⟨t2, e2, -⟩ := expect_identifier_ok h2
        have l2 : ts1.length = ts2.length + 1 := by rw [e2]; rfl
        refine PResult.bind_ne_fuelOut (ih8 ts2 (by omega)) fun rest ts3 h3 => ?_
        simp
      · simp
    -- parse_subroutine_body
    · intro ts hle
      rw [parse_subroutine_body]
      refine PResult.bind_ne_fuelOut expect_symbol_ne_fuelOut fun u1 ts1 h1 => ?_
      obtain ⟨t1, e1, -⟩ := expect_symbol_ok h1
      have l1 : ts.length = ts1.length + 1 := by rw [e1]; rfl
      refine PResult.bind_ne_fuelOut (ih10 ts1 (by omega)) fun vds ts2 h2 => ?_
      have l2 : ts2.length ≤ ts1.length := (sh10 _ _ _ h2).length_le
      refine PResult.bind_ne_fuelOut (ih12 ts2 (by omega)) fun ss ts3 h3 => ?_
      refine PResult.bind_ne_fuelOut expect_symbol_ne_fuelOut fun u4 ts4 h4 => ?_
      simp
    -- parse_var_decs
    · intro ts hle
      rw [parse_var_decs]
      split
      · refine PResult.bind_ne_fuelOut (ih11 ts (by omega)) fun d ts1 h1 => ?_
        have l1 : ts1.length < ts.length := (sh11 _ _ _ h1).2
        refine PResult.bind_ne_fuelOut (ih10 ts1 (by omega)) fun ds ts2 h2 => ?_
        simp
      · simp
    -- parse_var_dec
    · intro ts hle
      rw [parse_var_dec]
      refine PResult.bind_ne_fuelOut expect_keyword_ne_fuelOut fun u1 ts1 h1 => ?_
      obtain ⟨t1, e1, -⟩ := expect_keyword_ok h1
      have l1 : ts.length = ts1.length + 1 := by rw [e1]; rfl
      refine PResult.bind_ne_fuelOut parse_type_ne_fuelOut fun ty ts2 h2 => ?_
      obtain ⟨t2, e2⟩ := parse_type_ok h2
      have l2 : ts1.length = ts2.length + 1 := by rw [e2]; rfl
      refine PResult.bind_ne_fuelOut expect_identifier_ne_fuelOut fun n0 ts3 h3 => ?_
      obtain ⟨t3, e3, -⟩ := expect_identifier_ok h3
      have l3 : ts2.length = ts3.length + 1 := by rw [e3]; rfl
      refine PResult.bind_ne_fuelOut (ih4 ts3 (by omega)) fun more ts4 h4 => ?_
      refine PResult.bind_ne_fuelOut expect_symbol_ne_fuelOut fun u5 ts5 h5 => ?_
      simp
    -- parse_statements
    · intro ts hle
      rw [parse_statements]
      split
      · refine PResult.bind_ne_fuelOut (ih13 ts (by omega)) fun s ts1 h1 => ?_
        have l1 : ts1.length < ts.length := (sh13 _ _ _ h1).2
        refine PResult.bind_ne_fuelOut (ih12 ts1 (by omega)) fun ss ts2 h2 => ?_
        simp
      · simp
    -- parse_statement
    · intro ts hle
      rw [parse_statement]
      split
      · next t heq =>
        split
        · next k hk =>
          split
          · exact PResult.bind_ne_fuelOut (ih14 ts (by omega)) fun s ts1 h1 => by simp
          · exact PResult.bind_ne_fuelOut (ih15 ts (by omega)) fun s ts1 h1 => by simp
          · exact PResult.bind_ne_fuelOut (ih16 ts (by omega)) fun s ts1 h1 => by simp
          · exact PResult.bind_ne_fuelOut (ih17 ts (by omega)) fun s ts1 h1 => by simp
          · exact PResult.bind_ne_fuelOut (ih18 ts (by omega)) fun s ts1 h1 => by simp
          · simp
        · simp
      · simp
    -- parse_let_statement
    · intro ts hle
      rw [parse_let_statement]
      refine PResult.bind_ne_fuelOut expect_keyword_ne_fuelOut fun u1 ts1 h1 => ?_
      obtain ⟨t1, e1, -⟩ := expect_keyword_ok h1
      have l1 : ts.length = ts1.length + 1 := by rw [e1]; rfl
      refine PResult.bind_ne_fuelOut expect_identifier_ne_fuelOut fun vn ts2 h2 => ?_
      obtain ⟨t2, e2, -⟩ := expect_identifier_ok h2
      have l2 : ts1.length = ts2.length + 1 := by rw [e2]; rfl
      refine PResult.bind_ne_fuelOut ?_ fun ie ts3 h3 => ?_
      · split
        · next tsv heq =>
          obtain ⟨tb, eb, -⟩ := match_symbol_true heq
          have lb : ts2.length = tsv.length + 1 := by rw [eb]; rfl
          refine PResult.bind_ne_fuelOut (ih19 tsv (by omega)) fun e tsx hx => ?_
          exact PResult.bind_ne_fuelOut expect_symbol_ne_fuelOut
            fun uy tsy hy => by simp
        · simp
      · have l3 : ts3.length ≤ ts2.length := by
          split at h3
          · next tsv heq =>
            simp only [PResult.bind_eq_ok, PResult.ok.injEq] at h3
            obtain ⟨e, tsx, hex, uy, tsy, hy, -, hts3⟩ := h3
            subst hts3
            obtain ⟨tb, eb, -⟩ := match_symbol_true heq
            obtain ⟨ty', ey, -⟩ := expect_symbol_ok hy
            have hsx := (sh19 _ _ _ hex).1.length_le
            have leb : ts2.length = tsv.length + 1 := by rw [eb]; rfl
            have ley : tsx.length = tsy.length + 1 := by rw [ey]; rfl
            omega
          · next tsv heq =>
            have hveq := match_symbol_false heq
            subst hveq
            simp only [PResult.ok.injEq] at h3
            obtain ⟨-, hts3⟩ := h3
            subst hts3
            exact Nat.le_refl _
        refine PResult.bind_ne_fuelOut expect_symbol_ne_fuelOut fun u4 ts4 h4 => ?_
        obtain ⟨t4, e4, -⟩ := expect_symbol_ok h4
        have l4 : ts3.length = ts4.length + 1 := by rw [e4]; rfl
        refine PResult.bind_ne_fuelOut (ih19 ts4 (by omega)) fun ve ts5 h5 => ?_
        refine PResult.bind_ne_fuelOut expect_symbol_ne_fuelOut fun u6 ts6 h6 => ?_
        simp
    -- parse_if_statement
    · intro ts hle
      rw [parse_if_statement]
      refine PResult.bind_ne_fuelOut expect_keyword_ne_fuelOut fun u1 ts1 h1 => ?_
      obtain ⟨t1, e1, -⟩ := expect_keyword_ok h1
      have l1 : ts.length = ts1.length + 1 := by rw [e1]; rfl
      refine PResult.bind_ne_fuelOut expect_symbol_ne_fuelOut fun u2 ts2 h2 => ?_
      obtain ⟨t2, e2, -⟩ := expect_symbol_ok h2
      have l2 : ts1.length = ts2.length + 1 := by rw [e2]; rfl
      refine PResult.bind_ne_fuelOut (ih19 ts2 (by omega)) fun cond ts3 h3 => ?_
      have l3 : ts3.length < ts2.length := (sh19 _ _ _ h3).2
      refine PResult.bind_ne_fuelOut expect_symbol_ne_fuelOut fun u4 ts4 h4 => ?_
      obtain ⟨t4, e4, -⟩ := expect_symbol_ok h4
      have l4 : ts3.length = ts4.length + 1 := by rw [e4]; rfl
      refine PResult.bind_ne_fuelOut expect_symbol_ne_fuelOut fun u5 ts5 h5 => ?_
      obtain ⟨t5, e5, -⟩ := expect_symbol_ok h5
      have l5 : ts4.length = ts5.length + 1 := by rw [e5]; rfl
      refine PResult.bind_ne_fuelOut (ih12 ts5 (by omega)) fun ifb ts6 h6 => ?_
      have l6 : ts6.length ≤ ts5.length := (sh12 _ _ _ h6).length_le
      refine PResult.bind_ne_fuelOut expect_symbol_ne_fuelOut fun u7 ts7 h7 => ?_
      obtain ⟨t7, e7, -⟩ := expect_symbol_ok h7
      have l7 : ts6.length = ts7.length + 1 := by rw [e7]; rfl
      refine PResult.bind_ne_fuelOut ?_ fun eb ts8 h8 => ?_
      · split
        · next tsv heq =>
          obtain ⟨tv, ev, -⟩ := match_keyword_true heq
          have lv : ts7.length = tsv.length + 1 := by rw [ev]; rfl
          refine PResult.bind_ne_fuelOut expect_symbol_ne_fuelOut fun ux tsx hx => ?_
          obtain ⟨tx, ex2, -⟩ := expect_symbol_ok hx
          have lx : tsv.length = tsx.length + 1 := by rw [ex2]; rfl
          refine PResult.bind_ne_fuelOut (ih12 tsx (by omega)) fun els tsy hy => ?_
          exact PResult.bind_ne_fuelOut expect_symbol_ne_fuelOut
            fun uz tsz hz => by simp
        · simp
      · simp
    -- parse_while_statement
    · intro ts hle
      rw [parse_while_statement]
      refine PResult.bind_ne_fuelOut expect_keyword_ne_fuelOut fun u1 ts1 h1 => ?_
      obtain ⟨t1, e1, -⟩ := expect_keyword_ok h1
      have l1 : ts.length = ts1.length + 1 := by rw [e1]; rfl
      refine PResult.bind_ne_fuelOut expect_symbol_ne_fuelOut fun u2 ts2 h2 => ?_
      obtain ⟨t2, e2, -⟩ := expect_symbol_ok h2
      have l2 : ts1.length = ts2.length + 1 := by rw [e2]; rfl
      refine PResult.bind_ne_fuelOut (ih19 ts2 (by omega)) fun cond ts3 h3 => ?_
      have l3 : ts3.length < ts2.length := (sh19 _ _ _ h3).2
      refine PResult.bind_ne_fuelOut expect_symbol_ne_fuelOut fun u4 ts4 h4 => ?_
      obtain ⟨t4, e4, -⟩ := expect_symbol_ok h4
      have l4 : ts3.length = ts4.length + 1 := by rw [e4]; rfl
      refine PResult.bind_ne_fuelOut expect_symbol_ne_fuelOut fun u5 ts5 h5 => ?_
      obtain ⟨t5, e5, -⟩ := expect_symbol_ok h5
      have l5 : ts4.length = ts5.length + 1 := by rw [e5]; rfl
      refine PResult.bind_ne_fuelOut (ih12 ts5 (by omega)) fun body ts6 h6 => ?_
      refine PResult.bind_ne_fuelOut expect_symbol_ne_fuelOut fun u7 ts7 h7 => ?_
      simp
    -- parse_do_statement
    · intro ts hle
      rw [parse_do_statement]
      refine PResult.bind_ne_fuelOut expect_keyword_ne_fuelOut fun u1 ts1 h1 => ?_
      obtain ⟨t1, e1, -⟩ := expect_keyword_ok h1
      have l1 : ts.length = ts1.length + 1 := by rw [e1]; rfl
      refine PResult.bind_ne_fuelOut (ih22 ts1 (by omega)) fun call ts2 h2 => ?_
      refine PResult.bind_ne_fuelOut expect_symbol_ne_fuelOut fun u3 ts3 h3 => ?_
      simp
    -- parse_return_statement
    · intro ts hle
      rw [parse_return_statement]
      refine PResult.bind_ne_fuelOut expect_keyword_ne_fuelOut fun u1 ts1 h1 => ?_
      obtain ⟨t1, e1, -⟩ := expect_keyword_ok h1
      have l1 : ts.length = ts1.length + 1 := by rw [e1]; rfl
      refine PResult.bind_ne_fuelOut ?_ fun v ts2 h2 => ?_
      · split
        · simp
        · exact PResult.bind_ne_fuelOut (ih19 ts1 (by omega))
            fun e tsx hx => by simp
      · have l2 : ts2.length ≤ ts1.length := by
          split at h2
          · simp only [PResult.ok.injEq] at h2
            obtain ⟨-, hts2⟩ := h2
            subst hts2
            exact Nat.le_refl _
          · simp only [PResult.bind_eq_ok, PResult.ok.injEq] at h2
            obtain ⟨e, tsx, hex, -, hts2⟩ := h2
            subst hts2
            exact (sh19 _ _ _ hex).1.length_le
        refine PResult.bind_ne_fuelOut expect_symbol_ne_fuelOut fun u3 ts3 h3 => ?_
        simp
    -- parse_expression
    · intro ts hle
      rw [parse_expression]
      refine PResult.bind_ne_fuelOut (ih21 ts (by omega)) fun t ts1 h1 => ?_
      have l1 : ts1.length < ts.length := (sh21 _ _ _ h1).2
      refine PResult.bind_ne_fuelOut (ih20 ts1 (by omega)) fun ops ts2 h2 => ?_
      simp
    -- parse_ops
    · intro ts hle
      rw [parse_ops]
      split
      · next op heq =>
        obtain ⟨t0, tl, e0⟩ := peek_op_some heq
        have l0 : ts.length = tl.length + 1 := by rw [e0]; rfl
        have ladv : advance ts = tl := by rw [e0]; rfl
        refine PResult.bind_ne_fuelOut (ih21 (advance ts) (by rw [ladv]; omega))
          fun t ts1 h1 => ?_
        have l1 : ts1.length < (advance ts).length := (sh21 _ _ _ h1).2
        rw [ladv] at l1
        refine PResult.bind_ne_fuelOut (ih20 ts1 (by omega)) fun rest ts2 h2 => ?_
        simp
      · simp
    -- parse_term
    · intro ts hle
      rw [parse_term]
      split
      · simp
      · next t heq =>
        obtain ⟨tl, etl⟩ := head?_some heq
        have ladv : advance ts = tl := by rw [etl]; rfl
        have l0 : ts.length = tl.length + 1 := by rw [etl]; rfl
        split
        · simp
        · simp
        · split <;> simp
        · split
          · exact PResult.bind_ne_fuelOut (ih22 ts (by omega))
              fun c ts1 h1 => by simp
          · split
            · refine PResult.bind_ne_fuelOut expect_identifier_ne_fuelOut
                fun nm ts1 h1 => ?_
              obtain ⟨t1, e1, -⟩ := expect_identifier_ok h1
              have l1 : ts.length = ts1.length + 1 := by rw [e1]; rfl
              refine PResult.bind_ne_fuelOut expect_symbol_ne_fuelOut
                fun u2 ts2 h2 => ?_
              obtain ⟨t2, e2, -⟩ := expect_symbol_ok h2
              have l2 : ts1.length = ts2.length + 1 := by rw [e2]; rfl
              refine PResult.bind_ne_fuelOut (ih19 ts2 (by omega))
                fun e ts3 h3 => ?_
              refine PResult.bind_ne_fuelOut expect_symbol_ne_fuelOut
                fun u4 ts4 h4 => ?_
              simp
            · exact PResult.bind_ne_fuelOut expect_identifier_ne_fuelOut
                fun nm ts1 h1 => by simp
        · next s hs =>
          split
          · refine PResult.bind_ne_fuelOut (ih19 (advance ts) (by rw [ladv]; omega))
              fun e ts1 h1 => ?_
            exact PResult.bind_ne_fuelOut expect_symbol_ne_fuelOut
              fun u2 ts2 h2 => by simp
          · split
            · exact PResult.bind_ne_fuelOut (ih21 (advance ts) (by rw [ladv]; omega))
                fun inner ts1 h1 => by simp
            · simp
    -- parse_subroutine_call
    · intro ts hle
      rw [parse_subroutine_call]
      refine PResult.bind_ne_fuelOut expect_identifier_ne_fuelOut fun fi ts1 h1 => ?_
      obtain ⟨t1, e1, -⟩ := expect_identifier_ok h1
      have l1 : ts.length = ts1.length + 1 := by rw [e1]; rfl
      refine PResult.bind_ne_fuelOut ?_ fun rn ts2 h2 => ?_
      · split
        · exact PResult.bind_ne_fuelOut expect_identifier_ne_fuelOut
            fun nm tsx hx => by simp
        · simp
      · have l2 : ts2.length ≤ ts1.length := by
          split at h2
          · next tsv heq =>
            simp only [PResult.bind_eq_ok, PResult.ok.injEq] at h2
            obtain ⟨nm, tsx, hx, -, hts2⟩ := h2
            subst hts2
            obtain ⟨tv, ev, -⟩ := match_symbol_true heq
            obtain ⟨tx, ex, -⟩ := expect_identifier_ok hx
            have lv : ts1.length = tsv.length + 1 := by rw [ev]; rfl
            have lx : tsv.length = tsx.length + 1 := by rw [ex]; rfl
            omega
          · next tsv heq =>
            have hveq := match_symbol_false heq
            subst hveq
            simp only [PResult.ok.injEq] at h2
            obtain ⟨-, hts2⟩ := h2
            subst hts2
            exact Nat.le_refl _
        refine PResult.bind_ne_fuelOut expect_symbol_ne_fuelOut fun u3 ts3 h3 => ?_
        obtain ⟨t3, e3, -⟩ := expect_symbol_ok h3
        have l3 : ts2.length = ts3.length + 1 := by rw [e3]; rfl
        refine PResult.bind_ne_fuelOut (ih23 ts3 (by omega)) fun args ts4 h4 => ?_
        have l4 : ts4.length ≤ ts3.length := (sh23 _ _ _ h4).length_le
        refine PResult.bind_ne_fuelOut expect_symbol_ne_fuelOut fun u5 ts5 h5 => ?_
        simp
    -- parse_expression_list
    · intro ts hle
      rw [parse_expression_list]
      split
      · simp
      · refine PResult.bind_ne_fuelOut (ih19 ts (by omega)) fun e ts1 h1 => ?_
        have l1 : ts1.length < ts.length := (sh19 _ _ _ h1).2
        refine PResult.bind_ne_fuelOut (ih24 ts1 (by omega)) fun rest ts2 h2 => ?_
        simp
    -- parse_args_rest
    · intro ts hle
      rw [parse_args_rest]
      split
      · next ts0 heq =>
        obtain ⟨t0, e0, -⟩ := match_symbol_true heq
        have l0 : ts.length = ts0.length + 1 := by rw [e0]; rfl
        refine PResult.bind_ne_fuelOut (ih19 ts0 (by omega)) fun e ts1 h1 => ?_
        have l1 : ts1.length < ts0.length := (sh19 _ _ _ h1).2
        refine PResult.bind_ne_fuelOut (ih24 ts1 (by omega)) fun rest ts2 h2 => ?_
        simp
      · simp

/-! ## Frame property: a parse that succeeds leaving a nonempty remainder
`r :: rest` never inspected anything beyond `r`, so everything after `r`
can be replaced without affecting the result (the parser reads at most one
token of lookahead past what it consumes) -/

theorem head?_append (pre : List Token) (r : Token) (rest rest' : List Token) :
    (pre ++ r :: rest).head? = (pre ++ r :: rest').head? := by
  cases pre <;> rfl

theorem peek_keyword_append (ks : List Keyword) (pre : List Token) (r : Token)
    (rest rest' : List Token) :
    peek_keyword ks (pre ++ r :: rest) = peek_keyword ks (pre ++ r :: rest') := by
  cases pre <;> rfl

theorem peek_symbol_append (c : Char) (pre : List Token) (r : Token)
    (rest rest' : List Token) :
    peek_symbol c (pre ++ r :: rest) = peek_symbol c (pre ++ r :: rest') := by
  cases pre <;> rfl

theorem peek_op_append (pre : List Token) (r : Token)
    (rest rest' : List Token) :
    peek_op (pre ++ r :: rest) = peek_op (pre ++ r :: rest') := by
  cases pre <;> rfl

theorem peek_next_symbol_append (c : Char) {pre : List Token} (hp : pre ≠ [])
    (r : Token) (rest rest' : List Token) :
    peek_next_symbol c (pre ++ r :: rest) = peek_next_symbol c (pre ++ r :: rest') := by
  match pre with
  | [] => exact absurd rfl hp
  | [p] => rfl
  | p :: p2 :: pre' => rfl

theorem match_symbol_append_false (c : Char) (pre : List Token) (r : Token)
    (rest rest' ts0 : List Token)
    (h : match_symbol c (pre ++ r :: rest) = (false, ts0)) :
    match_symbol c (pre ++ r :: rest') = (false, pre ++ r :: rest') := by
  match pre with
  | [] =>
    rw [List.nil_append] at h ⊢
    rw [match_symbol] at h ⊢
    split at h
    · simp at h
    · next hneg => rw [if_neg hneg]
  | p :: pre' =>
    rw [List.cons_append] at h ⊢
    rw [match_symbol] at h ⊢
    split at h
    · simp at h
    · next hneg => rw [if_neg hneg]

theorem match_keyword_append_false (k : Keyword) (pre : List Token) (r : Token)
    (rest rest' ts0 : List Token)
    (h : match_keyword k (pre ++ r :: rest) = (false, ts0)) :
    match_keyword k (pre ++ r :: rest') = (false, pre ++ r :: rest') := by
  match pre with
  | [] =>
    rw [List.nil_append] at h ⊢
    rw [match_keyword] at h ⊢
    split at h
    · simp at h
    · next hneg => rw [if_neg hneg]
  | p :: pre' =>
    rw [List.cons_append] at h ⊢
    rw [match_keyword] at h ⊢
    split at h
    · simp at h
    · next hneg => rw [if_neg hneg]

theorem match_symbol_false_cons {c : Char} {t : Token} {X ts' : List Token}
    (h : match_symbol c (t :: X) = (false, ts')) :
    ¬t.token_type = .Symbol c := by
  rw [match_symbol] at h
  split at h
  · simp at h
  · next hn => exact hn

theorem match_keyword_false_cons {k : Keyword} {t : Token} {X ts' : List Token}
    (h : match_keyword k (t :: X) = (false, ts')) :
    ¬t.token_type = .Keyword k := by
  rw [match_keyword] at h
  split at h
  · simp at h
  · next hn => exact hn

theorem match_keyword_append_true (k : Keyword) {tv : Token} (Q : List Token)
    (r : Token) (R : List Token) (kv : tv.token_type = .Keyword k) :
    match_keyword k ((tv :: Q) ++ r :: R) = (true, Q ++ r :: R) :=
  match_keyword_cons_true _ kv

theorem match_symbol_append_true (c : Char) {tv : Token} (Q : List Token)
    (r : Token) (R : List Token) (kv : tv.token_type = .Symbol c) :
    match_symbol c ((tv :: Q) ++ r :: R) = (true, Q ++ r :: R) :=
  match_symbol_cons_true _ kv

theorem match_keyword_append_neg (k : Keyword) {tv : Token} (Q : List Token)
    (r : Token) (R : List Token) (kv : ¬tv.token_type = .Keyword k) :
    match_keyword k ((tv :: Q) ++ r :: R) = (false, (tv :: Q) ++ r :: R) :=
  match_keyword_cons_false _ kv

theorem match_symbol_append_neg (c : Char) {tv : Token} (Q : List Token)
    (r : Token) (R : List Token) (kv : ¬tv.token_type = .Symbol c) :
    match_symbol c ((tv :: Q) ++ r :: R) = (false, (tv :: Q) ++ r :: R) :=
  match_symbol_cons_false _ kv

/-- Lift the frame property of one parser function through one
parsing step: if a sub-parse of `tsi` ends at `Q ++ r :: rest`, then `tsi`
decomposes as `P ++ r :: rest` and the sub-parse replays identically when
everything after `r` is replaced. -/
theorem frame_step {α : Type} {g : Nat → List Token → PResult α} {n : Nat}
    (hframe : FrameAt g n) (hshr : ShrinksAt g n)
    {tsi : List Token} {b : α} {Q : List Token} {r : Token} {rest : List Token}
    (hg : g n tsi = .ok b (Q ++ r :: rest)) :
    ∃ P, tsi = P ++ r :: rest ∧
      ∀ rest', g n (P ++ r :: rest') = .ok b (Q ++ r :: rest') := by
  obtain ⟨P0, hP0⟩ := hshr _ _ _ hg
  refine ⟨P0 ++ Q, by rw [← hP0, List.append_assoc], fun rest' => ?_⟩
  match Q with
  | [] =>
    have hg' : g n (P0 ++ r :: rest) = .ok b (r :: rest) := by
      rw [← hP0] at hg
      simpa using hg
    have hf := hframe P0 r rest rest' b hg'
    simpa using hf
  | rh :: Q' =>
    have hg' : g n (P0 ++ rh :: (Q' ++ r :: rest)) = .ok b (rh :: (Q' ++ r :: rest)) := by
      rw [← hP0] at hg
      exact hg
    have hf := hframe P0 rh (Q' ++ r :: rest) (Q' ++ r :: rest') b hg'
    rw [List.append_assoc]
    exact hf

theorem parser_frame : ∀ fuel : Nat,
    FrameAt parse_class fuel ∧
    FrameAt parse_class_var_decs fuel ∧
    FrameAt parse_class_var_dec fuel ∧
    FrameAt parse_comma_names fuel ∧
    FrameAt parse_subroutine_decs fuel ∧
    FrameAt parse_subroutine_dec fuel ∧
    FrameAt parse_parameter_list fuel ∧
    FrameAt parse_params_rest fuel ∧
    FrameAt parse_subroutine_body fuel ∧
    FrameAt parse_var_decs fuel ∧
    FrameAt parse_var_dec fuel ∧
    FrameAt parse_statements fuel ∧
    FrameAt parse_statement fuel ∧
    FrameAt parse_let_statement fuel ∧
    FrameAt parse_if_statement fuel ∧
    FrameAt parse_while_statement fuel ∧
    FrameAt parse_do_statement fuel ∧
    FrameAt parse_return_statement fuel ∧
    FrameAt parse_expression fuel ∧
    FrameAt parse_ops fuel ∧
    FrameAt parse_term fuel ∧
    FrameAt parse_subroutine_call fuel ∧
    FrameAt parse_expression_list fuel ∧
    FrameAt parse_args_rest fuel := by
  intro fuel
  induction fuel with
  | zero =>
    refine ⟨?_, ?_, ?_, ?_, ?_, ?_, ?_, ?_, ?_, ?_, ?_, ?_, ?_, ?_, ?_, ?_,
      ?_, ?_, ?_, ?_, ?_, ?_, ?_, ?_⟩ <;>
    · intro pre r rest rest' a h
      simp [parse_class, parse_class_var_decs, parse_class_var_dec,
        parse_comma_names, parse_subroutine_decs, parse_subroutine_dec,
        parse_parameter_list, parse_params_rest, parse_subroutine_body,
        parse_var_decs, parse_var_dec, parse_statements, parse_statement,
        parse_let_statement, parse_if_statement, parse_while_statement,
        parse_do_statement, parse_return_statement, parse_expression,
        parse_ops, parse_term, parse_subroutine_call, parse_expression_list,
        parse_args_rest] at h
  | succ n ih =>
    obtain ⟨ihF1, ihF2, ihF3, ihF4, ihF5, ihF6, ihF7, ihF8, ihF9, ihF10,
      ihF11, ihF12, ihF13, ihF14, ihF15, ihF16, ihF17, ihF18, ihF19, ihF20,
      ihF21, ihF22, ihF23, ihF24⟩ := ih
    obtain ⟨sh1, sh2, sh3, sh4, sh5, sh6, sh7, sh8, sh9, sh10, sh11, sh12,
      sh13, sh14, sh15, sh16, sh17, sh18, sh19, sh20, sh21, sh22, sh23, sh24⟩ :=
      parser_shrink n
    have wk3 : ShrinksAt parse_class_var_dec n := fun ts a ts' h => (sh3 ts a ts' h).1
    have wk6 : ShrinksAt parse_subroutine_dec n := fun ts a ts' h => (sh6 ts a ts' h).1
    have wk9 : ShrinksAt parse_subroutine_body n := fun ts a ts' h => (sh9 ts a ts' h).1
    have wk11 : ShrinksAt parse_var_dec n := fun ts a ts' h => (sh11 ts a ts' h).1
    have wk13 : ShrinksAt parse_statement n := fun ts a ts' h => (sh13 ts a ts' h).1
    have wk14 : ShrinksAt parse_let_statement n := fun ts a ts' h => (sh14 ts a ts' h).1
    have wk15 : ShrinksAt parse_if_statement n := fun ts a ts' h => (sh15 ts a ts' h).1
    have wk16 : ShrinksAt parse_while_statement n := fun ts a ts' h => (sh16 ts a ts' h).1
    have wk17 : ShrinksAt parse_do_statement n := fun ts a ts' h => (sh17 ts a ts' h).1
    have wk18 : ShrinksAt parse_return_statement n := fun ts a ts' h => (sh18 ts a ts' h).1
    have wk19 : ShrinksAt parse_expression n := fun ts a ts' h => (sh19 ts a ts' h).1
    have wk21 : ShrinksAt parse_term n := fun ts a ts' h => (sh21 ts a ts' h).1
    have wk22 : ShrinksAt parse_subroutine_call n := fun ts a ts' h => (sh22 ts a ts' h).1
    refine ⟨?_, ?_, ?_, ?_, ?_, ?_, ?_, ?_, ?_, ?_, ?_, ?_, ?_, ?_, ?_, ?_,
      ?_, ?_, ?_, ?_, ?_, ?_, ?_, ?_⟩
    -- parse_class
    · intro pre r rest rest' a h
      rw [parse_class] at h ⊢
      simp only [PResult.bind_eq_ok, PResult.ok.injEq] at h
      obtain ⟨u1, ts1, h1, nm, ts2, h2, u3, ts3, h3, vds, ts4, h4, sds, ts5,
        h5, u6, ts6, h6, ha, hts⟩ := h
      subst hts
      obtain ⟨t6, e6, k6⟩ := expect_symbol_ok h6
      rw [e6] at h5
      obtain ⟨P5, d5, f5⟩ := frame_step ihF5 sh5 (Q := [t6]) h5
      rw [d5] at h4
      obtain ⟨P4, d4, f4⟩ := frame_step ihF2 sh2 (Q := P5) h4
      obtain ⟨t3, e3, k3⟩ := expect_symbol_ok h3
      obtain ⟨t2, e2, k2⟩ := expect_identifier_ok h2
      obtain ⟨t1, e1, k1⟩ := expect_keyword_ok h1
      rw [d4] at e3
      rw [e3] at e2
      rw [e2] at e1
      have hpre : pre = t1 :: t2 :: t3 :: P4 := List.append_cancel_right
        (show pre ++ r :: rest = (t1 :: t2 :: t3 :: P4) ++ r :: rest from e1)
      subst hpre
      refine PResult.bind_eq_ok.mpr ⟨(), _, expect_keyword_cons _ k1, ?_⟩
      refine PResult.bind_eq_ok.mpr ⟨nm, _, expect_identifier_cons _ k2, ?_⟩
      refine PResult.bind_eq_ok.mpr ⟨(), _, expect_symbol_cons _ k3, ?_⟩
      refine PResult.bind_eq_ok.mpr ⟨vds, _, f4 rest', ?_⟩
      refine PResult.bind_eq_ok.mpr ⟨sds, _, f5 rest', ?_⟩
      refine PResult.bind_eq_ok.mpr ⟨(), _, expect_symbol_cons _ k6, ?_⟩
      subst ha
      rfl
    -- parse_class_var_decs
    · intro pre r rest rest' a h
      rw [parse_class_var_decs] at h ⊢
      split at h
      · next hpk =>
        simp only [PResult.bind_eq_ok, PResult.ok.injEq] at h
        obtain ⟨d, ts1, h1, ds, ts2, h2, ha, hts⟩ := h
        subst hts
        obtain ⟨P2, d2, f2⟩ := frame_step ihF2 sh2 (Q := []) h2
        rw [d2] at h1
        obtain ⟨P1, d1, f1⟩ := frame_step ihF3 wk3 (Q := P2) h1
        have hpre : pre = P1 := List.append_cancel_right d1
        rw [hpre]
        have hpk' : peek_keyword [Keyword.Static, Keyword.Field]
            (P1 ++ r :: rest') = true :=
          (peek_keyword_append _ P1 r rest' rest).trans (hpre ▸ hpk)
        rw [if_pos hpk']
        refine PResult.bind_eq_ok.mpr ⟨d, _, f1 rest', ?_⟩
        refine PResult.bind_eq_ok.mpr ⟨ds, _, f2 rest', ?_⟩
        subst ha
        rfl
      · next hpk =>
        simp only [PResult.ok.injEq] at h
        obtain ⟨ha, hts⟩ := h
        have hpre : pre = [] := List.append_cancel_right
          (show pre ++ r :: rest = [] ++ r :: rest from by simpa using hts)
        subst hpre
        have hpk' : ¬peek_keyword [Keyword.Static, Keyword.Field]
            ([] ++ r :: rest') = true := by
          rw [peek_keyword_append _ [] r rest' rest]
          exact hpk
        rw [if_neg hpk']
        subst ha
        rfl
    -- parse_class_var_dec
    · intro pre r rest rest' a h
      rw [parse_class_var_dec] at h ⊢
      simp only [PResult.bind_eq_ok, PResult.ok.injEq] at h
      obtain ⟨k, ts1, h1, ty, ts2, h2, n0, ts3, h3, more, ts4, h4, u5, ts5,
        h5, ha, hts⟩ := h
      subst hts
      obtain ⟨t5, e5, k5⟩ := expect_symbol_ok h5
      rw [e5] at h4
      obtain ⟨P4, d4, f4⟩ := frame_step ihF4 sh4 (Q := [t5]) h4
      obtain ⟨t3, e3, k3⟩ := expect_identifier_ok h3
      rw [d4] at e3
      obtain ⟨tx, ex⟩ := parse_type_ok h2
      rw [ex] at h2
      obtain ⟨-, hrp⟩ := parse_type_cons h2
      rw [e3] at ex
      obtain ⟨t1, e1, k1, mem1⟩ := expect_one_of_ok h1
      rw [ex] at e1
      have hpre : pre = t1 :: tx :: t3 :: P4 := List.append_cancel_right
        (show pre ++ r :: rest = (t1 :: tx :: t3 :: P4) ++ r :: rest from e1)
      subst hpre
      refine PResult.bind_eq_ok.mpr ⟨k, _, expect_one_of_cons _ k1 mem1, ?_⟩
      refine PResult.bind_eq_ok.mpr ⟨ty, _, hrp ((t3 :: P4) ++ r :: rest'), ?_⟩
      refine PResult.bind_eq_ok.mpr ⟨n0, _, expect_identifier_cons _ k3, ?_⟩
      refine PResult.bind_eq_ok.mpr ⟨more, _, f4 rest', ?_⟩
      refine PResult.bind_eq_ok.mpr ⟨(), _, expect_symbol_cons _ k5, ?_⟩
      subst ha
      rfl
    -- parse_comma_names
    · intro pre r rest rest' a h
      rw [parse_comma_names] at h ⊢
      split at h
      · next ts0 heq =>
        simp only [PResult.bind_eq_ok, PResult.ok.injEq] at h
        obtain ⟨nm, ts1, h1, ns, ts2, h2, ha, hts⟩ := h
        subst hts
        obtain ⟨P2, d2, f2⟩ := frame_step ihF4 sh4 (Q := []) h2
        rw [d2] at h1
        obtain ⟨t1, e1, k1⟩ := expect_identifier_ok h1
        obtain ⟨t0, e0, k0⟩ := match_symbol_true heq
        rw [e1] at e0
        have hpre : pre = t0 :: t1 :: P2 := List.append_cancel_right
          (show pre ++ r :: rest = (t0 :: t1 :: P2) ++ r :: rest from e0)
        subst hpre
        have hm' : match_symbol ',' ((t0 :: t1 :: P2) ++ r :: rest')
            = (true, t1 :: (P2 ++ r :: rest')) :=
          match_symbol_cons_true _ k0
        simp only [hm']
        refine PResult.bind_eq_ok.mpr ⟨nm, _, expect_identifier_cons _ k1, ?_⟩
        refine PResult.bind_eq_ok.mpr ⟨ns, _, f2 rest', ?_⟩
        subst ha
        rfl
      · next ts0 heq =>
        simp only [PResult.ok.injEq] at h
        obtain ⟨ha, hts⟩ := h
        have hfeq := match_symbol_false heq
        have hpre : pre = [] := by
          have hx : pre ++ r :: rest = r :: rest := by rw [← hfeq, hts]
          exact List.append_cancel_right
            (show pre ++ r :: rest = [] ++ r :: rest from by simpa using hx)
        subst hpre
        have hm' := match_symbol_append_false ',' [] r rest rest' ts0 heq
        simp only [hm']
        subst ha
        rfl
    -- parse_subroutine_decs
    · intro pre r rest rest' a h
      rw [parse_subroutine_decs] at h ⊢
      split at h
      · next hpk =>
        simp only [PResult.bind_eq_ok, PResult.ok.injEq] at h
        obtain ⟨d, ts1, h1, ds, ts2, h2, ha, hts⟩ := h
        subst hts
        obtain ⟨P2, d2, f2⟩ := frame_step ihF5 sh5 (Q := []) h2
        rw [d2] at h1
        obtain ⟨P1, d1, f1⟩ := frame_step ihF6 wk6 (Q := P2) h1
        have hpre : pre = P1 := List.append_cancel_right d1
        rw [hpre]
        have hpk' : peek_keyword [Keyword.Constructor, Keyword.Function,
            Keyword.Method] (P1 ++ r :: rest') = true :=
          (peek_keyword_append _ P1 r rest' rest).trans (hpre ▸ hpk)
        rw [if_pos hpk']
        refine PResult.bind_eq_ok.mpr ⟨d, _, f1 rest', ?_⟩
        refine PResult.bind_eq_ok.mpr ⟨ds, _, f2 rest', ?_⟩
        subst ha
        rfl
      · next hpk =>
        simp only [PResult.ok.injEq] at h
        obtain ⟨ha, hts⟩ := h
        have hpre : pre = [] := List.append_cancel_right
          (show pre ++ r :: rest = [] ++ r :: rest from by simpa using hts)
        subst hpre
        have hpk' : ¬peek_keyword [Keyword.Constructor, Keyword.Function,
            Keyword.Method] ([] ++ r :: rest') = true := by
          rw [peek_keyword_append _ [] r rest' rest]
          exact hpk
        rw [if_neg hpk']
        subst ha
        rfl
    -- parse_subroutine_dec
    · intro pre r rest rest' a h
      rw [parse_subroutine_dec] at h ⊢
      simp only [PResult.bind_eq_ok, PResult.ok.injEq] at h
      obtain ⟨k, ts1, h1, rt, ts2, h2, nm, ts3, h3, u4, ts4, h4, ps, ts5, h5,
        u6, ts6, h6, body, ts7, h7, ha, hts⟩ := h
      subst hts
      obtain ⟨P7, d7, f7⟩ := frame_step ihF9 wk9 (Q := []) h7
      obtain ⟨t6, e6, k6⟩ := expect_symbol_ok h6
      rw [d7] at e6
      rw [e6] at h5
      obtain ⟨P5, d5, f5⟩ := frame_step ihF7 sh7 (Q := t6 :: P7) h5
      obtain ⟨t4, e4, k4⟩ := expect_symbol_ok h4
      rw [d5] at e4
      obtain ⟨t3, e3, k3⟩ := expect_identifier_ok h3
      rw [e4] at e3
      obtain ⟨t1, e1, k1, mem1⟩ := expect_one_of_ok h1
      split at h2
      · next tsv heqv =>
        simp only [PResult.ok.injEq] at h2
        obtain ⟨hrt, hts2⟩ := h2
        subst hrt
        have e3v : tsv = t3 :: t4 :: (P5 ++ r :: rest) := hts2.trans e3
        obtain ⟨tv, ev, kv⟩ := match_keyword_true heqv
        rw [e3v] at ev
        rw [ev] at e1
        have hpre : pre = t1 :: tv :: t3 :: t4 :: P5 := List.append_cancel_right
          (show pre ++ r :: rest = (t1 :: tv :: t3 :: t4 :: P5) ++ r :: rest from e1)
        subst hpre
        refine PResult.bind_eq_ok.mpr ⟨k, (tv :: t3 :: t4 :: P5) ++ r :: rest',
          expect_one_of_cons _ k1 mem1, ?_⟩
        refine PResult.bind_eq_ok.mpr
          ⟨none, (t3 :: t4 :: P5) ++ r :: rest', ?_, ?_⟩
        · have hm' : match_keyword .Void ((tv :: t3 :: t4 :: P5) ++ r :: rest')
              = (true, (t3 :: t4 :: P5) ++ r :: rest') :=
            match_keyword_cons_true _ kv
          simp only [hm']
        · refine PResult.bind_eq_ok.mpr ⟨nm, _, expect_identifier_cons _ k3, ?_⟩
          refine PResult.bind_eq_ok.mpr ⟨(), _, expect_symbol_cons _ k4, ?_⟩
          refine PResult.bind_eq_ok.mpr ⟨ps, _, f5 rest', ?_⟩
          refine PResult.bind_eq_ok.mpr ⟨(), _, expect_symbol_cons _ k6, ?_⟩
          refine PResult.bind_eq_ok.mpr ⟨body, _, f7 rest', ?_⟩
          subst ha
          rfl
      · next tsv heqv =>
        have hveq := match_keyword_false heqv
        subst hveq
        simp only [PResult.bind_eq_ok, PResult.ok.injEq] at h2
        obtain ⟨ty, tsx, hty, hsome, hts2⟩ := h2
        subst hsome
        have e3x : tsx = t3 :: t4 :: (P5 ++ r :: rest) := hts2.trans e3
        obtain ⟨tx, ex⟩ := parse_type_ok hty
        rw [ex] at hty heqv
        obtain ⟨-, hrp⟩ := parse_type_cons hty
        have hkv : ¬tx.token_type = .Keyword .Void := match_keyword_false_cons heqv
        rw [e3x] at ex
        rw [ex] at e1
        have hpre : pre = t1 :: tx :: t3 :: t4 :: P5 := List.append_cancel_right
          (show pre ++ r :: rest = (t1 :: tx :: t3 :: t4 :: P5) ++ r :: rest from e1)
        subst hpre
        refine PResult.bind_eq_ok.mpr ⟨k, (tx :: t3 :: t4 :: P5) ++ r :: rest',
          expect_one_of_cons _ k1 mem1, ?_⟩
        refine PResult.bind_eq_ok.mpr
          ⟨some ty, (t3 :: t4 :: P5) ++ r :: rest', ?_, ?_⟩
        · have hm' : match_keyword .Void ((tx :: t3 :: t4 :: P5) ++ r :: rest')
              = (false, tx :: ((t3 :: t4 :: P5) ++ r :: rest')) :=
            match_keyword_cons_false _ hkv
          simp only [hm']
          exact PResult.bind_eq_ok.mpr
            ⟨ty, _, hrp ((t3 :: t4 :: P5) ++ r :: rest'), rfl⟩
        · refine PResult.bind_eq_ok.mpr ⟨nm, _, expect_identifier_cons _ k3, ?_⟩
          refine PResult.bind_eq_ok.mpr ⟨(), _, expect_symbol_cons _ k4, ?_⟩
          refine PResult.bind_eq_ok.mpr ⟨ps, _, f5 rest', ?_⟩
          refine PResult.bind_eq_ok.mpr ⟨(), _, expect_symbol_cons _ k6, ?_⟩
          refine PResult.bind_eq_ok.mpr ⟨body, _, f7 rest', ?_⟩
          subst ha
          rfl
    -- parse_parameter_list
    · intro pre r rest rest' a h
      rw [parse_parameter_list] at h ⊢
      split at h
      · next hpk =>
        simp only [PResult.ok.injEq] at h
        obtain ⟨ha, hts⟩ := h
        have hpre : pre = [] := List.append_cancel_right
          (show pre ++ r :: rest = [] ++ r :: rest from by simpa using hts)
        subst hpre
        have hpk' : peek_symbol ')' ([] ++ r :: rest') = true := by
          rw [peek_symbol_append ')' [] r rest' rest]
          exact hpk
        rw [if_pos hpk']
        subst ha
        rfl
      · next hpk =>
        simp only [PResult.bind_eq_ok, PResult.ok.injEq] at h
        obtain ⟨ty, ts1, h1, nm, ts2, h2, rest3, ts3, h3, ha, hts⟩ := h
        subst hts
        obtain ⟨P3, d3, f3⟩ := frame_step ihF8 sh8 (Q := []) h3
        obtain ⟨t2, e2, k2⟩ := expect_identifier_ok h2
        rw [d3] at e2
        obtain ⟨tx, ex⟩ := parse_type_ok h1
        rw [ex] at h1
        obtain ⟨-, hrp⟩ := parse_type_cons h1
        rw [e2] at ex
        have hpre : pre = tx :: t2 :: P3 := List.append_cancel_right
          (show pre ++ r :: rest = (tx :: t2 :: P3) ++ r :: rest from ex)
        subst hpre
        have hpk' : ¬peek_symbol ')' ((tx :: t2 :: P3) ++ r :: rest') = true := by
          rw [peek_symbol_append ')' (tx :: t2 :: P3) r rest' rest]
          exact hpk
        rw [if_neg hpk']
        refine PResult.bind_eq_ok.mpr ⟨ty, _, hrp ((t2 :: P3) ++ r :: rest'), ?_⟩
        refine PResult.bind_eq_ok.mpr ⟨nm, _, expect_identifier_cons _ k2, ?_⟩
        refine PResult.bind_eq_ok.mpr ⟨rest3, _, f3 rest', ?_⟩
        subst ha
        rfl
    -- parse_params_rest
    · intro pre r rest rest' a h
      rw [parse_params_rest] at h ⊢
      split at h
      · next ts0 heq =>
        simp only [PResult.bind_eq_ok, PResult.ok.injEq] at h
        obtain ⟨ty, ts1, h1, nm, ts2, h2, rest3, ts3, h3, ha, hts⟩ := h
        subst hts
        obtain ⟨P3, d3, f3⟩ := frame_step ihF8 sh8 (Q := []) h3
        obtain ⟨t2, e2, k2⟩ := expect_identifier_ok h2
        rw [d3] at e2
        obtain ⟨tx, ex⟩ := parse_type_ok h1
        rw [ex] at h1
        obtain ⟨-, hrp⟩ := parse_type_cons h1
        rw [e2] at ex
        obtain ⟨t0, e0, k0⟩ := match_symbol_true heq
        rw [ex] at e0
        have hpre : pre = t0 :: tx :: t2 :: P3 := List.append_cancel_right
          (show pre ++ r :: rest = (t0 :: tx :: t2 :: P3) ++ r :: rest from e0)
        subst hpre
        simp only [match_symbol_append_true ',' (tx :: t2 :: P3) r rest' k0]
        refine PResult.bind_eq_ok.mpr ⟨ty, _, hrp ((t2 :: P3) ++ r :: rest'), ?_⟩
        refine PResult.bind_eq_ok.mpr ⟨nm, _, expect_identifier_cons _ k2, ?_⟩
        refine PResult.bind_eq_ok.mpr ⟨rest3, _, f3 rest', ?_⟩
        subst ha
        rfl
      · next ts0 heq =>
        simp only [PResult.ok.injEq] at h
        obtain ⟨ha, hts⟩ := h
        have hfeq := match_symbol_false heq
        have hpre : pre = [] := by
          have hx : pre ++ r :: rest = r :: rest := by rw [← hfeq, hts]
          exact List.append_cancel_right
            (show pre ++ r :: rest = [] ++ r :: rest from by simpa using hx)
        subst hpre
        have hm' := match_symbol_append_false ',' [] r rest rest' ts0 heq
        simp only [hm']
        subst ha
        rfl
    -- parse_subroutine_body
    · intro pre r rest rest' a h
      rw [parse_subroutine_body] at h ⊢
      simp only [PResult.bind_eq_ok, PResult.ok.injEq] at h
      obtain ⟨u1, ts1, h1, vds, ts2, h2, ss, ts3, h3, u4, ts4, h4, ha, hts⟩ := h
      subst hts
      obtain ⟨t4, e4, k4⟩ := expect_symbol_ok h4
      rw [e4] at h3
      obtain ⟨P3, d3, f3⟩ := frame_step ihF12 sh12 (Q := [t4]) h3
      rw [d3] at h2
      obtain ⟨P2, d2, f2⟩ := frame_step ihF10 sh10 (Q := P3) h2
      obtain ⟨t1, e1, k1⟩ := expect_symbol_ok h1
      rw [d2] at e1
      have hpre : pre = t1 :: P2 := List.append_cancel_right
        (show pre ++ r :: rest = (t1 :: P2) ++ r :: rest from e1)
      subst hpre
      refine PResult.bind_eq_ok.mpr ⟨(), _, expect_symbol_cons _ k1, ?_⟩
      refine PResult.bind_eq_ok.mpr ⟨vds, _, f2 rest', ?_⟩
      refine PResult.bind_eq_ok.mpr ⟨ss, _, f3 rest', ?_⟩
      refine PResult.bind_eq_ok.mpr ⟨(), _, expect_symbol_cons _ k4, ?_⟩
      subst ha
      rfl
    -- parse_var_decs
    · intro pre r rest rest' a h
      rw [parse_var_decs] at h ⊢
      split at h
      · next hpk =>
        simp only [PResult.bind_eq_ok, PResult.ok.injEq] at h
        obtain ⟨d, ts1, h1, ds, ts2, h2, ha, hts⟩ := h
        subst hts
        obtain ⟨P2, d2, f2⟩ := frame_step ihF10 sh10 (Q := []) h2
        rw [d2] at h1
        obtain ⟨P1, d1, f1⟩ := frame_step ihF11 wk11 (Q := P2) h1
        have hpre : pre = P1 := List.append_cancel_right d1
        rw [hpre]
        have hpk' : peek_keyword [Keyword.Var] (P1 ++ r :: rest') = true :=
          (peek_keyword_append _ P1 r rest' rest).trans (hpre ▸ hpk)
        rw [if_pos hpk']
        refine PResult.bind_eq_ok.mpr ⟨d, _, f1 rest', ?_⟩
        refine PResult.bind_eq_ok.mpr ⟨ds, _, f2 rest', ?_⟩
        subst ha
        rfl
      · next hpk =>
        simp only [PResult.ok.injEq] at h
        obtain ⟨ha, hts⟩ := h
        have hpre : pre = [] := List.append_cancel_right
          (show pre ++ r :: rest = [] ++ r :: rest from by simpa using hts)
        subst hpre
        have hpk' : ¬peek_keyword [Keyword.Var] ([] ++ r :: rest') = true := by
          rw [peek_keyword_append _ [] r rest' rest]
          exact hpk
        rw [if_neg hpk']
        subst ha
        rfl
    -- parse_var_dec
    · intro pre r rest rest' a h
      rw [parse_var_dec] at h ⊢
      simp only [PResult.bind_eq_ok, PResult.ok.injEq] at h
      obtain ⟨u1, ts1, h1, ty, ts2, h2, n0, ts3, h3, more, ts4, h4, u5, ts5,
        h5, ha, hts⟩ := h
      subst hts
      obtain ⟨t5, e5, k5⟩ := expect_symbol_ok h5
      rw [e5] at h4
      obtain ⟨P4, d4, f4⟩ := frame_step ihF4 sh4 (Q := [t5]) h4
      obtain ⟨t3, e3, k3⟩ := expect_identifier_ok h3
      rw [d4] at e3
      obtain ⟨tx, ex⟩ := parse_type_ok h2
      rw [ex] at h2
      obtain ⟨-, hrp⟩ := parse_type_cons h2
      rw [e3] at ex
      obtain ⟨t1, e1, k1⟩ := expect_keyword_ok h1
      rw [ex] at e1
      have hpre : pre = t1 :: tx :: t3 :: P4 := List.append_cancel_right
        (show pre ++ r :: rest = (t1 :: tx :: t3 :: P4) ++ r :: rest from e1)
      subst hpre
      refine PResult.bind_eq_ok.mpr ⟨(), _, expect_keyword_cons _ k1, ?_⟩
      refine PResult.bind_eq_ok.mpr ⟨ty, _, hrp ((t3 :: P4) ++ r :: rest'), ?_⟩
      refine PResult.bind_eq_ok.mpr ⟨n0, _, expect_identifier_cons _ k3, ?_⟩
      refine PResult.bind_eq_ok.mpr ⟨more, _, f4 rest', ?_⟩
      refine PResult.bind_eq_ok.mpr ⟨(), _, expect_symbol_cons _ k5, ?_⟩
      subst ha
      rfl
    -- parse_statements
    · intro pre r rest rest' a h
      rw [parse_statements] at h ⊢
      split at h
      · next hpk =>
        simp only [PResult.bind_eq_ok, PResult.ok.injEq] at h
        obtain ⟨s, ts1, h1, ss, ts2, h2, ha, hts⟩ := h
        subst hts
        obtain ⟨P2, d2, f2⟩ := frame_step ihF12 sh12 (Q := []) h2
        rw [d2] at h1
        obtain ⟨P1, d1, f1⟩ := frame_step ihF13 wk13 (Q := P2) h1
        have hpre : pre = P1 := List.append_cancel_right d1
        rw [hpre]
        have hpk' : peek_keyword [Keyword.Let, Keyword.If, Keyword.While,
            Keyword.Do, Keyword.Return] (P1 ++ r :: rest') = true :=
          (peek_keyword_append _ P1 r rest' rest).trans (hpre ▸ hpk)
        rw [if_pos hpk']
        refine PResult.bind_eq_ok.mpr ⟨s, _, f1 rest', ?_⟩
        refine PResult.bind_eq_ok.mpr ⟨ss, _, f2 rest', ?_⟩
        subst ha
        rfl
      · next hpk =>
        simp only [PResult.ok.injEq] at h
        obtain ⟨ha, hts⟩ := h
        have hpre : pre = [] := List.append_cancel_right
          (show pre ++ r :: rest = [] ++ r :: rest from by simpa using hts)
        subst hpre
        have hpk' : ¬peek_keyword [Keyword.Let, Keyword.If, Keyword.While,
            Keyword.Do, Keyword.Return] ([] ++ r :: rest') = true := by
          rw [peek_keyword_append _ [] r rest' rest]
          exact hpk
        rw [if_neg hpk']
        subst ha
        rfl
    -- parse_statement
    · intro pre r rest rest' a h
      rw [parse_statement] at h ⊢
      split at h
      · next t heq =>
        have hh' : (pre ++ r :: rest').head? = some t :=
          (head?_append pre r rest' rest).trans heq
        simp only [hh']
        split at h
        · next k hk =>
          split at h
          all_goals first
            | (simp only [PResult.bind_eq_ok, PResult.ok.injEq] at h
               obtain ⟨s, ts1, h1, ha, hts⟩ := h
               subst hts
               refine PResult.bind_eq_ok.mpr ⟨s, r :: rest', ?_, ?_⟩
               · first
                 | exact ihF14 pre r rest rest' s h1
                 | exact ihF15 pre r rest rest' s h1
                 | exact ihF16 pre r rest rest' s h1
                 | exact ihF17 pre r rest rest' s h1
                 | exact ihF18 pre r rest rest' s h1
               · subst ha
                 rfl)
            | simp at h
        · simp at h
      · simp at h
    -- parse_let_statement
    · intro pre r rest rest' a h
      rw [parse_let_statement] at h ⊢
      simp only [PResult.bind_eq_ok, PResult.ok.injEq] at h
      obtain ⟨u1, ts1, h1, vn, ts2, h2, ie, ts3, h3, u4, ts4, h4, ve, ts5,
        h5, u6, ts6, h6, ha, hts⟩ := h
      subst hts
      obtain ⟨t6, e6, k6⟩ := expect_symbol_ok h6
      rw [e6] at h5
      obtain ⟨P5, d5, f5⟩ := frame_step ihF19 wk19 (Q := [t6]) h5
      obtain ⟨t4, e4, k4⟩ := expect_symbol_ok h4
      rw [d5] at e4
      obtain ⟨t2, e2, k2⟩ := expect_identifier_ok h2
      obtain ⟨t1, e1, k1⟩ := expect_keyword_ok h1
      split at h3
      · next tsv heqv =>
        simp only [PResult.bind_eq_ok, PResult.ok.injEq] at h3
        obtain ⟨e0, tsx, hex, uy, tsy, hy, hie, hts3⟩ := h3
        subst hie
        rw [hts3] at hy
        rw [e4] at hy
        obtain ⟨ty1, ey, ky1⟩ := expect_symbol_ok hy
        rw [ey] at hex
        obtain ⟨Px, dx, fx⟩ := frame_step ihF19 wk19 (Q := ty1 :: t4 :: P5) hex
        obtain ⟨tb, eb, kb⟩ := match_symbol_true heqv
        rw [dx] at eb
        rw [eb] at e2
        rw [e2] at e1
        have hpre : pre = t1 :: t2 :: tb :: Px := List.append_cancel_right
          (show pre ++ r :: rest = (t1 :: t2 :: tb :: Px) ++ r :: rest from e1)
        subst hpre
        refine PResult.bind_eq_ok.mpr ⟨(), (t2 :: tb :: Px) ++ r :: rest',
          expect_keyword_cons _ k1, ?_⟩
        refine PResult.bind_eq_ok.mpr ⟨vn, (tb :: Px) ++ r :: rest',
          expect_identifier_cons _ k2, ?_⟩
        refine PResult.bind_eq_ok.mpr ⟨some e0, (t4 :: P5) ++ r :: rest', ?_, ?_⟩
        · have hm' : match_symbol '[' ((tb :: Px) ++ r :: rest')
              = (true, Px ++ r :: rest') :=
            match_symbol_cons_true _ kb
          simp only [hm']
          refine PResult.bind_eq_ok.mpr ⟨e0, _, fx rest', ?_⟩
          refine PResult.bind_eq_ok.mpr ⟨(), _, expect_symbol_cons _ ky1, ?_⟩
          rfl
        · refine PResult.bind_eq_ok.mpr ⟨(), _, expect_symbol_cons _ k4, ?_⟩
          refine PResult.bind_eq_ok.mpr ⟨ve, _, f5 rest', ?_⟩
          refine PResult.bind_eq_ok.mpr ⟨(), _, expect_symbol_cons _ k6, ?_⟩
          subst ha
          rfl
      · next tsv heqv =>
        simp only [PResult.ok.injEq] at h3
        obtain ⟨hie, hts3⟩ := h3
        subst hie
        have hveq : tsv = ts2 := match_symbol_false heqv
        have e2' : ts2 = t4 :: (P5 ++ r :: rest) := (hveq.symm.trans hts3).trans e4
        rw [e2'] at heqv
        have hkb : ¬t4.token_type = .Symbol '[' := match_symbol_false_cons heqv
        rw [e2'] at e2
        rw [e2] at e1
        have hpre : pre = t1 :: t2 :: t4 :: P5 := List.append_cancel_right
          (show pre ++ r :: rest = (t1 :: t2 :: t4 :: P5) ++ r :: rest from e1)
        subst hpre
        refine PResult.bind_eq_ok.mpr ⟨(), (t2 :: t4 :: P5) ++ r :: rest',
          expect_keyword_cons _ k1, ?_⟩
        refine PResult.bind_eq_ok.mpr ⟨vn, (t4 :: P5) ++ r :: rest',
          expect_identifier_cons _ k2, ?_⟩
        refine PResult.bind_eq_ok.mpr ⟨none, (t4 :: P5) ++ r :: rest', ?_, ?_⟩
        · have hm' : match_symbol '[' ((t4 :: P5) ++ r :: rest')
              = (false, (t4 :: P5) ++ r :: rest') :=
            match_symbol_cons_false _ hkb
          simp only [hm']
        · refine PResult.bind_eq_ok.mpr ⟨(), _, expect_symbol_cons _ k4, ?_⟩
          refine PResult.bind_eq_ok.mpr ⟨ve, _, f5 rest', ?_⟩
          refine PResult.bind_eq_ok.mpr ⟨(), _, expect_symbol_cons _ k6, ?_⟩
          subst ha
          rfl
    -- parse_if_statement
    · intro pre r rest rest' a h
      rw [parse_if_statement] at h ⊢
      simp only [PResult.bind_eq_ok, PResult.ok.injEq] at h
      obtain ⟨u1, ts1, h1, u2, ts2, h2, cond, ts3, h3, u4, ts4, h4, u5, ts5,
        h5, ifb, ts6, h6, u7, ts7, h7, eb, ts8, h8, ha, hts⟩ := h
      subst hts
      split at h8
      · next tsv heqv =>
        simp only [PResult.bind_eq_ok, PResult.ok.injEq] at h8
        obtain ⟨ux, tsx, hx, els, tsy, hy, uz, tsz, hz, heb, htsz⟩ := h8
        subst heb
        rw [htsz] at hz
        obtain ⟨tz, ez, kz⟩ := expect_symbol_ok hz
        rw [ez] at hy
        obtain ⟨Py, dy, fy⟩ := frame_step ihF12 sh12 (Q := [tz]) hy
        obtain ⟨txo, exo, kxo⟩ := expect_symbol_ok hx
        rw [dy] at exo
        obtain ⟨tv, ev, kv⟩ := match_keyword_true heqv
        rw [exo] at ev
        obtain ⟨t7, e7, k7⟩ := expect_symbol_ok h7
        rw [ev] at e7
        rw [e7] at h6
        obtain ⟨P6, d6, f6⟩ := frame_step ihF12 sh12 (Q := t7 :: tv :: txo :: Py) h6
        obtain ⟨t5, e5, k5⟩ := expect_symbol_ok h5
        rw [d6] at e5
        obtain ⟨t4, e4, k4⟩ := expect_symbol_ok h4
        rw [e5] at e4
        rw [e4] at h3
        obtain ⟨P3, d3, f3⟩ := frame_step ihF19 wk19 (Q := t4 :: t5 :: P6) h3
        obtain ⟨t2, e2, k2⟩ := expect_symbol_ok h2
        rw [d3] at e2
        obtain ⟨t1, e1, k1⟩ := expect_keyword_ok h1
        rw [e2] at e1
        have hpre : pre = t1 :: t2 :: P3 := List.append_cancel_right
          (show pre ++ r :: rest = (t1 :: t2 :: P3) ++ r :: rest from e1)
        subst hpre
        refine PResult.bind_eq_ok.mpr ⟨(), _, expect_keyword_cons _ k1, ?_⟩
        refine PResult.bind_eq_ok.mpr ⟨(), _, expect_symbol_cons _ k2, ?_⟩
        refine PResult.bind_eq_ok.mpr ⟨cond, _, f3 rest', ?_⟩
        refine PResult.bind_eq_ok.mpr ⟨(), _, expect_symbol_cons _ k4, ?_⟩
        refine PResult.bind_eq_ok.mpr ⟨(), _, expect_symbol_cons _ k5, ?_⟩
        refine PResult.bind_eq_ok.mpr ⟨ifb, _, f6 rest', ?_⟩
        refine PResult.bind_eq_ok.mpr ⟨(), (tv :: txo :: Py) ++ r :: rest',
          expect_symbol_cons _ k7, ?_⟩
        refine PResult.bind_eq_ok.mpr ⟨some els, r :: rest', ?_, ?_⟩
        · have hm' : match_keyword .Else ((tv :: txo :: Py) ++ r :: rest')
              = (true, (txo :: Py) ++ r :: rest') :=
            match_keyword_cons_true _ kv
          simp only [hm']
          refine PResult.bind_eq_ok.mpr ⟨(), Py ++ r :: rest',
            expect_symbol_cons _ kxo, ?_⟩
          refine PResult.bind_eq_ok.mpr ⟨els, _, fy rest', ?_⟩
          refine PResult.bind_eq_ok.mpr ⟨(), _, expect_symbol_cons _ kz, ?_⟩
          rfl
        · subst ha
          rfl
      · next tsv heqv =>
        simp only [PResult.ok.injEq] at h8
        obtain ⟨heb, htsv⟩ := h8
        subst heb
        have hveq : tsv = ts7 := match_keyword_false heqv
        have hts7 : ts7 = r :: rest := hveq.symm.trans htsv
        rw [hts7] at heqv
        have hkr : ¬r.token_type = .Keyword .Else := match_keyword_false_cons heqv
        obtain ⟨t7, e7, k7⟩ := expect_symbol_ok h7
        rw [hts7] at e7
        rw [e7] at h6
        obtain ⟨P6, d6, f6⟩ := frame_step ihF12 sh12 (Q := [t7]) h6
        obtain ⟨t5, e5, k5⟩ := expect_symbol_ok h5
        rw [d6] at e5
        obtain ⟨t4, e4, k4⟩ := expect_symbol_ok h4
        rw [e5] at e4
        rw [e4] at h3
        obtain ⟨P3, d3, f3⟩ := frame_step ihF19 wk19 (Q := t4 :: t5 :: P6) h3
        obtain ⟨t2, e2, k2⟩ := expect_symbol_ok h2
        rw [d3] at e2
        obtain ⟨t1, e1, k1⟩ := expect_keyword_ok h1
        rw [e2] at e1
        have hpre : pre = t1 :: t2 :: P3 := List.append_cancel_right
          (show pre ++ r :: rest = (t1 :: t2 :: P3) ++ r :: rest from e1)
        subst hpre
        refine PResult.bind_eq_ok.mpr ⟨(), _, expect_keyword_cons _ k1, ?_⟩
        refine PResult.bind_eq_ok.mpr ⟨(), _, expect_symbol_cons _ k2, ?_⟩
        refine PResult.bind_eq_ok.mpr ⟨cond, _, f3 rest', ?_⟩
        refine PResult.bind_eq_ok.mpr ⟨(), _, expect_symbol_cons _ k4, ?_⟩
        refine PResult.bind_eq_ok.mpr ⟨(), _, expect_symbol_cons _ k5, ?_⟩
        refine PResult.bind_eq_ok.mpr ⟨ifb, _, f6 rest', ?_⟩
        refine PResult.bind_eq_ok.mpr ⟨(), r :: rest',
          expect_symbol_cons _ k7, ?_⟩
        refine PResult.bind_eq_ok.mpr ⟨none, r :: rest', ?_, ?_⟩
        · have hm' : match_keyword .Else (r :: rest') = (false, r :: rest') :=
            match_keyword_cons_false _ hkr
          simp only [hm']
        · subst ha
          rfl
    -- parse_while_statement
    · intro pre r rest rest' a h
      rw [parse_while_statement] at h ⊢
      simp only [PResult.bind_eq_ok, PResult.ok.injEq] at h
      obtain ⟨u1, ts1, h1, u2, ts2, h2, cond, ts3, h3, u4, ts4, h4, u5, ts5,
        h5, body, ts6, h6, u7, ts7, h7, ha, hts⟩ := h
      subst hts
      obtain ⟨t7, e7, k7⟩ := expect_symbol_ok h7
      rw [e7] at h6
      obtain ⟨P6, d6, f6⟩ := frame_step ihF12 sh12 (Q := [t7]) h6
      obtain ⟨t5, e5, k5⟩ := expect_symbol_ok h5
      rw [d6] at e5
      obtain ⟨t4, e4, k4⟩ := expect_symbol_ok h4
      rw [e5] at e4
      rw [e4] at h3
      obtain ⟨P3, d3, f3⟩ := frame_step ihF19 wk19 (Q := t4 :: t5 :: P6) h3
      obtain ⟨t2, e2, k2⟩ := expect_symbol_ok h2
      rw [d3] at e2
      obtain ⟨t1, e1, k1⟩ := expect_keyword_ok h1
      rw [e2] at e1
      have hpre : pre = t1 :: t2 :: P3 := List.append_cancel_right
        (show pre ++ r :: rest = (t1 :: t2 :: P3) ++ r :: rest from e1)
      subst hpre
      refine PResult.bind_eq_ok.mpr ⟨(), _, expect_keyword_cons _ k1, ?_⟩
      refine PResult.bind_eq_ok.mpr ⟨(), _, expect_symbol_cons _ k2, ?_⟩
      refine PResult.bind_eq_ok.mpr ⟨cond, _, f3 rest', ?_⟩
      refine PResult.bind_eq_ok.mpr ⟨(), _, expect_symbol_cons _ k4, ?_⟩
      refine PResult.bind_eq_ok.mpr ⟨(), _, expect_symbol_cons _ k5, ?_⟩
      refine PResult.bind_eq_ok.mpr ⟨body, _, f6 rest', ?_⟩
      refine PResult.bind_eq_ok.mpr ⟨(), _, expect_symbol_cons _ k7, ?_⟩
      subst ha
      rfl
    -- parse_do_statement
    · intro pre r rest rest' a h
      rw [parse_do_statement] at h ⊢
      simp only [PResult.bind_eq_ok, PResult.ok.injEq] at h
      obtain ⟨u1, ts1, h1, call, ts2, h2, u3, ts3, h3, ha, hts⟩ := h
      subst hts
      obtain ⟨t3, e3, k3⟩ := expect_symbol_ok h3
      rw [e3] at h2
      obtain ⟨P2, d2, f2⟩ := frame_step ihF22 wk22 (Q := [t3]) h2
      obtain ⟨t1, e1, k1⟩ := expect_keyword_ok h1
      rw [d2] at e1
      have hpre : pre = t1 :: P2 := List.append_cancel_right
        (show pre ++ r :: rest = (t1 :: P2) ++ r :: rest from e1)
      subst hpre
      refine PResult.bind_eq_ok.mpr ⟨(), _, expect_keyword_cons _ k1, ?_⟩
      refine PResult.bind_eq_ok.mpr ⟨call, _, f2 rest', ?_⟩
      refine PResult.bind_eq_ok.mpr ⟨(), _, expect_symbol_cons _ k3, ?_⟩
      subst ha
      rfl
    -- parse_return_statement
    · intro pre r rest rest' a h
      rw [parse_return_statement] at h ⊢
      simp only [PResult.bind_eq_ok, PResult.ok.injEq] at h
      obtain ⟨u1, ts1, h1, val, ts2, h2, u3, ts3, h3, ha, hts⟩ := h
      subst hts
      obtain ⟨t3, e3, k3⟩ := expect_symbol_ok h3
      split at h2
      · next hpk =>
        simp only [PResult.ok.injEq] at h2
        obtain ⟨hval, hts2⟩ := h2
        subst hval
        rw [hts2, e3] at hpk
        obtain ⟨t1, e1, k1⟩ := expect_keyword_ok h1
        rw [hts2, e3] at e1
        have hpre : pre = t1 :: t3 :: [] := List.append_cancel_right
          (show pre ++ r :: rest = (t1 :: t3 :: []) ++ r :: rest from e1)
        subst hpre
        refine PResult.bind_eq_ok.mpr ⟨(), t3 :: r :: rest',
          expect_keyword_cons _ k1, ?_⟩
        refine PResult.bind_eq_ok.mpr ⟨none, t3 :: r :: rest', ?_, ?_⟩
        · have hpk' : peek_symbol ';' (t3 :: r :: rest') = true :=
            (peek_symbol_append ';' [t3] r rest' rest).trans hpk
          rw [if_pos hpk']
        · refine PResult.bind_eq_ok.mpr ⟨(), _, expect_symbol_cons _ k3, ?_⟩
          subst ha
          rfl
      · next hpk =>
        simp only [PResult.bind_eq_ok, PResult.ok.injEq] at h2
        obtain ⟨e0, tsx, hex, hval, htsx⟩ := h2
        subst hval
        rw [htsx, e3] at hex
        obtain ⟨P1, d1, f1⟩ := frame_step ihF19 wk19 (Q := [t3]) hex
        obtain ⟨t1, e1, k1⟩ := expect_keyword_ok h1
        rw [d1] at e1
        have hpre : pre = t1 :: P1 := List.append_cancel_right
          (show pre ++ r :: rest = (t1 :: P1) ++ r :: rest from e1)
        subst hpre
        refine PResult.bind_eq_ok.mpr ⟨(), P1 ++ r :: rest',
          expect_keyword_cons _ k1, ?_⟩
        refine PResult.bind_eq_ok.mpr ⟨some e0, t3 :: r :: rest', ?_, ?_⟩
        · have hpk' : ¬peek_symbol ';' (P1 ++ r :: rest') = true := by
            rw [peek_symbol_append ';' P1 r rest' rest]
            exact d1 ▸ hpk
          rw [if_neg hpk']
          exact PResult.bind_eq_ok.mpr ⟨e0, _, f1 rest', rfl⟩
        · refine PResult.bind_eq_ok.mpr ⟨(), _, expect_symbol_cons _ k3, ?_⟩
          subst ha
          rfl
    -- parse_expression
    · intro pre r rest rest' a h
      rw [parse_expression] at h ⊢
      simp only [PResult.bind_eq_ok, PResult.ok.injEq] at h
      obtain ⟨it, ts1, h1, ops, ts2, h2, ha, hts⟩ := h
      subst hts
      obtain ⟨P2, d2, f2⟩ := frame_step ihF20 sh20 (Q := []) h2
      rw [d2] at h1
      obtain ⟨P1, d1, f1⟩ := frame_step ihF21 wk21 (Q := P2) h1
      have hpre : pre = P1 := List.append_cancel_right d1
      rw [hpre]
      refine PResult.bind_eq_ok.mpr ⟨it, _, f1 rest', ?_⟩
      refine PResult.bind_eq_ok.mpr ⟨ops, _, f2 rest', ?_⟩
      subst ha
      rfl
    -- parse_ops
    · intro pre r rest rest' a h
      rw [parse_ops] at h ⊢
      split at h
      · next op heq =>
        simp only [PResult.bind_eq_ok, PResult.ok.injEq] at h
        obtain ⟨t0, ts1, h1, rest0, ts2, h2, ha, hts⟩ := h
        subst hts
        obtain ⟨P2, d2, f2⟩ := frame_step ihF20 sh20 (Q := []) h2
        rw [d2] at h1
        obtain ⟨P1, d1, f1⟩ := frame_step ihF21 wk21 (Q := P2) h1
        cases pre with
        | nil =>
          have hd : rest = P1 ++ r :: rest := d1
          have hlen := congrArg List.length hd
          simp only [List.length_append, List.length_cons] at hlen
          omega
        | cons p pre' =>
          have hpre : pre' = P1 := List.append_cancel_right
            (show pre' ++ r :: rest = P1 ++ r :: rest from d1)
          subst hpre
          have heq' : peek_op ((p :: pre') ++ r :: rest') = some op :=
            (peek_op_append (p :: pre') r rest' rest).trans heq
          simp only [heq']
          refine PResult.bind_eq_ok.mpr ⟨t0, _, f1 rest', ?_⟩
          refine PResult.bind_eq_ok.mpr ⟨rest0, _, f2 rest', ?_⟩
          subst ha
          rfl
      · next heq =>
        simp only [PResult.ok.injEq] at h
        obtain ⟨ha, hts⟩ := h
        have hpre : pre = [] := List.append_cancel_right
          (show pre ++ r :: rest = [] ++ r :: rest from by simpa using hts)
        subst hpre
        have heq' : peek_op ([] ++ r :: rest') = none :=
          (peek_op_append [] r rest' rest).trans heq
        simp only [heq']
        subst ha
        rfl
    -- parse_term
    · intro pre r rest rest' a h
      rw [parse_term] at h ⊢
      split at h
      · simp at h
      · next t heq =>
        have hh' : (pre ++ r :: rest').head? = some t :=
          (head?_append pre r rest' rest).trans heq
        simp only [hh']
        split at h
        -- IntConst
        · next v hk =>
          simp only [PResult.ok.injEq] at h
          obtain ⟨ha, hts⟩ := h
          cases pre with
          | nil =>
            have hts2 : rest = r :: rest := hts
            have hlen := congrArg List.length hts2
            simp only [List.length_cons] at hlen
            omega
          | cons p pre' =>
            have hpre : pre' = [] := List.append_cancel_right
              (show pre' ++ r :: rest = [] ++ r :: rest from hts)
            subst hpre
            subst ha
            rfl
        -- StrConst
        · next s hk =>
          simp only [PResult.ok.injEq] at h
          obtain ⟨ha, hts⟩ := h
          cases pre with
          | nil =>
            have hts2 : rest = r :: rest := hts
            have hlen := congrArg List.length hts2
            simp only [List.length_cons] at hlen
            omega
          | cons p pre' =>
            have hpre : pre' = [] := List.append_cancel_right
              (show pre' ++ r :: rest = [] ++ r :: rest from hts)
            subst hpre
            subst ha
            rfl
        -- Keyword
        · next k hk =>
          split at h
          all_goals first
            | (simp only [PResult.ok.injEq] at h
               obtain ⟨ha, hts⟩ := h
               cases pre with
               | nil =>
                 have hts2 : rest = r :: rest := hts
                 have hlen := congrArg List.length hts2
                 simp only [List.length_cons] at hlen
                 omega
               | cons p pre' =>
                 have hpre : pre' = [] := List.append_cancel_right
                   (show pre' ++ r :: rest = [] ++ r :: rest from hts)
                 subst hpre
                 subst ha
                 rfl)
            | simp at h
        -- Identifier
        · next s hk =>
          split at h
          · next hcond =>
            simp only [PResult.bind_eq_ok, PResult.ok.injEq] at h
            obtain ⟨c0, ts1, h1, ha, hts⟩ := h
            subst hts
            have hne : pre ≠ [] := by
              intro hc
              rw [hc] at h1
              have hlt := (sh22 _ _ _ h1).2
              simp at hlt
            obtain ⟨P1, d1, f1⟩ := frame_step ihF22 wk22 (Q := []) h1
            have hpre : pre = P1 := List.append_cancel_right d1
            have hc' : peek_next_symbol '.' (pre ++ r :: rest') = true ∨
                peek_next_symbol '(' (pre ++ r :: rest') = true := by
              rcases hcond with hc | hc
              · exact Or.inl
                  ((peek_next_symbol_append '.' hne r rest' rest).trans hc)
              · exact Or.inr
                  ((peek_next_symbol_append '(' hne r rest' rest).trans hc)
            rw [if_pos hc']
            rw [hpre]
            refine PResult.bind_eq_ok.mpr ⟨c0, _, f1 rest', ?_⟩
            subst ha
            rfl
          · next hcond1 =>
            split at h
            · next hcond2 =>
              simp only [PResult.bind_eq_ok, PResult.ok.injEq] at h
              obtain ⟨nm, ts1, h1, u2, ts2, h2, e0, ts3, h3, u4, ts4, h4,
                ha, hts⟩ := h
              subst hts
              obtain ⟨t4, e4, k4⟩ := expect_symbol_ok h4
              rw [e4] at h3
              obtain ⟨P3, d3, f3⟩ := frame_step ihF19 wk19 (Q := [t4]) h3
              obtain ⟨t2, e2, k2⟩ := expect_symbol_ok h2
              rw [d3] at e2
              obtain ⟨t1, e1, k1⟩ := expect_identifier_ok h1
              rw [e2] at e1
              have hpre : pre = t1 :: t2 :: P3 := List.append_cancel_right
                (show pre ++ r :: rest = (t1 :: t2 :: P3) ++ r :: rest from e1)
              subst hpre
              have hc1' : ¬(peek_next_symbol '.'
                    ((t1 :: t2 :: P3) ++ r :: rest') = true ∨
                  peek_next_symbol '(' ((t1 :: t2 :: P3) ++ r :: rest') = true) := by
                rw [peek_next_symbol_append '.'
                    (List.cons_ne_nil t1 (t2 :: P3)) r rest' rest,
                  peek_next_symbol_append '('
                    (List.cons_ne_nil t1 (t2 :: P3)) r rest' rest]
                exact hcond1
              have hc2' : peek_next_symbol '['
                  ((t1 :: t2 :: P3) ++ r :: rest') = true :=
                (peek_next_symbol_append '['
                  (List.cons_ne_nil t1 (t2 :: P3)) r rest' rest).trans hcond2
              rw [if_neg hc1', if_pos hc2']
              refine PResult.bind_eq_ok.mpr ⟨nm, _, expect_identifier_cons _ k1, ?_⟩
              refine PResult.bind_eq_ok.mpr ⟨(), _, expect_symbol_cons _ k2, ?_⟩
              refine PResult.bind_eq_ok.mpr ⟨e0, _, f3 rest', ?_⟩
              refine PResult.bind_eq_ok.mpr ⟨(), _, expect_symbol_cons _ k4, ?_⟩
              subst ha
              rfl
            · next hcond2 =>
              simp only [PResult.bind_eq_ok, PResult.ok.injEq] at h
              obtain ⟨n0, ts1, h1, ha, hts⟩ := h
              subst hts
              obtain ⟨t1, e1, k1⟩ := expect_identifier_ok h1
              have hpre : pre = t1 :: [] := List.append_cancel_right
                (show pre ++ r :: rest = (t1 :: []) ++ r :: rest from e1)
              subst hpre
              have hc1' : ¬(peek_next_symbol '.'
                    ((t1 :: []) ++ r :: rest') = true ∨
                  peek_next_symbol '(' ((t1 :: []) ++ r :: rest') = true) := by
                rw [peek_next_symbol_append '.'
                    (List.cons_ne_nil t1 []) r rest' rest,
                  peek_next_symbol_append '('
                    (List.cons_ne_nil t1 []) r rest' rest]
                exact hcond1
              have hc2' : ¬peek_next_symbol '[' ((t1 :: []) ++ r :: rest') = true := by
                rw [peek_next_symbol_append '['
                  (List.cons_ne_nil t1 []) r rest' rest]
                exact hcond2
              rw [if_neg hc1', if_neg hc2']
              refine PResult.bind_eq_ok.mpr ⟨n0, _, expect_identifier_cons _ k1, ?_⟩
              subst ha
              rfl
        -- Symbol
        · next s hk =>
          split at h
          · next hs =>
            simp only [PResult.bind_eq_ok, PResult.ok.injEq] at h
            obtain ⟨e0, ts1, h1, u2, ts2, h2, ha, hts⟩ := h
            subst hts
            obtain ⟨t2, e2, k2⟩ := expect_symbol_ok h2
            rw [e2] at h1
            obtain ⟨P1, d1, f1⟩ := frame_step ihF19 wk19 (Q := [t2]) h1
            cases pre with
            | nil =>
              have hd : rest = P1 ++ r :: rest := d1
              have hlen := congrArg List.length hd
              simp only [List.length_append, List.length_cons] at hlen
              omega
            | cons p pre' =>
              have hpre : pre' = P1 := List.append_cancel_right
                (show pre' ++ r :: rest = P1 ++ r :: rest from d1)
              subst hpre
              rw [if_pos hs]
              refine PResult.bind_eq_ok.mpr ⟨e0, _, f1 rest', ?_⟩
              refine PResult.bind_eq_ok.mpr ⟨(), _, expect_symbol_cons _ k2, ?_⟩
              subst ha
              rfl
          · next hs =>
            split at h
            · next hs2 =>
              simp only [PResult.bind_eq_ok, PResult.ok.injEq] at h
              obtain ⟨inner, ts1, h1, ha, hts⟩ := h
              subst hts
              obtain ⟨P1, d1, f1⟩ := frame_step ihF21 wk21 (Q := []) h1
              cases pre with
              | nil =>
                have hd : rest = P1 ++ r :: rest := d1
                have hlen := congrArg List.length hd
                simp only [List.length_append, List.length_cons] at hlen
                omega
              | cons p pre' =>
                have hpre : pre' = P1 := List.append_cancel_right
                  (show pre' ++ r :: rest = P1 ++ r :: rest from d1)
                subst hpre
                rw [if_neg hs, if_pos hs2]
                refine PResult.bind_eq_ok.mpr ⟨inner, _, f1 rest', ?_⟩
                subst ha
                rfl
            · simp at h
    -- parse_subroutine_call
    · intro pre r rest rest' a h
      rw [parse_subroutine_call] at h ⊢
      simp only [PResult.bind_eq_ok, PResult.ok.injEq] at h
      obtain ⟨fi, ts1, h1, rn, ts2, h2, u3, ts3, h3, args, ts4, h4, u5, ts5,
        h5, ha, hts⟩ := h
      subst hts
      obtain ⟨t5, e5, k5⟩ := expect_symbol_ok h5
      rw [e5] at h4
      obtain ⟨P4, d4, f4⟩ := frame_step ihF23 sh23 (Q := [t5]) h4
      obtain ⟨t3, e3, k3⟩ := expect_symbol_ok h3
      rw [d4] at e3
      split at h2
      · next tsv heqv =>
        simp only [PResult.bind_eq_ok, PResult.ok.injEq] at h2
        obtain ⟨n2, tsx, hx, hrn, htsx⟩ := h2
        subst hrn
        rw [htsx, e3] at hx
        obtain ⟨tn, en, kn⟩ := expect_identifier_ok hx
        obtain ⟨td, ed, kd⟩ := match_symbol_true heqv
        rw [en] at ed
        obtain ⟨t1, e1, k1⟩ := expect_identifier_ok h1
        rw [ed] at e1
        have hpre : pre = t1 :: td :: tn :: t3 :: P4 := List.append_cancel_right
          (show pre ++ r :: rest = (t1 :: td :: tn :: t3 :: P4) ++ r :: rest from e1)
        subst hpre
        refine PResult.bind_eq_ok.mpr ⟨fi, (td :: tn :: t3 :: P4) ++ r :: rest',
          expect_identifier_cons _ k1, ?_⟩
        refine PResult.bind_eq_ok.mpr
          ⟨(some fi, n2), (t3 :: P4) ++ r :: rest', ?_, ?_⟩
        · have hm' : match_symbol '.' ((td :: tn :: t3 :: P4) ++ r :: rest')
              = (true, (tn :: t3 :: P4) ++ r :: rest') :=
            match_symbol_cons_true _ kd
          simp only [hm']
          refine PResult.bind_eq_ok.mpr ⟨n2, _, expect_identifier_cons _ kn, ?_⟩
          rfl
        · refine PResult.bind_eq_ok.mpr ⟨(), _, expect_symbol_cons _ k3, ?_⟩
          refine PResult.bind_eq_ok.mpr ⟨args, _, f4 rest', ?_⟩
          refine PResult.bind_eq_ok.mpr ⟨(), _, expect_symbol_cons _ k5, ?_⟩
          subst ha
          rfl
      · next tsv heqv =>
        simp only [PResult.ok.injEq] at h2
        obtain ⟨hrn, htsv⟩ := h2
        subst hrn
        have hveq : tsv = ts1 := match_symbol_false heqv
        have e1' : ts1 = t3 :: (P4 ++ r :: rest) := (hveq.symm.trans htsv).trans e3
        rw [e1'] at heqv
        have hkd : ¬t3.token_type = .Symbol '.' := match_symbol_false_cons heqv
        obtain ⟨t1, e1, k1⟩ := expect_identifier_ok h1
        rw [e1'] at e1
        have hpre : pre = t1 :: t3 :: P4 := List.append_cancel_right
          (show pre ++ r :: rest = (t1 :: t3 :: P4) ++ r :: rest from e1)
        subst hpre
        refine PResult.bind_eq_ok.mpr ⟨fi, (t3 :: P4) ++ r :: rest',
          expect_identifier_cons _ k1, ?_⟩
        refine PResult.bind_eq_ok.mpr
          ⟨(none, fi), (t3 :: P4) ++ r :: rest', ?_, ?_⟩
        · have hm' : match_symbol '.' ((t3 :: P4) ++ r :: rest')
              = (false, (t3 :: P4) ++ r :: rest') :=
            match_symbol_cons_false _ hkd
          simp only [hm']
        · refine PResult.bind_eq_ok.mpr ⟨(), _, expect_symbol_cons _ k3, ?_⟩
          refine PResult.bind_eq_ok.mpr ⟨args, _, f4 rest', ?_⟩
          refine PResult.bind_eq_ok.mpr ⟨(), _, expect_symbol_cons _ k5, ?_⟩
          subst ha
          rfl
    -- parse_expression_list
    · intro pre r rest rest' a h
      rw [parse_expression_list] at h ⊢
      split at h
      · next hpk =>
        simp only [PResult.ok.injEq] at h
        obtain ⟨ha, hts⟩ := h
        have hpre : pre = [] := List.append_cancel_right
          (show pre ++ r :: rest = [] ++ r :: rest from by simpa using hts)
        subst hpre
        have hpk' : peek_symbol ')' ([] ++ r :: rest') = true := by
          rw [peek_symbol_append ')' [] r rest' rest]
          exact hpk
        rw [if_pos hpk']
        subst ha
        rfl
      · next hpk =>
        simp only [PResult.bind_eq_ok, PResult.ok.injEq] at h
        obtain ⟨e0, ts1, h1, rest2, ts2, h2, ha, hts⟩ := h
        subst hts
        obtain ⟨P2, d2, f2⟩ := frame_step ihF24 sh24 (Q := []) h2
        rw [d2] at h1
        obtain ⟨P1, d1, f1⟩ := frame_step ihF19 wk19 (Q := P2) h1
        have hpre : pre = P1 := List.append_cancel_right d1
        rw [hpre]
        have hpk' : ¬peek_symbol ')' (P1 ++ r :: rest') = true := by
          rw [peek_symbol_append ')' P1 r rest' rest]
          exact hpre ▸ hpk
        rw [if_neg hpk']
        refine PResult.bind_eq_ok.mpr ⟨e0, _, f1 rest', ?_⟩
        refine PResult.bind_eq_ok.mpr ⟨rest2, _, f2 rest', ?_⟩
        subst ha
        rfl
    -- parse_args_rest
    · intro pre r rest rest' a h
      rw [parse_args_rest] at h ⊢
      split at h
      · next ts0 heq =>
        simp only [PResult.bind_eq_ok, PResult.ok.injEq] at h
        obtain ⟨e0, ts1, h1, rest2, ts2, h2, ha, hts⟩ := h
        subst hts
        obtain ⟨P2, d2, f2⟩ := frame_step ihF24 sh24 (Q := []) h2
        rw [d2] at h1
        obtain ⟨P1, d1, f1⟩ := frame_step ihF19 wk19 (Q := P2) h1
        obtain ⟨t0, e0t, k0⟩ := match_symbol_true heq
        rw [d1] at e0t
        have hpre : pre = t0 :: P1 := List.append_cancel_right
          (show pre ++ r :: rest = (t0 :: P1) ++ r :: rest from e0t)
        subst hpre
        have hm' : match_symbol ',' ((t0 :: P1) ++ r :: rest')
            = (true, P1 ++ r :: rest') :=
          match_symbol_cons_true _ k0
        simp only [hm']
        refine PResult.bind_eq_ok.mpr ⟨e0, _, f1 rest', ?_⟩
        refine PResult.bind_eq_ok.mpr ⟨rest2, _, f2 rest', ?_⟩
        subst ha
        rfl
      · next ts0 heq =>
        simp only [PResult.ok.injEq] at h
        obtain ⟨ha, hts⟩ := h
        have hfeq := match_symbol_false heq
        have hpre : pre = [] := by
          have hx : pre ++ r :: rest = r :: rest := by rw [← hfeq, hts]
          exact List.append_cancel_right
            (show pre ++ r :: rest = [] ++ r :: rest from by simpa using hx)
        subst hpre
        have hm' := match_symbol_append_false ',' [] r rest rest' ts0 heq
        simp only [hm']
        subst ha
        rfl

/-- Claim C8: both the tokenizer and the parser terminate on every input,
returning a result or an error, because every loop iteration advances the
cursor.  Formally: the fuel-indexed tokenizer loop never exhausts fuel
exceeding the character count (each iteration consumes at least one
character), `parse_class` never exhausts fuel of `4·(token count) + 1`
(each parser loop iteration and recursion level consumes tokens), and the
statement and expression parsers strictly consume tokens on every success —
so both passes are total functions bounded by input size. -/
theorem C8_theorem :
    (∀ (fuel : Nat) (chars : List Char) (line : Nat), chars.length < fuel →
      tokenizeAux fuel chars line ≠ none) ∧
    (∀ (fuel : Nat) (ts : List Token), 4 * ts.length + 1 ≤ fuel →
      parse_class fuel ts ≠ .fuelOut) ∧
    (∀ (fuel : Nat) (ts : List Token) (s : StatementNode) (ts' : List Token),
      parse_statement fuel ts = .ok s ts' → ts'.length < ts.length) ∧
    (∀ (fuel : Nat) (ts : List Token) (e : ExpressionNode) (ts' : List Token),
      parse_expression fuel ts = .ok e ts' → ts'.length < ts.length) := by
  refine ⟨tokenizeAux_total, fun fuel ts h => (parser_total fuel).1 ts h, ?_, ?_⟩
  · intro fuel ts s ts' h
    obtain ⟨-, -, -, -, -, -, -, -, -, -, -, -, sh13, -⟩ := parser_shrink fuel
    exact (sh13 ts s ts' h).2
  · intro fuel ts e ts' h
    obtain ⟨-, -, -, -, -, -, -, -, -, -, -, -, -, -, -, -, -, -, sh19, -⟩ :=
      parser_shrink fuel
    exact (sh19 ts e ts' h).2

/-- Claim C8 witness: the termination bounds of `C8_theorem` applied to
concrete inputs. -/
theorem C8_witness :
    tokenizeAux 2 ['x'] 1 ≠ none ∧
    parse_class 5 [] ≠ PResult.fuelOut ∧
    ([] : List Token).length < letIdxTokens.length ∧
    ([] : List Token).length < opsTokens.length :=
  ⟨C8_theorem.1 2 ['x'] 1 (by decide),
   C8_theorem.2.1 5 [] (by decide),
   C8_theorem.2.2.1 30 letIdxTokens
     (.Let (.mk "x" (some (.mk (.IntConst 1) [('+', .IntConst 2)]))
       (.mk (.IntConst 3) []))) [] (by rfl),
   C8_theorem.2.2.2 9 opsTokens
     (.mk (.IntConst 1) [('+', .IntConst 2), ('*', .IntConst 3)]) [] (by rfl)⟩

/-- A run of `parse_class` that consumes its input exactly is insensitive to
whatever tokens follow: appending `extra` to the input leaves the same class
AST and returns `extra` as the untouched remainder.  This is the cursor
discipline of the source parser — `parse_class` never looks past the class's
closing brace. -/
theorem parse_class_extend : ∀ (fuel : Nat) (ts extra : List Token) (c : ClassNode),
    parse_class fuel ts = .ok c [] →
    parse_class fuel (ts ++ extra) = .ok c extra := by
  intro fuel ts extra c h
  match fuel with
  | 0 =>
    rw [parse_class] at h
    exact absurd h (by simp)
  | n + 1 =>
    have hF2 := (parser_frame n).2.1
    have hF5 := (parser_frame n).2.2.2.2.1
    have hs2 := (parser_shrink n).2.1
    have hs5 := (parser_shrink n).2.2.2.2.1
    rw [parse_class] at h ⊢
    simp only [PResult.bind_eq_ok, PResult.ok.injEq] at h
    obtain ⟨u1, ts1, h1, nm, ts2, h2, u3, ts3, h3, vds, ts4, h4, sds, ts5,
      h5, u6, ts6, h6, ha, hts⟩ := h
    subst hts
    obtain ⟨t6, e6, k6⟩ := expect_symbol_ok h6
    rw [e6] at h5
    obtain ⟨P5, d5, f5⟩ := frame_step hF5 hs5 (Q := []) h5
    rw [d5] at h4
    obtain ⟨P4, d4, f4⟩ := frame_step hF2 hs2 (Q := P5) h4
    obtain ⟨t3, e3, k3⟩ := expect_symbol_ok h3
    obtain ⟨t2, e2, k2⟩ := expect_identifier_ok h2
    obtain ⟨t1, e1, k1⟩ := expect_keyword_ok h1
    rw [d4] at e3
    rw [e3] at e2
    rw [e2] at e1
    rw [e1]
    have hassoc : (t1 :: t2 :: t3 :: (P4 ++ t6 :: [])) ++ extra
        = t1 :: t2 :: t3 :: (P4 ++ t6 :: extra) := by
      simp
    rw [hassoc]
    refine PResult.bind_eq_ok.mpr ⟨(), _, expect_keyword_cons _ k1, ?_⟩
    refine PResult.bind_eq_ok.mpr ⟨nm, _, expect_identifier_cons _ k2, ?_⟩
    refine PResult.bind_eq_ok.mpr ⟨(), _, expect_symbol_cons _ k3, ?_⟩
    refine PResult.bind_eq_ok.mpr ⟨vds, _, f4 extra, ?_⟩
    refine PResult.bind_eq_ok.mpr ⟨sds, _, f5 extra, ?_⟩
    refine PResult.bind_eq_ok.mpr ⟨(), _, expect_symbol_cons _ k6, ?_⟩
    subst ha
    rfl

/-- Claim C9: `parse_class` does not require the token sequence to be
exhausted.  Universally: whenever `parse_class` consumes an input exactly
(a syntactically complete class declaration), running it on that input
followed by any further tokens succeeds with the same class AST and simply
leaves the extra tokens unconsumed — they are ignored, not reported as an
error.  Concretely: on the tokens of `class A { } class B { }` the parser
returns the AST of class `A` and silently leaves the four tokens of the
second class declaration as the remainder. -/
theorem C9_theorem :
    (∀ (fuel : Nat) (ts extra : List Token) (c : ClassNode),
      parse_class fuel ts = .ok c [] →
      parse_class fuel (ts ++ extra) = .ok c extra) ∧
    parse_class 40 twoClassTokens
      = .ok ⟨"A", [], []⟩
          [⟨.Keyword .Class, "class", 1⟩, ⟨.Identifier "B", "B", 1⟩,
           ⟨.Symbol '\x7b', "\x7b", 1⟩, ⟨.Symbol '\x7d', "\x7d", 1⟩] :=
  ⟨parse_class_extend, rfl⟩

/-- Claim C9 witness: the universal half of `C9_theorem` applied to the
concrete four-token class `class A { }` with the tokens of `class B { }`
appended; the hypothesis (an exactly-consuming run) is discharged by
computation. -/
theorem C9_witness :
    parse_class 40 (twoClassTokens.take 4 ++ twoClassTokens.drop 4)
      = .ok ⟨"A", [], []⟩ (twoClassTokens.drop 4) :=
  C9_theorem.1 40 (twoClassTokens.take 4) (twoClassTokens.drop 4)
    ⟨"A", [], []⟩ rfl

end Jack
